import Mathlib

/-!
# goget: path-based access to nested Go values

A shallow embedding of `goget.go` (package `goget`).

* Go values seen through `reflect` are finite trees (`GoVal`); a `reflect.Value`
  (`Value`) is either the zero Value or a tree together with the read-only flag that
  `reflect` sets on everything reached through a non-exported struct field.
* A call of the source returns a value, returns a `*QueryError`, or panics
  (`Outcome`).  Only the public wrappers recover from a panic.
* The standard library is modelled where the source depends on it: `strings`
  (`ToLower`, `TrimSpace`, `Contains`, `SplitN`), `strconv`
  (`Atoi`, `ParseInt`, `ParseUint`, `ParseBool`, `Itoa`) and the parts of `reflect`
  used by the source.  Renderings by `fmt` of values other than strings, booleans
  and integers, the parsing of floating-point literals, and the lower-case mapping of
  the runes that are not ASCII, are parameters (`Lib`): what is proved holds for every
  choice of them.
* Scope: predeclared types only (no defined types with methods), no embedded struct
  fields, no cyclic values; `int` is 64 bits wide.
-/

namespace Goget

/-! ## Standard library: strings -/

/-- Go `unicode.IsSpace`: the Unicode White_Space code points. -/
def isSpace (c : Char) : Bool :=
  let n := c.toNat
  n == 9 || n == 10 || n == 11 || n == 12 || n == 13 || n == 32 || n == 0x85 || n == 0xA0
    || n == 0x1680 || (0x2000 ≤ n && n ≤ 0x200a) || n == 0x2028 || n == 0x2029
    || n == 0x202f || n == 0x205f || n == 0x3000

/-- Go `strings.TrimSpace`. -/
def trimSpace (s : String) : String :=
  String.mk ((s.data.dropWhile isSpace).reverse.dropWhile isSpace).reverse

/-- Go `strings.Contains(s, "=")`. -/
def containsEq (s : String) : Bool := s.data.contains '='

/-- Go `strings.SplitN(s, "=", 2)`: cut at the first `=`, if there is one. -/
def splitN2 (s : String) : List String :=
  if containsEq s then
    [String.mk (s.data.takeWhile (fun c => c != '=')),
     String.mk ((s.data.dropWhile (fun c => c != '=')).drop 1)]
  else [s]

/-- Rendering of a `[]string` by `fmt` under `%s`: `[a b c]`. -/
def fmtKeys (keys : List String) : String := "[" ++ " ".intercalate keys ++ "]"

/-! ## Standard library: strconv -/

/-- The two failures of `strconv`: `ErrSyntax` and `ErrRange`. -/
inductive NumErrKind where
  | ErrSyntax
  | ErrRange
  deriving DecidableEq, Repr

/-- Go `*strconv.NumError`. -/
structure NumError where
  Func : String
  Num : String
  Err : NumErrKind
  deriving DecidableEq, Repr

/-- The digit loop of `strconv.ParseUint(s, 10, 64)`: a character that is not a
decimal digit is a syntax error (value 0); a value above `2^64 - 1` is a range
error (value `2^64 - 1`), reported as soon as it is reached. -/
def parseUintLoop : List Char → Nat → Nat × Option NumErrKind
  | [], n => (n, none)
  | c :: cs, n =>
    if c.isDigit then
      let n1 := n * 10 + (c.toNat - 48)
      if 2 ^ 64 ≤ n1 then (2 ^ 64 - 1, some .ErrRange) else parseUintLoop cs n1
    else (0, some .ErrSyntax)

/-- Go `strconv.ParseUint(s, 10, 64)`: the value and the error. -/
def parseUint (s : String) : Nat × Option NumErrKind :=
  match s.data with
  | [] => (0, some .ErrSyntax)
  | cs => parseUintLoop cs 0

/-- Go `strconv.ParseInt(s, 10, 64)`: the value and the error. -/
def parseInt (s : String) : Int × Option NumErrKind :=
  match s.data with
  | [] => (0, some .ErrSyntax)
  | c :: cs =>
    let neg := c == '-'
    let rest := if c == '+' || c == '-' then cs else c :: cs
    match parseUint (String.mk rest) with
    | (_, some .ErrSyntax) => (0, some .ErrSyntax)
    | (un, _) =>
      if !neg && 2 ^ 63 ≤ un then ((2 : Int) ^ 63 - 1, some .ErrRange)
      else if neg && 2 ^ 63 < un then (-(2 : Int) ^ 63, some .ErrRange)
      else (if neg then -(un : Int) else (un : Int), none)

/-- Go `strconv.Atoi` on a 64-bit platform. -/
def atoi (s : String) : Except NumError Int :=
  match parseInt s with
  | (i, none) => .ok i
  | (_, some k) => .error { Func := "Atoi", Num := s, Err := k }

/-- Go `strconv.Itoa`. -/
def itoa (i : Int) : String :=
  match i with
  | Int.ofNat n => Nat.repr n
  | Int.negSucc n => "-" ++ Nat.repr (n + 1)

/-- Go `strconv.ParseBool`, with `false` for a string it rejects. -/
def parseBool (s : String) : Bool :=
  s == "1" || s == "t" || s == "T" || s == "TRUE" || s == "true" || s == "True"

/-! ## Data model -/

/-- The signed integer kinds of `reflect`. -/
inductive IntKind where
  | int | int8 | int16 | int32 | int64
  deriving DecidableEq, Repr

/-- The unsigned integer kinds of `reflect`. -/
inductive UintKind where
  | uint | uint8 | uint16 | uint32 | uint64 | uintptr
  deriving DecidableEq, Repr

/-- The floating-point kinds of `reflect`. -/
inductive FloatKind where
  | float32 | float64
  deriving DecidableEq, Repr

/-- The complex kinds of `reflect`. -/
inductive ComplexKind where
  | complex64 | complex128
  deriving DecidableEq, Repr

/-- Width in bits of a signed integer kind. -/
def IntKind.bits : IntKind → Nat
  | .int => 64 | .int8 => 8 | .int16 => 16 | .int32 => 32 | .int64 => 64

/-- Width in bits of an unsigned integer kind. -/
def UintKind.bits : UintKind → Nat
  | .uint => 64 | .uint8 => 8 | .uint16 => 16 | .uint32 => 32 | .uint64 => 64 | .uintptr => 64

/-- Go `reflect.Kind`. -/
inductive Kind where
  | Invalid | Bool | Int | Int8 | Int16 | Int32 | Int64
  | Uint | Uint8 | Uint16 | Uint32 | Uint64 | Uintptr
  | Float32 | Float64 | Complex64 | Complex128
  | Array | Chan | Func | Interface | Map | Pointer | Slice | String | Struct | UnsafePointer
  deriving DecidableEq, Repr

/-- Go `Kind.String()`. -/
def kindName : Kind → String
  | .Invalid => "invalid" | .Bool => "bool" | .Int => "int" | .Int8 => "int8"
  | .Int16 => "int16" | .Int32 => "int32" | .Int64 => "int64" | .Uint => "uint"
  | .Uint8 => "uint8" | .Uint16 => "uint16" | .Uint32 => "uint32" | .Uint64 => "uint64"
  | .Uintptr => "uintptr" | .Float32 => "float32" | .Float64 => "float64"
  | .Complex64 => "complex64" | .Complex128 => "complex128" | .Array => "array"
  | .Chan => "chan" | .Func => "func" | .Interface => "interface" | .Map => "map"
  | .Pointer => "ptr" | .Slice => "slice" | .String => "string" | .Struct => "struct"
  | .UnsafePointer => "unsafe.Pointer"

/-- Kind of a signed integer kind. -/
def IntKind.kind : IntKind → Kind
  | .int => .Int | .int8 => .Int8 | .int16 => .Int16 | .int32 => .Int32 | .int64 => .Int64

/-- Kind of an unsigned integer kind. -/
def UintKind.kind : UintKind → Kind
  | .uint => .Uint | .uint8 => .Uint8 | .uint16 => .Uint16 | .uint32 => .Uint32
  | .uint64 => .Uint64 | .uintptr => .Uintptr

/-- Kind of a floating-point kind. -/
def FloatKind.kind : FloatKind → Kind
  | .float32 => .Float32 | .float64 => .Float64

/-- Kind of a complex kind. -/
def ComplexKind.kind : ComplexKind → Kind
  | .complex64 => .Complex64 | .complex128 => .Complex128

/-- The key type of a map, as far as the source inspects it.  `iface` is an
interface key type; `other` is any further comparable key type (struct, array,
pointer, channel), given by the name `reflect` prints for it. -/
inductive KeyType where
  | string
  | bool
  | int (k : IntKind)
  | uint (k : UintKind)
  | float (k : FloatKind)
  | complex (k : ComplexKind)
  | iface
  | other (name : String)
  deriving DecidableEq, Repr

/-- A map key.  Floating-point keys are given by their IEEE bits; `nil` is the nil
interface; `other n` is a key of a further comparable type, `other 0` being the zero
value of that type. -/
inductive MapKey where
  | str (s : String)
  | bool (b : Bool)
  | int (i : Int)
  | uint (n : Nat)
  | float (bits : Nat)
  | complex (re im : Nat)
  | nil
  | other (id : Nat)
  deriving DecidableEq, Repr

/-- A Go value as `reflect` sees it.  `iface` and `nilIface` are slots of interface
type (a field, element or map value declared with an interface type); `ptr` and
`nilPtr` are pointers.  A struct field is its name, whether it is exported, and its
value; the entries of a map are listed in the order `MapKeys` enumerates them. -/
inductive GoVal where
  | bool (b : Bool)
  | int (k : IntKind) (i : Int)
  | uint (k : UintKind) (n : Nat)
  | float (k : FloatKind) (bits : Nat)
  | complex (k : ComplexKind) (re im : Nat)
  | str (s : String)
  | chan (id : Nat)
  | func (id : Nat)
  | unsafePointer (addr : Nat)
  | nilPtr
  | ptr (elem : GoVal)
  | nilIface
  | iface (dyn : GoVal)
  | slice (elems : List GoVal)
  | array (elems : List GoVal)
  | nilMap (keyType : KeyType)
  | map (keyType : KeyType) (entries : List (MapKey × GoVal))
  | struct (fields : List (String × Bool × GoVal))

/-- Go `reflect.Value`: the zero Value, or a value with its read-only flag
(`flagRO`, set on whatever is reached through a non-exported struct field). -/
inductive Value where
  | invalid
  | val (ro : Bool) (g : GoVal)

/-- A Go `any`: nil or a dynamic value. -/
abbrev GoAny := Option GoVal

/-- Go `Value.Kind` of a valid value. -/
def GoVal.kind : GoVal → Kind
  | .bool _ => .Bool
  | .int k _ => k.kind
  | .uint k _ => k.kind
  | .float k _ => k.kind
  | .complex k _ _ => k.kind
  | .str _ => .String
  | .chan _ => .Chan
  | .func _ => .Func
  | .unsafePointer _ => .UnsafePointer
  | .nilPtr => .Pointer
  | .ptr _ => .Pointer
  | .nilIface => .Interface
  | .iface _ => .Interface
  | .slice _ => .Slice
  | .array _ => .Array
  | .nilMap _ => .Map
  | .map _ _ => .Map
  | .struct _ => .Struct

/-- Go `Value.Kind`. -/
def Value.kind : Value → Kind
  | .invalid => .Invalid
  | .val _ g => g.kind

/-- Go `Value.IsValid`. -/
def Value.isValid : Value → Bool
  | .invalid => false
  | .val _ _ => true

/-- Go `Value.CanInterface`: the value was not reached through a non-exported field. -/
def Value.canInterface : Value → Bool
  | .invalid => false
  | .val ro _ => !ro

/-- Go `reflect.ValueOf`. -/
def valueOf : GoAny → Value
  | none => .invalid
  | some g => .val false g

/-- Go `valueToAny`: the current value of a Value (also of a non-exported field) as an
`any`; both branches of the source, `Interface` and `valueInterface`, give the
dynamic value of an interface slot and the value itself otherwise. -/
def valueToAny : Value → GoAny
  | .invalid => none
  | .val _ .nilIface => none
  | .val _ (.iface d) => some d
  | .val _ g => some g

/-! ## Errors and outcomes -/

/-- Go `ErrCode`. -/
abbrev ErrCode := Int

/-- Not found by paths. -/
def ErrNotFound : ErrCode := 1

/-- Target type not match. -/
def ErrTypeMatch : ErrCode := 2

/-- Go `QueryError`.  The cause is never a `*QueryError` (see `newQueryError`); in
this package it is a `*strconv.NumError` or nil. -/
structure QueryError where
  Code : ErrCode
  Detail : String
  cause : Option NumError
  deriving DecidableEq, Repr

/-- A Go `error` handed to `newQueryError` as the cause. -/
inductive GoError where
  | query (e : QueryError)
  | num (e : NumError)

/-- Go `newQueryError`, the detail already formatted: a cause that is a
`*QueryError` is returned itself. -/
def newQueryError (cause : Option GoError) (code : ErrCode) (detail : String) : QueryError :=
  match cause with
  | some (.query err) => err
  | some (.num e) => { Code := code, Detail := detail, cause := some e }
  | none => { Code := code, Detail := detail, cause := none }

/-- What a call of `query` or `toConcreteElem` does: return a value and a nil error,
return an error (the value returned with it is dropped by every caller), or panic
with a message. -/
inductive Outcome where
  | ok (v : Value)
  | err (e : QueryError)
  | panic (msg : String)

/-- The renderings, the parsers and the Unicode case table of the standard library that
are not modelled. -/
structure Lib where
  /-- Rendering by `fmt` under `%v` of a value that is not a string, boolean, integer
  or nil. -/
  sprintV : GoVal → String
  /-- Rendering by `fmt` under `%s` of a `reflect.Value`. -/
  sprintS : Value → String
  /-- Key of a float-keyed map made from a key string: IEEE bits. -/
  floatKey : FloatKind → String → Nat
  /-- Key of a complex-keyed map made from a key string: IEEE bits of both parts. -/
  complexKey : ComplexKind → String → Nat × Nat
  /-- Go `unicode.ToLower` of a rune that is not ASCII (for instance U+0130 becomes
  `i`, and `Ä` becomes `ä`). -/
  lowerRune : Char → Char

/-- Go `unicode.ToLower`: the letters `A` to `Z` of ASCII are folded, every other ASCII
rune is kept, and a rune that is not ASCII is mapped by the table of the library. -/
def lowerChar (lib : Lib) (c : Char) : Char :=
  if c.toNat < 128 then c.toLower else lib.lowerRune c

/-- Go `strings.ToLower`: every rune of the string mapped by `unicode.ToLower`. -/
def toLower (lib : Lib) (s : String) : String := String.mk (s.data.map (lowerChar lib))

/-! ## Concretizer -/

/-- Modelled from the spec: `valueInterface` is declared outside `goget.go` (the
fallback read path for a non-exported field); it gives the current value of a Value
as an `any` whether or not the Value is read-only, as `Value.Interface` does for a
Value that is not. -/
def valueInterface (value : Value) : GoAny := valueToAny value

/-- Go `reflect.Indirect`: the value a pointer points to, the zero Value for a nil
pointer, and the value itself when it is not a pointer. -/
def indirect : Value → Value
  | .val ro (.ptr e) => .val ro e
  | .val _ .nilPtr => .invalid
  | v => v

/-- The `switch value.Kind()` of `toConcreteElem`: one layer of interface boxing or
pointer indirection is removed. -/
def unwrapOnce (lib : Lib) (value : Value) (safe : Bool) : Except QueryError Value :=
  match value.kind with
  | .Invalid => .error (newQueryError none ErrNotFound (lib.sprintS value))
  | .Interface =>
    if value.canInterface then .ok (valueOf (valueToAny value))
    else if safe then .error (newQueryError none ErrNotFound (lib.sprintS value))
    else .ok (valueOf (valueInterface value))
  | .Pointer => .ok (indirect value)
  | _ => .ok value

/-- Go `toConcreteElem`, by recursion on the budget `11 - depth`: budget 0 is the
guard `depth > 10`. -/
def toConcreteElemFrom (lib : Lib) : Nat → Value → Bool → Nat → Outcome
  | 0, _, _, depth =>
    .err (newQueryError none ErrNotFound ("get concret elem exceed max depth " ++ Nat.repr depth))
  | budget + 1, value, safe, depth =>
    match unwrapOnce lib value safe with
    | .error e => .err e
    | .ok value =>
      if value.kind == .Interface || value.kind == .Pointer then
        toConcreteElemFrom lib budget value safe (depth + 1)
      else .ok value

/-- Go `toConcreteElem`: an interface or pointer Value is converted to its concrete
(underlying) element. -/
def toConcreteElem (lib : Lib) (value : Value) (safe : Bool) (depth : Nat) : Outcome :=
  toConcreteElemFrom lib (11 - depth) value safe depth

/-! ## Type coercer: the conversions used on keys and in filters -/

/-- Rendering by `fmt` under `%v` of an `any`. -/
def sprintAny (lib : Lib) : GoAny → String
  | none => "<nil>"
  | some (.str s) => s
  | some (.bool b) => if b then "true" else "false"
  | some (.int _ i) => itoa i
  | some (.uint _ n) => Nat.repr n
  | some g => lib.sprintV g

/-- Go `valueToString`. -/
def valueToString (lib : Lib) (value : Value) : String :=
  match value with
  | .val _ (.str s) => s
  | _ => sprintAny lib (valueToAny value)

/-- Conversion of an integer to a signed integer of the given width (two's
complement wrap-around). -/
def wrapInt (bits : Nat) (i : Int) : Int :=
  (i + 2 ^ (bits - 1)) % 2 ^ bits - 2 ^ (bits - 1)

/-- Go `valueToInt` on a string Value: `strconv.ParseInt` of the string, the error
dropped. -/
def stringToInt (s : String) : Int := (parseInt s).1

/-- Go `valueToUint` on a string Value: `strconv.ParseUint` of the string, the error
dropped. -/
def stringToUint (s : String) : Nat := (parseUint s).1

/-- Go `valueToBool` on a string Value: `strconv.ParseBool` of the string, the error
dropped. -/
def stringToBool (s : String) : Bool := parseBool s

/-! ## Key matcher -/

/-- Name `reflect` prints for a key type. -/
def KeyType.name : KeyType → String
  | .string => "string"
  | .bool => "bool"
  | .int k => kindName k.kind
  | .uint k => kindName k.kind
  | .float k => kindName k.kind
  | .complex k => kindName k.kind
  | .iface => "interface \x7b\x7d"
  | .other n => n

/-- Go `stringToMapKeyType`: a key string converted to the key type of a map.  A key
type without a rule gives the zero value of that type. -/
def stringToMapKeyType (lib : Lib) (key : String) (kind : KeyType) : MapKey :=
  match kind with
  | .bool => .bool (stringToBool key)
  | .string => .str key
  | .int k => .int (wrapInt k.bits (stringToInt key))
  | .uint k => .uint (stringToUint key % 2 ^ k.bits)
  | .complex k => .complex (lib.complexKey k key).1 (lib.complexKey k key).2
  | .float k => .float (lib.floatKey k key)
  | .iface => .nil
  | .other _ => .other 0

/-- Entry of a map at a key. -/
def lookupKey (key : MapKey) : List (MapKey × GoVal) → Option GoVal
  | [] => none
  | (k, v) :: rest => if k = key then some v else lookupKey key rest

/-- Go `Value.MapIndex` on a map Value: the entry at the key, the zero Value when
there is none; a string handed to a map whose key type is neither `string` nor an
interface is not assignable, and `reflect` panics. -/
def mapIndex (value : Value) (key : MapKey) : Outcome :=
  match value with
  | .val _ (.nilMap kt) =>
    match key, kt with
    | .str _, .string => .ok .invalid
    | .str _, .iface => .ok .invalid
    | .str _, kt =>
      .panic ("reflect.Value.MapIndex: value of type string is not assignable to type " ++ kt.name)
    | _, _ => .ok .invalid
  | .val ro (.map kt entries) =>
    match key, kt with
    | .str _, .string => .ok ((lookupKey key entries).elim .invalid (Value.val ro))
    | .str _, .iface => .ok ((lookupKey key entries).elim .invalid (Value.val ro))
    | .str _, kt =>
      .panic ("reflect.Value.MapIndex: value of type string is not assignable to type " ++ kt.name)
    | _, _ => .ok ((lookupKey key entries).elim .invalid (Value.val ro))
  | _ => .panic "reflect: call of reflect.Value.MapIndex on a Value that is not a map"

/-- Go `Value.String` of a map key. -/
def MapKey.string : MapKey → String
  | .str s => s
  | _ => "<Value>"

/-- The loop of `findMapKeyValue` over `MapKeys`: the first key equal to the wanted
one after lower-casing and trimming. -/
def searchMapKeys (lib : Lib) (currentKey : String) (keyValue : MapKey) : List (MapKey × GoVal) → MapKey
  | [] => keyValue
  | (mapKeyValue, _) :: rest =>
    if trimSpace (toLower lib mapKeyValue.string) == trimSpace (toLower lib currentKey) then mapKeyValue
    else searchMapKeys lib currentKey keyValue rest

/-- Go `findMapKeyValue`: the exact key first, then (unless case-sensitive) the
first key that matches without regard to case; the key as is when none does. -/
def findMapKeyValue (lib : Lib) (value : Value) (currentKey : String) (caseSensitive : Bool) :
    MapKey :=
  let keyValue := MapKey.str currentKey
  match value with
  | .val _ (.map kt entries) =>
    if kt ≠ .string then stringToMapKeyType lib currentKey kt
    else if caseSensitive then keyValue
    else if (lookupKey keyValue entries).isSome then keyValue
    else searchMapKeys lib currentKey keyValue entries
  | _ => keyValue

/-- Go `Value.FieldByName` and `Type.FieldByName` on a struct: the field of that
name. -/
def fieldByName (fields : List (String × Bool × GoVal)) (name : String) :
    Option (String × Bool × GoVal) :=
  fields.find? (fun f => f.1 == name)

/-- The loop of `findStructFieldName` over the declared fields. -/
def searchFieldNames (lib : Lib) (currentKey : String) : List (String × Bool × GoVal) → String
  | [] => currentKey
  | (fieldName, _, _) :: rest =>
    if trimSpace (toLower lib fieldName) == trimSpace (toLower lib currentKey) then fieldName
    else searchFieldNames lib currentKey rest

/-- Go `findStructFieldName`: the exact name first, then (unless case-sensitive) the
first field that matches without regard to case; the key as is when none does. -/
def findStructFieldName (lib : Lib) (fields : List (String × Bool × GoVal))
    (currentKey : String)
    (caseSensitive : Bool) : String :=
  if caseSensitive then currentKey
  else if (fieldByName fields currentKey).isSome then currentKey
  else searchFieldNames lib currentKey fields

/-! ## Resolver and sequence navigator -/

/-- Go `Value.FieldByName` on a struct Value: the field as a Value, read-only when
the struct is or the field is not exported; the zero Value when there is none. -/
def fieldValueByName (ro : Bool) (fields : List (String × Bool × GoVal)) (name : String) :
    Value :=
  match fieldByName fields name with
  | some (_, exported, v) => .val (ro || !exported) v
  | none => .invalid

/-- The `for index` loop of the slice filter in `query`, over the elements still to
visit.  `recur` stands for the recursive calls of `query` with the same flags. An
element is skipped when its attribute does not resolve, is not the wanted literal,
or when the remaining keys do not resolve on it; a panic is not caught. -/
def filterLoop (lib : Lib) (recur : Value → List String → Outcome) (safe ro : Bool)
    (k queryAttr currentKey : String) (remainKeys : List String) : List GoVal → Outcome
  | [] => .err (newQueryError none ErrNotFound ("[slice filter] no elem by key: " ++ currentKey))
  | e :: rest =>
    let indexValue := Value.val ro e
    let attrKeys := if k != "" then [k] else []
    match recur indexValue attrKeys with
    | .panic m => .panic m
    | .err _ => filterLoop lib recur safe ro k queryAttr currentKey remainKeys rest
    | .ok attrVal =>
      if !attrVal.isValid then
        filterLoop lib recur safe ro k queryAttr currentKey remainKeys rest
      else
        match toConcreteElem lib attrVal safe 0 with
        | .panic m => .panic m
        | .err _ => filterLoop lib recur safe ro k queryAttr currentKey remainKeys rest
        | .ok attrVal =>
          if valueToString lib attrVal != queryAttr then
            filterLoop lib recur safe ro k queryAttr currentKey remainKeys rest
          else
            match recur indexValue remainKeys with
            | .panic m => .panic m
            | .err _ => filterLoop lib recur safe ro k queryAttr currentKey remainKeys rest
            | .ok v => .ok v

/-- The slice and array case of `query`. -/
def querySeq (lib : Lib) (recur : Value → List String → Outcome) (safe ro : Bool)
    (elems : List GoVal) (currentKey : String) (remainKeys : List String) : Outcome :=
  if containsEq currentKey then
    match splitN2 currentKey with
    | [k, queryAttr] => filterLoop lib recur safe ro k queryAttr currentKey remainKeys elems
    | _ =>
      .err (newQueryError none ErrNotFound ("[slice filter] invalid key format: " ++ currentKey))
  else
    let currentKey := if toLower lib currentKey == "first" then "0" else currentKey
    let currentKey :=
      if toLower lib currentKey == "last" then itoa ((elems.length : Int) - 1) else currentKey
    match atoi currentKey with
    | .error convErr =>
      .err (newQueryError (some (.num convErr)) ErrNotFound ("[slice] invalid key: " ++ currentKey))
    | .ok index =>
      if index ≥ (elems.length : Int) || index < -(elems.length : Int) then
        .err (newQueryError none ErrNotFound ("[slice] invalid key: " ++ currentKey))
      else
        let index := if index < 0 then (elems.length : Int) + index else index
        match elems[index.toNat]? with
        | none => .panic "reflect: slice index out of range"
        | some e =>
          match recur (.val ro e) remainKeys with
          | .panic m => .panic m
          | .err err =>
            .err (newQueryError (some (.query err)) ErrNotFound
              ("[slice] query keys: " ++ fmtKeys remainKeys))
          | .ok value => .ok value

/-- The body of `query`; `recur` stands for its recursive calls, which keep the two
flags. -/
def queryStep (lib : Lib) (recur : Value → List String → Outcome) (value : Value)
    (caseSensitive safe : Bool) (keys : List String) : Outcome :=
  if !value.isValid then .err (newQueryError none ErrNotFound "invalid value")
  else
    match keys with
    | [] => .ok value
    | currentKey :: remainKeys =>
      match toConcreteElem lib value safe 0 with
      | .panic m => .panic m
      | .err err =>
        .err (newQueryError (some (.query err)) ErrNotFound ("invalid key: " ++ currentKey))
      | .ok value =>
        match value with
        | .val _ (.nilMap _) | .val _ (.map _ _) =>
          let keyValue := findMapKeyValue lib value currentKey caseSensitive
          match mapIndex value keyValue with
          | .panic m => .panic m
          | .err e => .err e
          | .ok fieldValue =>
            if !fieldValue.isValid then
              .err (newQueryError none ErrNotFound
                ("[map] value not found by key " ++ currentKey))
            else
              match recur fieldValue remainKeys with
              | .panic m => .panic m
              | .err err =>
                .err (newQueryError (some (.query err)) ErrNotFound
                  ("[map] query keys: " ++ fmtKeys remainKeys))
              | .ok value => .ok value
        | .val ro (.struct fields) =>
          let fieldName := findStructFieldName lib fields currentKey caseSensitive
          let gate : Option QueryError :=
            if safe then
              match fieldByName fields fieldName with
              | none =>
                some (newQueryError none ErrNotFound
                  ("[struct] field " ++ currentKey ++ " not exists"))
              | some (_, exported, _) =>
                if !exported then
                  some (newQueryError none ErrNotFound
                    ("[struct] field " ++ currentKey ++ " not exported"))
                else none
            else none
          match gate with
          | some e => .err e
          | none =>
            let fieldValue := fieldValueByName ro fields fieldName
            if !fieldValue.isValid then
              .err (newQueryError none ErrNotFound
                ("[struct] value not found by field " ++ fieldName))
            else
              match recur fieldValue remainKeys with
              | .panic m => .panic m
              | .err err =>
                .err (newQueryError (some (.query err)) ErrNotFound
                  ("[struct] error query keys: " ++ fmtKeys remainKeys))
              | .ok value => .ok value
        | .val ro (.slice elems) | .val ro (.array elems) =>
          querySeq lib recur safe ro elems currentKey remainKeys
        | _ => .err (newQueryError none ErrNotFound ("invalid kind: " ++ kindName value.kind))

/-- Size of a key list: its keys and their characters.  Every recursive call of
`query` is on a smaller list. -/
def keysSize : List String → Nat
  | [] => 0
  | k :: ks => k.length + 1 + keysSize ks

/-- Go `query`, with the recursion depth bounded by `fuel`. -/
def queryFuel (lib : Lib) (caseSensitive safe : Bool) : Nat → Value → List String → Outcome
  | 0, _, _ => .panic "query: recursion budget exhausted"
  | fuel + 1, value, keys =>
    queryStep lib (queryFuel lib caseSensitive safe fuel) value caseSensitive safe keys

/-- Go `query`: search a Value by keys and return the result element.  The budget
`keysSize keys + 1` is never exhausted (`query_unfold`). -/
def query (lib : Lib) (value : Value) (caseSensitive safe : Bool) (keys : List String) :
    Outcome :=
  queryFuel lib caseSensitive safe (keysSize keys + 1) value keys

/-! ## Key splitter -/

/-- Go `strings.Split(s, sep)` for a non-empty separator, on the characters still
to read: `skip` characters of a separator just met are passed over, `acc` is the
piece being read (reversed). -/
def splitLoop (sep : List Char) : Nat → List Char → List Char → List String
  | _, [], acc => [String.mk acc.reverse]
  | skip + 1, _ :: cs, acc => splitLoop sep skip cs acc
  | 0, c :: cs, acc =>
    if sep.isPrefixOf (c :: cs) then
      String.mk acc.reverse :: splitLoop sep (sep.length - 1) cs []
    else splitLoop sep 0 cs (c :: acc)

/-- Go `strings.Split`; an empty separator splits after each character. -/
def stringsSplit (s separator : String) : List String :=
  if separator.data.isEmpty then s.data.map (fun c => String.mk [c])
  else splitLoop separator.data 0 s.data []

/-- Go `strings.HasSuffix`. -/
def hasSuffix (s suffix : String) : Bool := suffix.data.reverse.isPrefixOf s.data.reverse

/-- The loop of `splitWithEscape`, from the last but one fragment down to the first:
a fragment that ends with the escape string loses it and is joined, by the
separator, with the (already processed) fragment after it. -/
def joinEscaped (separator esc : String) : List String → List String
  | [] => []
  | x :: rest =>
    match joinEscaped separator esc rest with
    | [] => [x]
    | y :: ys =>
      if hasSuffix x esc then
        (String.mk (x.data.take (x.data.length - esc.data.length)) ++ separator ++ y) :: ys
      else x :: y :: ys

/-- Go `splitWithEscape`: like `strings.Split`, with an escape string. -/
def splitWithEscape (s separator esc : String) : List String :=
  joinEscaped separator esc (stringsSplit s separator)

/-- Go `pathsToKeys`: paths normalized to keys by splitting each path at commas. -/
def pathsToKeys (paths : List String) : List String :=
  paths.flatMap (fun path => (splitWithEscape path "," "\\").map trimSpace)

/-! ## Public surface -/

/-- Go `Option`: a set of flags. -/
abbrev GoOption := Nat

/-- Try best. -/
def None : GoOption := 0

/-- Match keys case-sensitive (`1 << iota` at the second line of the block). -/
def Case : GoOption := 2

/-- Skip unexported fields of a struct. -/
def Safe : GoOption := 4

/-- Strict match target type (`Type` in the source). -/
def OptType : GoOption := 8

/-- Go `Result`. -/
structure Result where
  val : Value
  err : Option QueryError

/-- Go `queryResult`: search an object's elements by paths; `.error` is a panic of
`query`, which `queryResult` does not catch. -/
def queryResult (lib : Lib) (obj : GoAny) (opt : GoOption) (paths : List String) :
    Except String Result :=
  if paths.length == 0 then .ok { val := valueOf obj, err := none }
  else
    match query lib (valueOf obj) (opt &&& Case == Case) (opt &&& Safe == Safe)
        (pathsToKeys paths) with
    | .panic m => .error m
    | .err err => .ok { val := .invalid, err := some err }
    | .ok value => .ok { val := value, err := none }

/-- Go `resultToAny[any]`, the target type being `any`: the type assertion `_v.(any)`
holds for every `_v` that is not nil, and a nil `_v` is a type mismatch, whether or
not the match is strict.  The result is the pair `(target, err)` of the source. -/
def resultToAny_any (result : Result) (typeStrict : Bool) : GoAny × Option QueryError :=
  match result.err with
  | some err => (none, some err)
  | none =>
    match valueToAny result.val with
    | some v => (some v, none)
    | none =>
      if typeStrict then
        (none, some (newQueryError none ErrTypeMatch "result type not match: need <nil> got <nil>"))
      else if !(valueOf none).isValid then
        (none, some (newQueryError none ErrTypeMatch "result type not match: need <nil> got <nil>"))
      else (none, none)

/-- Go `AnyResult`: the pair `(result, err)`; a panic is recovered into a not-found
error whose detail is the panic message. -/
def AnyResult (lib : Lib) (obj : GoAny) (opt : GoOption) (paths : List String) :
    GoAny × Option QueryError :=
  match queryResult lib obj opt paths with
  | .error r => (none, some (newQueryError none ErrNotFound r))
  | .ok result => resultToAny_any result (opt &&& OptType == OptType)

/-! ## Auxiliary definitions for the statements -/

/-- Value of a list of decimal digits read after `m`. -/
def digitsValue (ds : List Char) (m : Nat) : Nat :=
  ds.foldl (fun a c => a * 10 + (c.toNat - 48)) m

/-- The part of the table of `unicode.ToLower` that the examples use: the capital
letters of Latin-1 (U+00C0 to U+00DE, the sign U+00D7 apart) move up by 32, the dotted
capital I (U+0130) becomes `i` and the Kelvin sign (U+212A) becomes `k`. -/
def lowerRuneLatin (c : Char) : Char :=
  if c.toNat = 0x130 then 'i'
  else if c.toNat = 0x212A then 'k'
  else if 0xC0 ≤ c.toNat ∧ c.toNat ≤ 0xDE ∧ c.toNat ≠ 0xD7 then Char.ofNat (c.toNat + 32)
  else c

/-- A standard library whose unmodelled renderings are empty: enough for values made
of strings, booleans and integers.  Its case table is `lowerRuneLatin`: enough for keys
made of ASCII, of Latin-1 letters, of U+0130 and of U+212A. -/
def plainLib : Lib :=
  { sprintV := fun _ => "", sprintS := fun _ => "", floatKey := fun _ _ => 0,
    complexKey := fun _ _ => (0, 0), lowerRune := lowerRuneLatin }

/-- A map with the keys `" ab "` and `"Ab"`, enumerated in this order. -/
def mapTwoSpellings : GoVal :=
  .map .string [(.str " ab ", .int .int 2), (.str "Ab", .int .int 1)]

/-- A struct with the single, non-exported field `privInt`. -/
def structPrivInt : GoVal := .struct [("privInt", false, .int .int 7)]

/-! ## Auxiliary definitions for the statements on filters -/

/-- The call returned a value. -/
def Outcome.isOk : Outcome → Bool
  | .ok _ => true
  | _ => false

/-- The call panicked. -/
def Outcome.isPanic : Outcome → Bool
  | .panic _ => true
  | _ => false

/-- The keys by which a filter `attr=literal` resolves its attribute: `attr`, or none
when `attr` is empty (the element itself). -/
def attrKeys (attr : String) : List String := if attr != "" then [attr] else []

/-- The element `e` of a sequence matches the filter `attr=literal`: its attribute
resolves, is made concrete, and its rendering as a string is exactly `literal`. -/
def attrMatches (lib : Lib) (caseSensitive safe ro : Bool) (attr literal : String)
    (e : GoVal) : Bool :=
  match query lib (.val ro e) caseSensitive safe (attrKeys attr) with
  | .ok attrVal =>
    attrVal.isValid &&
      (match toConcreteElem lib attrVal safe 0 with
        | .ok a => valueToString lib a == literal
        | _ => false)
  | _ => false

/-- Two maps with the entry `d: y`; only the second has the key `z`. -/
def twoMatchingMaps : List GoVal :=
  [.map .string [(.str "d", .str "y")],
   .map .string [(.str "d", .str "y"), (.str "z", .str "1")]]

/-- A nil `map[int]string` followed by the map `1: x`. -/
def nilThenIntMap : List GoVal :=
  [.nilMap (.int .int), .map (.int .int) [(.int 1, .str "x")]]

/-! ## Key splitter: the statements -/

/-- Go `strings.Join`. -/
def stringsJoin (elems : List String) (sep : String) : String :=
  match elems with
  | [] => ""
  | x :: rest =>
    match rest with
    | [] => x
    | _ :: _ => x ++ sep ++ stringsJoin rest sep

/-- Go `strings.ReplaceAll(s, "\\,", ",")` on the characters of `s`: every
occurrence of backslash-comma replaced by a plain comma. -/
def unescapeCommas : List Char → List Char
  | [] => []
  | [c] => [c]
  | c :: d :: cs =>
    if c = '\\' ∧ d = ',' then ',' :: unescapeCommas cs else c :: unescapeCommas (d :: cs)

/-- Every comma replaced by backslash-comma, on the characters of a string. -/
def escapeChars : List Char → List Char
  | [] => []
  | c :: cs => if c = ',' then '\\' :: ',' :: escapeChars cs else c :: escapeChars cs

/-- Go `strings.ReplaceAll(s, ",", "\\,")`: every comma replaced by
backslash-comma. -/
def escapeCommas (s : String) : String := String.mk (escapeChars s.data)

/-- The pieces of a string cut at the commas that are not immediately preceded by a
backslash (the commas cut at are dropped).  `acc` is the piece being read, reversed:
when it is not empty its head is the character just before the one read; when it is
empty the character read starts the string or follows a comma cut at. -/
def cutUnescaped : List Char → List Char → List (List Char)
  | [], acc => [acc.reverse]
  | c :: cs, acc =>
    if c = ',' ∧ acc.head? ≠ some '\\' then acc.reverse :: cutUnescaped cs []
    else cutUnescaped cs (c :: acc)

/-- Scan used to relate `splitWithEscape` to `cutUnescaped`: a comma after a
backslash replaces the backslash, any other comma ends the fragment. -/
def scanEscaped : List Char → List Char → List String
  | [], acc => [String.mk acc.reverse]
  | c :: cs, acc =>
    if c = ',' then
      match acc with
      | '\\' :: t => scanEscaped cs (',' :: t)
      | _ => String.mk acc.reverse :: scanEscaped cs []
    else scanEscaped cs (c :: acc)

/-- The string has no leading and no trailing white space. -/
def isTrimmed (s : String) : Prop :=
  (∀ c, s.data.head? = some c → isSpace c = false)
    ∧ (∀ c, s.data.getLast? = some c → isSpace c = false)

/-- The characters `p` put in front of the first string of a list. -/
def prependFirst (p : List Char) : List String → List String
  | [] => []
  | y :: ys => String.mk (p ++ y.data) :: ys

/-! ## Type coercer: conversion of a result to a target type -/

/-- Width in bits of a floating-point kind. -/
def FloatKind.bits : FloatKind → Nat
  | .float32 => 32 | .float64 => 64

/-- Width in bits of each of the two parts of a complex kind. -/
def ComplexKind.partBits : ComplexKind → Nat
  | .complex64 => 32 | .complex128 => 64

/-- What an IEEE 754 bit pattern denotes: not a number, an infinity, or the finite
number `mant * 2 ^ exp` with its sign. -/
inductive FloatVal where
  | nan
  | inf (neg : Bool)
  | fin (neg : Bool) (mant : Nat) (exp : Int)
  deriving DecidableEq, Repr

/-- The number denoted by a bit pattern of width 32 (8 exponent bits, 23 fraction
bits) or 64 (11 and 52).  `Value.Float` and `Value.Complex` widen a 32-bit part to 64
bits, which does not change the number denoted. -/
def decodeFloat (width bits : Nat) : FloatVal :=
  let expBits := if width = 32 then 8 else 11
  let fracBits := width - 1 - expBits
  let neg := bits / 2 ^ (width - 1) % 2 == 1
  let e := bits / 2 ^ fracBits % 2 ^ expBits
  let f := bits % 2 ^ fracBits
  let bias : Int := 2 ^ (expBits - 1) - 1
  if e = 2 ^ expBits - 1 then (if f = 0 then .inf neg else .nan)
  else if e = 0 then .fin neg f (1 - bias - fracBits)
  else .fin neg (2 ^ fracBits + f) (e - bias - fracBits)

/-- Go `math.IsNaN`. -/
def FloatVal.isNaN : FloatVal → Bool
  | .nan => true
  | _ => false

/-- Go `v == 0` on a floating-point number: positive and negative zero are both equal
to 0, nothing else is. -/
def FloatVal.isZero : FloatVal → Bool
  | .fin _ mant _ => mant == 0
  | _ => false

/-- The numeric conversions and parsers of Go that are not modelled.  A float64 is
given by its IEEE bits. -/
structure Conv where
  /-- Go `int(f)` of the float64 widened from a pattern of the given width. -/
  floatToInt : Nat → Nat → Int
  /-- Go `uint(f)` of the float64 widened from a pattern of the given width. -/
  floatToUint : Nat → Nat → Nat
  /-- Go `float64(i)` of an integer. -/
  intToFloat : Int → Nat
  /-- Bits of the float64 widened from a 32-bit pattern. -/
  widen : Nat → Nat
  /-- Go `strconv.ParseFloat(s, 64)`, the error dropped. -/
  parseFloat : String → Nat
  /-- Go `strconv.ParseComplex(s, 64)`, the error dropped: both parts. -/
  parseComplex : String → Nat × Nat
  /-- Rendering by `fmt` under `%T` of a value that is not a string, boolean or
  number. -/
  typeName : GoVal → String

/-- Go `Value.Float` and the parts of `Value.Complex`: the float64 of a pattern of the
given width. -/
def toFloat64 (conv : Conv) (width bits : Nat) : Nat :=
  if width = 64 then bits else conv.widen bits

/-- Go `valueToInt`: the result is a Go `int`. -/
def valueToInt (lib : Lib) (conv : Conv) (value : Value) : Int :=
  match value with
  | .val _ (.bool b) => if b then 1 else 0
  | .val _ (.int _ i) => i
  | .val _ (.uint _ n) => wrapInt 64 n
  | .val _ (.complex k re _) => conv.floatToInt k.partBits re
  | .val _ (.float k bits) => conv.floatToInt k.bits bits
  | _ => stringToInt (sprintAny lib (valueToAny value))

/-- Go `valueToUint`: the result is a Go `uint`. -/
def valueToUint (lib : Lib) (conv : Conv) (value : Value) : Nat :=
  match value with
  | .val _ (.bool b) => if b then 1 else 0
  | .val _ (.int _ i) => (i % 2 ^ 64).toNat
  | .val _ (.uint _ n) => n
  | .val _ (.complex k re _) => conv.floatToUint k.partBits re
  | .val _ (.float k bits) => conv.floatToUint k.bits bits
  | _ => stringToUint (sprintAny lib (valueToAny value))

/-- Go `valueToComplex`: the bits of the real and of the imaginary part.  There is no
case for a boolean. -/
def valueToComplex (lib : Lib) (conv : Conv) (value : Value) : Nat × Nat :=
  match value with
  | .val _ (.int _ i) => (conv.intToFloat i, 0)
  | .val _ (.uint _ n) => (conv.intToFloat n, 0)
  | .val _ (.complex k re im) => (toFloat64 conv k.partBits re, toFloat64 conv k.partBits im)
  | .val _ (.float k bits) => (toFloat64 conv k.bits bits, 0)
  | _ => conv.parseComplex (sprintAny lib (valueToAny value))

/-- Go `valueToFloat`: the bits of the float64 (`0x3FF0000000000000` is 1). -/
def valueToFloat (lib : Lib) (conv : Conv) (value : Value) : Nat :=
  match value with
  | .val _ (.bool b) => if b then 0x3FF0000000000000 else 0
  | .val _ (.int _ i) => conv.intToFloat i
  | .val _ (.uint _ n) => conv.intToFloat n
  | .val _ (.complex k re _) => toFloat64 conv k.partBits re
  | .val _ (.float k bits) => toFloat64 conv k.bits bits
  | _ => conv.parseFloat (sprintAny lib (valueToAny value))

/-- Go `valueToBool`. -/
def valueToBool (lib : Lib) (value : Value) : Bool :=
  match value with
  | .val _ (.bool b) => b
  | .val _ (.int _ i) => i != 0
  | .val _ (.uint _ n) => n != 0
  | .val _ (.complex k re im) =>
    (decodeFloat k.partBits re).isZero && (decodeFloat k.partBits im).isZero
  | .val _ (.float k bits) =>
    !(decodeFloat k.bits bits).isNaN && !(decodeFloat k.bits bits).isZero
  | _ => stringToBool (sprintAny lib (valueToAny value))

/-- The type arguments `E` with which the package instantiates `resultToAny`. -/
inductive Target where
  | any | string | int | uint | complex128 | float64 | bool
  deriving DecidableEq, Repr

/-- The dynamic type of the value is the target type; no value has the dynamic type
`any`, an interface type. -/
def Target.isTypeOf : Target → GoVal → Bool
  | .string, .str _ => true
  | .int, .int .int _ => true
  | .uint, .uint .uint _ => true
  | .complex128, .complex .complex128 _ _ => true
  | .float64, .float .float64 _ => true
  | .bool, .bool _ => true
  | _, _ => false

/-- Go `_v.(E)`: the assertion holds for a value that is not nil and whose dynamic
type is `E` or, `E` being `any`, whatever its dynamic type is. -/
def typeAssert (target : Target) (v : GoAny) : Option GoVal :=
  match v with
  | none => none
  | some g => if target == .any || target.isTypeOf g then some g else none

/-- The zero value of the target type, as an `any`. -/
def Target.zero : Target → GoAny
  | .any => none
  | .string => some (.str "")
  | .int => some (.int .int 0)
  | .uint => some (.uint .uint 0)
  | .complex128 => some (.complex .complex128 0 0)
  | .float64 => some (.float .float64 0)
  | .bool => some (.bool false)

/-- Rendering by `fmt` under `%T` of an `any`. -/
def sprintT (conv : Conv) : GoAny → String
  | none => "<nil>"
  | some (.bool _) => "bool"
  | some (.int k _) => kindName k.kind
  | some (.uint k _) => kindName k.kind
  | some (.float k _) => kindName k.kind
  | some (.complex k _ _) => kindName k.kind
  | some (.str _) => "string"
  | some g => conv.typeName g

/-- The error `result type not match: need %T got %T` of `resultToAny`. -/
def typeNotMatch (conv : Conv) (target : Target) (v : GoAny) : QueryError :=
  newQueryError none ErrTypeMatch
    ("result type not match: need " ++ sprintT conv target.zero ++ " got " ++ sprintT conv v)

/-- The conversion `switch reflect.ValueOf(target).Kind()` of `resultToAny`; for the
target `any` the zero value is nil, its kind is `Invalid`, and no case applies. -/
def convertTo (lib : Lib) (conv : Conv) (target : Target) (v : GoAny) (value : Value) :
    GoAny × Option QueryError :=
  match target with
  | .string => (some (.str (valueToString lib value)), none)
  | .int => (some (.int .int (valueToInt lib conv value)), none)
  | .uint => (some (.uint .uint (valueToUint lib conv value)), none)
  | .complex128 =>
    (some (.complex .complex128 (valueToComplex lib conv value).1
      (valueToComplex lib conv value).2), none)
  | .float64 => (some (.float .float64 (valueToFloat lib conv value)), none)
  | .bool => (some (.bool (valueToBool lib value)), none)
  | .any =>
    (none, some (newQueryError none ErrTypeMatch
      ("cannot convert result " ++ sprintAny lib v ++ " to " ++ sprintT conv Target.any.zero)))

/-- Go `resultToAny[E]`: a Result converted to the target type; the pair
`(target, err)` of the source, `.error` being a panic. -/
def resultToAny (lib : Lib) (conv : Conv) (target : Target) (result : Result)
    (typeStrict : Bool) : Except String (GoAny × Option QueryError) :=
  match result.err with
  | some err => .ok (target.zero, some err)
  | none =>
    let v := valueToAny result.val
    match typeAssert target v with
    | some t => .ok (some t, none)
    | none =>
      if typeStrict then .ok (target.zero, some (typeNotMatch conv target v))
      else if !(valueOf v).isValid then .ok (target.zero, some (typeNotMatch conv target v))
      else
        match toConcreteElem lib (valueOf v) false 0 with
        | .panic m => .error m
        | .err _ => .ok (target.zero, some (typeNotMatch conv target v))
        | .ok value => .ok (convertTo lib conv target v value)

/-- The body shared by `StringResult`, `IntResult`, `UintResult`, `ComplexResult`,
`FloatResult` and `BoolResult`: a panic is recovered into a not-found error whose
detail is the panic message, the value returned with it being the zero value. -/
def typedResult (lib : Lib) (conv : Conv) (target : Target) (obj : GoAny) (opt : GoOption)
    (paths : List String) : GoAny × Option QueryError :=
  match queryResult lib obj opt paths with
  | .error r => (target.zero, some (newQueryError none ErrNotFound r))
  | .ok result =>
    match resultToAny lib conv target result (opt &&& OptType == OptType) with
    | .error r => (target.zero, some (newQueryError none ErrNotFound r))
    | .ok p => p

/-- Go `StringResult`. -/
def StringResult (lib : Lib) (conv : Conv) (obj : GoAny) (opt : GoOption)
    (paths : List String) : GoAny × Option QueryError :=
  typedResult lib conv .string obj opt paths

/-- Go `IntResult`. -/
def IntResult (lib : Lib) (conv : Conv) (obj : GoAny) (opt : GoOption)
    (paths : List String) : GoAny × Option QueryError :=
  typedResult lib conv .int obj opt paths

/-- Go `BoolResult`. -/
def BoolResult (lib : Lib) (conv : Conv) (obj : GoAny) (opt : GoOption)
    (paths : List String) : GoAny × Option QueryError :=
  typedResult lib conv .bool obj opt paths

/-- Numeric conversions that are all zero: enough for values made of strings,
booleans and integers. -/
def plainConv : Conv :=
  { floatToInt := fun _ _ => 0, floatToUint := fun _ _ => 0, intToFloat := fun _ => 0,
    widen := fun _ => 0, parseFloat := fun _ => 0, parseComplex := fun _ => (0, 0),
    typeName := fun _ => "" }

/-- The struct `Person` of the example, with its fields `Name`, `Age` and `isStaff`. -/
def person : GoVal :=
  .struct [("Name", true, .str "Vin Mars"), ("Age", true, .uint .uint 30),
    ("isStaff", false, .bool true)]

/-! ## Concretizer: the statements -/

/-- The Value reached from a value by dereferencing pointers and unboxing interfaces
until neither is left: the zero Value below a nil pointer or a nil interface; what an
interface holds is no longer read-only. -/
def GoVal.strip (ro : Bool) : GoVal → Value
  | .ptr e => GoVal.strip ro e
  | .nilPtr => .invalid
  | .iface d => GoVal.strip false d
  | .nilIface => .invalid
  | g => .val ro g

/-- The same for a Value. -/
def Value.strip : Value → Value
  | .invalid => .invalid
  | .val ro g => g.strip ro

/-- One layer of indirection: a pointer or an interface. -/
inductive Layer where
  | pointer
  | iface
  deriving DecidableEq, Repr

/-- A value wrapped in layers of indirection, the outermost first. -/
def wrapLayers : List Layer → GoVal → GoVal
  | [], g => g
  | .pointer :: ls, g => .ptr (wrapLayers ls g)
  | .iface :: ls, g => .iface (wrapLayers ls g)

/-- The read-only flag below the layers: kept by a pointer, cleared by an interface. -/
def layersRo (ro : Bool) : List Layer → Bool
  | [] => ro
  | .pointer :: ls => layersRo ro ls
  | .iface :: _ => false

/-! ## Errors: the message -/

/-- Go `strings.TrimPrefix`. -/
def trimPrefix (s pre : String) : String :=
  if pre.data.isPrefixOf s.data then String.mk (s.data.drop pre.data.length) else s

/-- Message of `strconv.ErrSyntax` and of `strconv.ErrRange`. -/
def NumErrKind.Error : NumErrKind → String
  | .ErrSyntax => "invalid syntax"
  | .ErrRange => "value out of range"

/-- Go `(*strconv.NumError).Error`; `quote` is `strconv.Quote`. -/
def NumError.Error (quote : String → String) (e : NumError) : String :=
  "strconv." ++ e.Func ++ ": parsing " ++ quote e.Num ++ ": " ++ e.Err.Error

/-- Go `(*QueryError).Error` on an error that is not nil; `quote` is `strconv.Quote`,
used in the message of a cause. -/
def QueryError.Error (quote : String → String) (w : QueryError) : String :=
  let msg :=
    match w.cause with
    | some cause => trimPrefix (cause.Error quote) "QueryError: "
    | none => ""
  let msg :=
    if w.Detail != "" then
      if msg == "" then w.Detail else msg ++ " -> " ++ w.Detail
    else msg
  "QueryError[" ++ itoa w.Code ++ "]: " ++ msg

/-- Go `(*QueryError).Cause` and `Unwrap` on an error that is not nil. -/
def QueryError.Cause (w : QueryError) : Option NumError := w.cause

/-! ## Public surface: the other wrappers -/

/-- Go `MayAny`: `AnyResult` with the error ignored. -/
def MayAny (lib : Lib) (obj : GoAny) (opt : GoOption) (paths : List String) : GoAny :=
  match AnyResult lib obj opt paths with
  | (_, some _) => none
  | (r, none) => r

/-- Go `Any`. -/
def Any (lib : Lib) (obj : GoAny) (paths : List String) : GoAny := MayAny lib obj None paths

/-- Go `UintResult`. -/
def UintResult (lib : Lib) (conv : Conv) (obj : GoAny) (opt : GoOption)
    (paths : List String) : GoAny × Option QueryError :=
  typedResult lib conv .uint obj opt paths

/-- Go `ComplexResult`. -/
def ComplexResult (lib : Lib) (conv : Conv) (obj : GoAny) (opt : GoOption)
    (paths : List String) : GoAny × Option QueryError :=
  typedResult lib conv .complex128 obj opt paths

/-- Go `FloatResult`. -/
def FloatResult (lib : Lib) (conv : Conv) (obj : GoAny) (opt : GoOption)
    (paths : List String) : GoAny × Option QueryError :=
  typedResult lib conv .float64 obj opt paths

/-- The body shared by the `Default` wrappers: the default on an error, the result
otherwise.  The default and the result are values of the target type, given as an
`any`. -/
def orDefault (r : GoAny × Option QueryError) (defaultVal : GoAny) : GoAny :=
  match r with
  | (_, some _) => defaultVal
  | (r, none) => r

/-- Go `AnyDefault`. -/
def AnyDefault (lib : Lib) (obj : GoAny) (defaultVal : GoAny) (paths : List String) : GoAny :=
  orDefault (AnyResult lib obj None paths) defaultVal

/-- Go `StringDefault`. -/
def StringDefault (lib : Lib) (conv : Conv) (obj : GoAny) (defaultVal : GoAny)
    (paths : List String) : GoAny :=
  orDefault (StringResult lib conv obj None paths) defaultVal

/-- Go `IntDefault`. -/
def IntDefault (lib : Lib) (conv : Conv) (obj : GoAny) (defaultVal : GoAny)
    (paths : List String) : GoAny :=
  orDefault (IntResult lib conv obj None paths) defaultVal

/-- Go `UintDefault`. -/
def UintDefault (lib : Lib) (conv : Conv) (obj : GoAny) (defaultVal : GoAny)
    (paths : List String) : GoAny :=
  orDefault (UintResult lib conv obj None paths) defaultVal

/-- Go `ComplexDefault`. -/
def ComplexDefault (lib : Lib) (conv : Conv) (obj : GoAny) (defaultVal : GoAny)
    (paths : List String) : GoAny :=
  orDefault (ComplexResult lib conv obj None paths) defaultVal

/-- Go `FloatDefault`. -/
def FloatDefault (lib : Lib) (conv : Conv) (obj : GoAny) (defaultVal : GoAny)
    (paths : List String) : GoAny :=
  orDefault (FloatResult lib conv obj None paths) defaultVal

/-- Go `BoolDefault`. -/
def BoolDefault (lib : Lib) (conv : Conv) (obj : GoAny) (defaultVal : GoAny)
    (paths : List String) : GoAny :=
  orDefault (BoolResult lib conv obj None paths) defaultVal

/-! ## Type coercer: slices and maps -/

/-- The type tests on slices and maps and the JSON round trip, which are not
modelled: a slice or map is given by its elements, not by its static type. -/
structure Generic where
  /-- The value is a slice whose element type is `E`. -/
  isSliceOf : Target → GoVal → Bool
  /-- The value is a map whose key type is `K` and whose element type is `E`. -/
  isMapOf : KeyType → Target → GoVal → Bool
  /-- Go `json.Marshal` of the value followed by `json.Unmarshal` into a nil
  `map[K]E`: the map after the calls (`none` is the nil map) and whether neither
  returned an error. -/
  jsonToMap : KeyType → Target → GoAny → Option (List (MapKey × GoVal)) × Bool

/-- Name of the type `E` as `%T` prints it inside a slice or map type. -/
def Target.name : Target → String
  | .any => "interface \x7b\x7d"
  | .string => "string"
  | .int => "int"
  | .uint => "uint"
  | .complex128 => "complex128"
  | .float64 => "float64"
  | .bool => "bool"

/-- Go `_v.([]E)`: the elements of the slice when the assertion holds. -/
def sliceAssert (gen : Generic) (target : Target) (v : GoAny) : Option (List GoVal) :=
  match v with
  | some (.slice elems) => if gen.isSliceOf target (.slice elems) then some elems else none
  | _ => none

/-- A value of type `E` stored in an element of a `[]E`: boxed when `E` is `any`. -/
def toSlot (target : Target) (g : GoVal) : GoVal :=
  if target == .any then .iface g else g

/-- The loop of `valueToSlice` over the elements of an array: every element asserted
to `E`; `none` as soon as one assertion fails. -/
def assertElems (target : Target) (ro : Bool) : List GoVal → Option (List GoVal)
  | [] => some []
  | e :: rest =>
    match typeAssert target (valueToAny (.val ro e)) with
    | none => none
    | some v =>
      match assertElems target ro rest with
      | none => none
      | some m => some (toSlot target v :: m)

/-- Go `valueToSlice[E]`: `none` is the nil slice. -/
def valueToSlice (gen : Generic) (target : Target) (value : Value) : Option (List GoVal) :=
  match value with
  | .val _ (.slice _) => sliceAssert gen target (valueToAny value)
  | .val ro (.array elems) => assertElems target ro elems
  | _ => none

/-- The error `result type not match: need %T got %T` of `resultToSlice` and
`resultToMap`, the target type given by its name. -/
def typeNotMatchNamed (conv : Conv) (need : String) (v : GoAny) : QueryError :=
  newQueryError none ErrTypeMatch
    ("result type not match: need " ++ need ++ " got " ++ sprintT conv v)

/-- Go `resultToSlice[E]`: the pair `(target, err)` of the source, `none` being the nil
slice and `.error` a panic.  The kind of the target is always `Slice`. -/
def resultToSlice (lib : Lib) (conv : Conv) (gen : Generic) (target : Target)
    (result : Result) (typeStrict : Bool) :
    Except String (Option (List GoVal) × Option QueryError) :=
  match result.err with
  | some err => .ok (none, some err)
  | none =>
    let v := valueToAny result.val
    match sliceAssert gen target v with
    | some t => .ok (some t, none)
    | none =>
      if typeStrict then .ok (none, some (typeNotMatchNamed conv ("[]" ++ target.name) v))
      else if !(valueOf v).isValid then
        .ok (none, some (typeNotMatchNamed conv ("[]" ++ target.name) v))
      else
        match toConcreteElem lib (valueOf v) false 0 with
        | .panic m => .error m
        | .err _ => .ok (none, some (typeNotMatchNamed conv ("[]" ++ target.name) v))
        | .ok value => .ok (valueToSlice gen target value, none)

/-- Go `_v.(map[K]E)`: the entries of the map when the assertion holds, `none` for a
nil map. -/
def mapAssert (gen : Generic) (K : KeyType) (E : Target) (v : GoAny) :
    Option (Option (List (MapKey × GoVal))) :=
  match v with
  | some (.map kt entries) =>
    if gen.isMapOf K E (.map kt entries) then some (some entries) else none
  | some (.nilMap kt) => if gen.isMapOf K E (.nilMap kt) then some none else none
  | _ => none

/-- Go `resultToMap[K, E]`: the pair `(target, err)` of the source, `none` being the
nil map and `.error` a panic.  The kind of the target is always `Map`; after a failed
`json.Unmarshal` the target is returned as the call left it. -/
def resultToMap (lib : Lib) (conv : Conv) (gen : Generic) (K : KeyType) (E : Target)
    (result : Result) (typeStrict : Bool) :
    Except String (Option (List (MapKey × GoVal)) × Option QueryError) :=
  match result.err with
  | some err => .ok (none, some err)
  | none =>
    let v := valueToAny result.val
    let need := "map[" ++ K.name ++ "]" ++ E.name
    match mapAssert gen K E v with
    | some t => .ok (t, none)
    | none =>
      if typeStrict then .ok (none, some (typeNotMatchNamed conv need v))
      else if !(valueOf v).isValid then .ok (none, some (typeNotMatchNamed conv need v))
      else
        match toConcreteElem lib (valueOf v) false 0 with
        | .panic m => .error m
        | .err _ => .ok (none, some (typeNotMatchNamed conv need v))
        | .ok value =>
          match gen.jsonToMap K E (valueToAny value) with
          | (t, true) => .ok (t, none)
          | (t, false) =>
            .ok (t, some (newQueryError none ErrTypeMatch
              ("cannot convert result " ++ sprintAny lib v ++ " to " ++ need)))

/-! ## Auxiliary definitions for the statements on errors and results -/

/-- `strconv.Quote` for a string with nothing to escape. -/
def plainQuote (s : String) : String := "\"" ++ s ++ "\""

/-- Type tests that never hold and a JSON round trip that always fails. -/
def plainGeneric : Generic :=
  { isSliceOf := fun _ _ => false, isMapOf := fun _ _ _ => false,
    jsonToMap := fun _ _ _ => (none, false) }

/-- A struct with the field `tags`, a slice of four elements. -/
def tagged : GoVal :=
  .struct [("tags", false,
    .slice [.iface (.str "tag1"), .iface (.str "tag2"),
      .iface (.map .string [(.str "d", .iface (.str "d"))]), .iface (.str "addr")])]

/-- A map in a map: `a` holds the map with the single key `x`. -/
def nestedMap : GoVal :=
  .map .string [(.str "a", .iface (.map .string [(.str "x", .iface (.int .int 1))]))]

/-! ## Auxiliary definitions for the statements on keys and slices -/

/-- The zero value of a key type. -/
def zeroKey : KeyType → MapKey
  | .string => .str ""
  | .bool => .bool false
  | .int _ => .int 0
  | .uint _ => .uint 0
  | .float _ => .float 0
  | .complex _ => .complex 0 0
  | .iface => .nil
  | .other _ => .other 0

/-- A key type for which `stringToMapKeyType` has no rule: an interface type or a
further comparable type (struct, array, pointer, channel). -/
def KeyType.unsupported : KeyType → Bool
  | .iface => true
  | .other _ => true
  | _ => false

/-- Type tests that read the element type of a slice off its elements (an interface
slot for `any`, a value of the type otherwise); no map passes, and the JSON round trip
always fails. -/
def elemGeneric : Generic :=
  { isSliceOf := fun t g =>
      match g with
      | .slice elems =>
        elems.all (fun e =>
          match e with
          | .iface _ => t == .any
          | .nilIface => t == .any
          | e => t.isTypeOf e)
      | _ => false,
    isMapOf := fun _ _ _ => false,
    jsonToMap := fun _ _ _ => (none, false) }

/-! ## The recursion of `query` -/

theorem filterLoop_congr (lib : Lib) (r1 r2 : Value → List String → Outcome) (safe ro : Bool)
    (k queryAttr currentKey : String) (remainKeys : List String)
    (h1 : ∀ v, r1 v (if k != "" then [k] else []) = r2 v (if k != "" then [k] else []))
    (h2 : ∀ v, r1 v remainKeys = r2 v remainKeys) (elems : List GoVal) :
    filterLoop lib r1 safe ro k queryAttr currentKey remainKeys elems
      = filterLoop lib r2 safe ro k queryAttr currentKey remainKeys elems := by
  induction elems with
  | nil => rfl
  | cons e rest ih =>
    simp only [filterLoop, h1, h2, ih]

theorem takeWhile_length_lt (l : List Char) (h : l.contains '=' = true) :
    (l.takeWhile (fun c => c != '=')).length < l.length := by
  induction l with
  | nil => simp at h
  | cons c cs ih =>
    by_cases hc : c = '='
    · subst hc
      simp [List.takeWhile]
    · have h' : cs.contains '=' = true := by
        simp only [List.contains_cons, Bool.or_eq_true, beq_iff_eq] at h
        rcases h with h | h
        · exact absurd h.symm hc
        · exact h
      have := ih h'
      have hne : (c != '=') = true := by simp [hc]
      rw [List.takeWhile_cons, hne]
      simp only [if_true, List.length_cons]
      omega

theorem querySeq_congr (lib : Lib) (r1 r2 : Value → List String → Outcome) (safe ro : Bool)
    (elems : List GoVal) (currentKey : String) (remainKeys : List String)
    (h : ∀ v ks, keysSize ks < keysSize (currentKey :: remainKeys) → r1 v ks = r2 v ks) :
    querySeq lib r1 safe ro elems currentKey remainKeys
      = querySeq lib r2 safe ro elems currentKey remainKeys := by
  have h2 : ∀ v, r1 v remainKeys = r2 v remainKeys := fun v => h v _ (by simp [keysSize])
  unfold querySeq
  by_cases hc : containsEq currentKey = true
  · simp only [hc, if_true, splitN2]
    apply filterLoop_congr _ _ _ _ _ _ _ _ _ _ h2
    intro v
    apply h
    split
    · have := takeWhile_length_lt currentKey.data hc
      simp only [keysSize, String.length]
      omega
    · simp [keysSize]
  · simp only [hc, h2]
    rfl

theorem queryStep_congr (lib : Lib) (r1 r2 : Value → List String → Outcome) (value : Value)
    (caseSensitive safe : Bool) (keys : List String)
    (h : ∀ v ks, keysSize ks < keysSize keys → r1 v ks = r2 v ks) :
    queryStep lib r1 value caseSensitive safe keys
      = queryStep lib r2 value caseSensitive safe keys := by
  cases keys with
  | nil => rfl
  | cons currentKey remainKeys =>
    have h2 : ∀ v, r1 v remainKeys = r2 v remainKeys := fun v => h v _ (by simp [keysSize])
    have h3 := fun ro elems => querySeq_congr lib r1 r2 safe ro elems currentKey remainKeys h
    unfold queryStep
    simp only [h2, h3]

theorem queryFuel_stable (lib : Lib) (caseSensitive safe : Bool) :
    ∀ (n fuel : Nat) (value : Value) (keys : List String),
      keysSize keys < fuel → keysSize keys ≤ n →
      queryFuel lib caseSensitive safe fuel value keys
        = queryFuel lib caseSensitive safe (keysSize keys + 1) value keys := by
  intro n
  induction n with
  | zero =>
    intro fuel value keys hf hn
    cases fuel with
    | zero => omega
    | succ f =>
      simp only [queryFuel]
      apply queryStep_congr
      intro v ks hks
      omega
  | succ n ih =>
    intro fuel value keys hf hn
    cases fuel with
    | zero => omega
    | succ f =>
      simp only [queryFuel]
      apply queryStep_congr
      intro v ks hks
      rw [ih f v ks (by omega) (by omega), ih (keysSize keys) v ks hks (by omega)]

/-- The defining equation of `query`: its body, the recursive calls being calls of
`query` itself. The recursion budget plays no part. -/
theorem query_unfold (lib : Lib) (value : Value) (caseSensitive safe : Bool)
    (keys : List String) :
    query lib value caseSensitive safe keys
      = queryStep lib (fun v ks => query lib v caseSensitive safe ks) value caseSensitive safe
          keys := by
  unfold query
  simp only [queryFuel]
  apply queryStep_congr
  intro v ks hks
  exact queryFuel_stable lib caseSensitive safe (keysSize ks) _ v ks hks (le_refl _)

/-- With no key left, `query` returns a valid value as it is. -/
theorem query_nil (lib : Lib) (ro : Bool) (g : GoVal) (caseSensitive safe : Bool) :
    query lib (.val ro g) caseSensitive safe [] = .ok (.val ro g) := by
  rw [query_unfold]
  rfl

/-! ## C1: no path -/

/-- C1 (the code at the failing input): `AnyResult(nil, opt)` with no path strings
returns nil together with a type-mismatch error (code 2), for every option set; it
does not return nil with a nil error. -/
theorem C1_AnyResult_nil_no_path (lib : Lib) (opt : GoOption) :
    AnyResult lib none opt []
      = (none, some { Code := ErrTypeMatch,
                      Detail := "result type not match: need <nil> got <nil>",
                      cause := none }) := by
  unfold AnyResult queryResult resultToAny_any
  by_cases h : (opt &&& OptType == OptType) = true
  · simp [h, valueOf, valueToAny, newQueryError]
  · simp [h, valueOf, valueToAny, newQueryError, Value.isValid]

/-- With no path strings, `AnyResult` returns a value that is not nil as it is, with
a nil error (a dynamic value is never itself an interface slot). -/
theorem AnyResult_no_path_of_value (lib : Lib) (g : GoVal) (opt : GoOption)
    (hg : g.kind ≠ .Interface) :
    AnyResult lib (some g) opt [] = (some g, none) := by
  unfold AnyResult queryResult resultToAny_any
  cases g <;> simp_all [valueOf, valueToAny, GoVal.kind]

/-! ## Decimal numerals -/

theorem digitChar_isDigit (k : Nat) (h : k < 10) :
    (Nat.digitChar k).isDigit = true ∧ (Nat.digitChar k).toNat - 48 = k := by
  interval_cases k <;> decide

theorem toDigitsCore_spec : ∀ (fuel n : Nat) (acc : List Char), n < fuel →
    ∃ ds, Nat.toDigitsCore 10 fuel n acc = ds ++ acc ∧ ds ≠ [] ∧
      (∀ c ∈ ds, c.isDigit = true) ∧ digitsValue ds 0 = n := by
  intro fuel
  induction fuel with
  | zero => intro n acc h; omega
  | succ fuel ih =>
    intro n acc h
    have hd := digitChar_isDigit (n % 10) (Nat.mod_lt _ (by decide))
    by_cases h0 : n / 10 = 0
    · refine ⟨[Nat.digitChar (n % 10)], ?_, by simp, ?_, ?_⟩
      · simp [Nat.toDigitsCore, h0]
      · intro c hc
        simp only [List.mem_singleton] at hc
        rw [hc]; exact hd.1
      · simp only [digitsValue, List.foldl, hd.2]
        omega
    · obtain ⟨ds, h1, _, h3, h4⟩ := ih (n / 10) (Nat.digitChar (n % 10) :: acc) (by omega)
      refine ⟨ds ++ [Nat.digitChar (n % 10)], ?_, by simp, ?_, ?_⟩
      · simp [Nat.toDigitsCore, h0, h1]
      · intro c hc
        rcases List.mem_append.1 hc with hc | hc
        · exact h3 c hc
        · simp only [List.mem_singleton] at hc
          rw [hc]; exact hd.1
      · unfold digitsValue at h4 ⊢
        rw [List.foldl_append, h4]
        simp only [List.foldl, hd.2]
        omega

/-- The decimal numeral of `n`: not empty, made of digits, of value `n`. -/
theorem repr_digits (n : Nat) :
    (Nat.repr n).data ≠ [] ∧ (∀ c ∈ (Nat.repr n).data, c.isDigit = true)
      ∧ digitsValue (Nat.repr n).data 0 = n := by
  obtain ⟨ds, h1, h2, h3, h4⟩ := toDigitsCore_spec (n + 1) n [] (Nat.lt_succ_self n)
  have hdata : (Nat.repr n).data = ds := by
    simp [Nat.repr, Nat.toDigits, h1, List.asString]
  rw [hdata]
  exact ⟨h2, h3, h4⟩

theorem digitsValue_ge (ds : List Char) (m : Nat) : m ≤ digitsValue ds m := by
  induction ds generalizing m with
  | nil => simp [digitsValue]
  | cons c cs ih =>
    have := ih (m * 10 + (c.toNat - 48))
    simp only [digitsValue, List.foldl] at this ⊢
    omega

theorem parseUintLoop_digits (ds : List Char) (m : Nat) (hd : ∀ c ∈ ds, c.isDigit = true)
    (hv : digitsValue ds m < 2 ^ 64) : parseUintLoop ds m = (digitsValue ds m, none) := by
  induction ds generalizing m with
  | nil => rfl
  | cons c cs ih =>
    have hc := hd c (List.mem_cons_self _ _)
    have hv' : digitsValue cs (m * 10 + (c.toNat - 48)) < 2 ^ 64 := hv
    have hge := digitsValue_ge cs (m * 10 + (c.toNat - 48))
    have hlt : ¬ (2 ^ 64 ≤ m * 10 + (c.toNat - 48)) := by omega
    simp only [parseUintLoop, hc, if_true, hlt, if_false]
    exact ih _ (fun c' h' => hd c' (List.mem_cons_of_mem _ h')) hv'

theorem parseUint_repr (n : Nat) (h : n < 2 ^ 64) : parseUint (Nat.repr n) = (n, none) := by
  obtain ⟨h1, h2, h3⟩ := repr_digits n
  unfold parseUint
  cases hds : (Nat.repr n).data with
  | nil => exact absurd hds h1
  | cons c cs =>
    rw [hds] at h2 h3
    simp only []
    rw [parseUintLoop_digits _ _ h2 (by rw [h3]; exact h), h3]

theorem isDigit_iff (c : Char) : c.isDigit = true ↔ 48 ≤ c.toNat ∧ c.toNat ≤ 57 := by
  simp only [Char.isDigit, Bool.and_eq_true, decide_eq_true_eq, Char.toNat]
  exact Iff.rfl

theorem parseInt_repr (n : Nat) (h : n < 2 ^ 63) : parseInt (Nat.repr n) = ((n : Int), none) := by
  obtain ⟨h1, h2, _⟩ := repr_digits n
  have hp := parseUint_repr n (by omega)
  unfold parseInt
  cases hds : (Nat.repr n).data with
  | nil => exact absurd hds h1
  | cons c cs =>
    have hc := (isDigit_iff c).1 (h2 c (by rw [hds]; exact List.mem_cons_self _ _))
    have hplus : (c == '+') = false := by
      rw [beq_eq_false_iff_ne]; intro he; rw [he] at hc; revert hc; decide
    have hminus : (c == '-') = false := by
      rw [beq_eq_false_iff_ne]; intro he; rw [he] at hc; revert hc; decide
    have hmk : String.mk (c :: cs) = Nat.repr n := by rw [← hds]
    simp only [hplus, hminus, Bool.or_self, Bool.false_eq_true, if_false, hmk, hp]
    have : ¬ (2 ^ 63 ≤ n) := by omega
    simp only [Bool.not_false, Bool.true_and, decide_eq_true_eq, this, if_false,
      Bool.false_and, Bool.false_eq_true]

theorem parseInt_neg_repr (n : Nat) (h : n ≤ 2 ^ 63) :
    parseInt ("-" ++ Nat.repr n) = (-(n : Int), none) := by
  have hp := parseUint_repr n (by omega)
  have hdata : ("-" ++ Nat.repr n).data = '-' :: (Nat.repr n).data := by
    simp [String.data_append]
  unfold parseInt
  rw [hdata]
  have hmk : String.mk (Nat.repr n).data = Nat.repr n := rfl
  simp only [beq_self_eq_true, Bool.or_true, if_true, hmk, hp]
  have : ¬ (2 ^ 63 < n) := by omega
  simp only [Bool.not_true, Bool.false_and, Bool.false_eq_true, if_false, Bool.true_and,
    decide_eq_true_eq, this, if_true]

/-- Go `strconv.Atoi` reads back what `strconv.Itoa` writes, for every value of an
`int`. -/
theorem atoi_itoa (i : Int) (h1 : -(2 : Int) ^ 63 ≤ i) (h2 : i < (2 : Int) ^ 63) :
    atoi (itoa i) = .ok i := by
  unfold atoi itoa
  cases i with
  | ofNat n =>
    have hn : n < 2 ^ 63 := by
      have : (n : Int) < (2 : Int) ^ 63 := h2
      exact_mod_cast this
    simp only [parseInt_repr n hn]
    rfl
  | negSucc n =>
    have hn : n + 1 ≤ 2 ^ 63 := by
      have : -(2 : Int) ^ 63 ≤ Int.negSucc n := h1
      rw [Int.negSucc_eq] at this
      have h3 : ((n : Int) + 1) ≤ (2 : Int) ^ 63 := by linarith
      exact_mod_cast h3
    simp only [parseInt_neg_repr (n + 1) hn]
    rw [Int.negSucc_eq]
    rfl

/-- The characters of a numeral written by `strconv.Itoa`. -/
theorem itoa_chars (i : Int) :
    (itoa i).data ≠ [] ∧ ∀ c ∈ (itoa i).data, c.isDigit = true ∨ c = '-' := by
  unfold itoa
  cases i with
  | ofNat n =>
    obtain ⟨h1, h2, _⟩ := repr_digits n
    exact ⟨h1, fun c hc => Or.inl (h2 c hc)⟩
  | negSucc n =>
    obtain ⟨_, h2, _⟩ := repr_digits (n + 1)
    have hdata : ("-" ++ Nat.repr (n + 1)).data = '-' :: (Nat.repr (n + 1)).data := by
      simp [String.data_append]
    simp only [hdata]
    refine ⟨by simp, fun c hc => ?_⟩
    rcases List.mem_cons.1 hc with hc | hc
    · exact Or.inr hc
    · exact Or.inl (h2 c hc)

theorem itoa_char_small (i : Int) (c : Char) (hc : c ∈ (itoa i).data) :
    c.toNat < 65 ∧ c ≠ '=' := by
  rcases (itoa_chars i).2 c hc with h | h
  · have := (isDigit_iff c).1 h
    refine ⟨by omega, ?_⟩
    intro he; rw [he] at this; revert this; decide
  · rw [h]; decide

theorem containsEq_itoa (i : Int) : containsEq (itoa i) = false := by
  unfold containsEq
  rw [Bool.eq_false_iff]
  intro h
  have h := List.elem_iff.1 h
  exact (itoa_char_small i _ h).2 rfl

theorem toLower_itoa (lib : Lib) (i : Int) : toLower lib (itoa i) = itoa i := by
  unfold toLower
  have : (itoa i).data.map (lowerChar lib) = (itoa i).data := by
    conv_rhs => rw [← List.map_id (itoa i).data]
    apply List.map_congr_left
    intro c hc
    have h := (itoa_char_small i c hc).1
    have h128 : c.toNat < 128 := by omega
    simp only [lowerChar, h128, if_true, Char.toLower, id]
    split
    · omega
    · rfl
  rw [this]

theorem itoa_ne_word (i : Int) (w : String) (c : Char) (cs : List Char)
    (hw : w.data = c :: cs) (hc : 65 ≤ c.toNat) : itoa i ≠ w := by
  intro h
  obtain ⟨h1, _⟩ := itoa_chars i
  have hmem : c ∈ (itoa i).data := by rw [h, hw]; exact List.mem_cons_self _ _
  have := (itoa_char_small i c hmem).1
  omega

/-! ## One step of `query` on maps, structs and sequences -/

theorem toConcreteElem_map (lib : Lib) (ro : Bool) (kt : KeyType)
    (entries : List (MapKey × GoVal)) (safe : Bool) :
    toConcreteElem lib (.val ro (.map kt entries)) safe 0 = .ok (.val ro (.map kt entries)) :=
  rfl

theorem toConcreteElem_struct (lib : Lib) (ro : Bool) (fields : List (String × Bool × GoVal))
    (safe : Bool) :
    toConcreteElem lib (.val ro (.struct fields)) safe 0 = .ok (.val ro (.struct fields)) := rfl

theorem toConcreteElem_slice (lib : Lib) (ro : Bool) (elems : List GoVal) (safe : Bool) :
    toConcreteElem lib (.val ro (.slice elems)) safe 0 = .ok (.val ro (.slice elems)) := rfl

theorem toConcreteElem_array (lib : Lib) (ro : Bool) (elems : List GoVal) (safe : Bool) :
    toConcreteElem lib (.val ro (.array elems)) safe 0 = .ok (.val ro (.array elems)) := rfl

/-- On a slice or an array, `query` with a key is the sequence navigator. -/
theorem query_seq (lib : Lib) (ro : Bool) (g : GoVal) (elems : List GoVal)
    (caseSensitive safe : Bool) (key : String) (rest : List String)
    (hseq : g = .slice elems ∨ g = .array elems) :
    query lib (.val ro g) caseSensitive safe (key :: rest)
      = querySeq lib (fun v ks => query lib v caseSensitive safe ks) safe ro elems key rest := by
  rw [query_unfold]
  rcases hseq with h | h <;> subst h
  · simp [queryStep, Value.isValid, toConcreteElem_slice]
  · simp [queryStep, Value.isValid, toConcreteElem_array]

theorem outcome_rewrap (o : Outcome) (d : String) :
    (match o with
      | .panic m => Outcome.panic m
      | .err err => .err (newQueryError (some (.query err)) ErrNotFound d)
      | .ok value => .ok value) = o := by
  cases o <;> rfl

/-- The index branch of the sequence navigator, for a key that reads as the integer
`i` within `[-len, len - 1]`: the recursive call on the element at `i`, counted from
the end when `i` is negative. -/
theorem querySeq_index (lib : Lib) (recur : Value → List String → Outcome) (safe ro : Bool)
    (elems : List GoVal) (key : String) (rest : List String) (i : Int)
    (hk : containsEq key = false) (hf : toLower lib key ≠ "first") (hl : toLower lib key ≠ "last")
    (ha : atoi key = .ok i) (hlo : -(elems.length : Int) ≤ i) (hhi : i < (elems.length : Int)) :
    ∃ e, elems[(if i < 0 then (elems.length : Int) + i else i).toNat]? = some e
      ∧ querySeq lib recur safe ro elems key rest = recur (.val ro e) rest := by
  have hidx : (if i < 0 then (elems.length : Int) + i else i).toNat < elems.length := by
    split <;> omega
  refine ⟨elems[(if i < 0 then (elems.length : Int) + i else i).toNat], ?_, ?_⟩
  · exact List.getElem?_eq_getElem hidx
  · have hge : ¬ (i ≥ (elems.length : Int)) := by omega
    have hlt : ¬ (i < -(elems.length : Int)) := by omega
    unfold querySeq
    simp only [hk, Bool.false_eq_true, if_false, beq_iff_eq, hf, hl, ha, hge, hlt,
      decide_False, Bool.or_self, List.getElem?_eq_getElem hidx]
    exact outcome_rewrap _ _

/-- The index branch of the sequence navigator, for a key that is not an integer or
is outside `[-len, len - 1]`. -/
theorem querySeq_invalid (lib : Lib) (recur : Value → List String → Outcome) (safe ro : Bool)
    (elems : List GoVal) (key : String) (rest : List String)
    (hk : containsEq key = false) (hf : toLower lib key ≠ "first") (hl : toLower lib key ≠ "last")
    (h : (∃ err, atoi key = .error err)
        ∨ ∃ i, atoi key = .ok i ∧ (i < -(elems.length : Int) ∨ (elems.length : Int) ≤ i)) :
    ∃ e, querySeq lib recur safe ro elems key rest = .err e ∧ e.Code = ErrNotFound
      ∧ e.Detail = "[slice] invalid key: " ++ key := by
  unfold querySeq
  rcases h with ⟨err, ha⟩ | ⟨i, ha, hr⟩
  · simp only [hk, Bool.false_eq_true, if_false, beq_iff_eq, hf, hl, ha]
    exact ⟨_, rfl, rfl, rfl⟩
  · have : (decide (i ≥ (elems.length : Int)) || decide (i < -(elems.length : Int))) = true := by
      rcases hr with hr | hr
      · simp [hr]
      · simp [hr]
    simp only [hk, Bool.false_eq_true, if_false, beq_iff_eq, hf, hl, ha, this, if_true]
    exact ⟨_, rfl, rfl, rfl⟩

theorem toLower_itoa_ne_first (lib : Lib) (i : Int) : toLower lib (itoa i) ≠ "first" := by
  rw [toLower_itoa]
  exact itoa_ne_word i "first" 'f' ['i', 'r', 's', 't'] rfl (by decide)

theorem toLower_itoa_ne_last (lib : Lib) (i : Int) : toLower lib (itoa i) ≠ "last" := by
  rw [toLower_itoa]
  exact itoa_ne_word i "last" 'l' ['a', 's', 't'] rfl (by decide)

/-- On a slice or an array, a key written by `strconv.Itoa` for an integer within
`[-len, len - 1]` resolves as the remaining keys on the element at that index,
counted from the end when it is negative. -/
theorem query_seq_itoa (lib : Lib) (ro : Bool) (g : GoVal) (elems : List GoVal)
    (caseSensitive safe : Bool) (rest : List String) (i : Int)
    (hseq : g = .slice elems ∨ g = .array elems) (hlen : elems.length < 2 ^ 63)
    (hlo : -(elems.length : Int) ≤ i) (hhi : i < (elems.length : Int)) :
    ∃ e, elems[(if i < 0 then (elems.length : Int) + i else i).toNat]? = some e
      ∧ query lib (.val ro g) caseSensitive safe (itoa i :: rest)
          = query lib (.val ro e) caseSensitive safe rest := by
  have hl63 : ((elems.length : Nat) : Int) < (2 : Int) ^ 63 := by exact_mod_cast hlen
  have ha := atoi_itoa i (by linarith) (by linarith)
  obtain ⟨e, he, hq⟩ := querySeq_index lib (fun v ks => query lib v caseSensitive safe ks) safe ro
    elems (itoa i) rest i (containsEq_itoa i) (toLower_itoa_ne_first lib i) (toLower_itoa_ne_last lib i)
    ha hlo hhi
  exact ⟨e, he, by rw [query_seq lib ro g elems caseSensitive safe _ rest hseq, hq]⟩

/-! ## C5: negative indices -/

/-- C5: for a slice or an array of length `N` (an `int`) and `1 ≤ k ≤ N`, the index
key `-k` and the index key for `N - k` resolve to the same element, the one at
position `N - k`: with any remaining keys both give the outcome of those keys on that
element, and with none both return the element itself. -/
theorem C5_negative_index (lib : Lib) (ro : Bool) (g : GoVal) (elems : List GoVal)
    (caseSensitive safe : Bool) (rest : List String) (k : Nat)
    (hseq : g = .slice elems ∨ g = .array elems) (hlen : elems.length < 2 ^ 63)
    (hk1 : 1 ≤ k) (hk2 : k ≤ elems.length) :
    ∃ e, elems[elems.length - k]? = some e
      ∧ query lib (.val ro g) caseSensitive safe (itoa (-(k : Int)) :: rest)
          = query lib (.val ro e) caseSensitive safe rest
      ∧ query lib (.val ro g) caseSensitive safe (itoa ((elems.length - k : Nat) : Int) :: rest)
          = query lib (.val ro e) caseSensitive safe rest
      ∧ query lib (.val ro g) caseSensitive safe [itoa (-(k : Int))] = .ok (.val ro e)
      ∧ query lib (.val ro g) caseSensitive safe [itoa ((elems.length - k : Nat) : Int)]
          = .ok (.val ro e) := by
  have hneg : ∀ rest', ∃ e, elems[elems.length - k]? = some e
      ∧ query lib (.val ro g) caseSensitive safe (itoa (-(k : Int)) :: rest')
          = query lib (.val ro e) caseSensitive safe rest' := by
    intro rest'
    obtain ⟨e, he, hq⟩ := query_seq_itoa lib ro g elems caseSensitive safe rest' (-(k : Int)) hseq
      hlen (by omega) (by omega)
    have hi : (if -(k : Int) < 0 then (elems.length : Int) + -(k : Int) else -(k : Int)).toNat
        = elems.length - k := by
      have : -(k : Int) < 0 := by omega
      simp only [this, if_true]
      omega
    rw [hi] at he
    exact ⟨e, he, hq⟩
  have hpos : ∀ rest', ∃ e, elems[elems.length - k]? = some e
      ∧ query lib (.val ro g) caseSensitive safe (itoa ((elems.length - k : Nat) : Int) :: rest')
          = query lib (.val ro e) caseSensitive safe rest' := by
    intro rest'
    obtain ⟨e, he, hq⟩ := query_seq_itoa lib ro g elems caseSensitive safe rest'
      ((elems.length - k : Nat) : Int) hseq hlen (by omega) (by omega)
    have hi : (if ((elems.length - k : Nat) : Int) < 0
        then (elems.length : Int) + ((elems.length - k : Nat) : Int)
        else ((elems.length - k : Nat) : Int)).toNat = elems.length - k := by
      have : ¬ (((elems.length - k : Nat) : Int) < 0) := by omega
      simp only [this, if_false]
      omega
    rw [hi] at he
    exact ⟨e, he, hq⟩
  obtain ⟨e, he, hq1⟩ := hneg rest
  obtain ⟨e2, he2, hq2⟩ := hpos rest
  obtain ⟨e3, he3, hq3⟩ := hneg []
  obtain ⟨e4, he4, hq4⟩ := hpos []
  have h2 : e2 = e := by rw [he] at he2; exact (Option.some.inj he2).symm
  have h3 : e3 = e := by rw [he] at he3; exact (Option.some.inj he3).symm
  have h4 : e4 = e := by rw [he] at he4; exact (Option.some.inj he4).symm
  subst h2 h3 h4
  refine ⟨_, he, hq1, hq2, ?_, ?_⟩
  · rw [hq3, query_nil]
  · rw [hq4, query_nil]

/-- C5 on the slice of `TestQuery`: `-1` and `1` both give `"string2"`. -/
theorem C5_witness :
    ∃ e, [GoVal.str "string1", GoVal.str "string2"][2 - 1]? = some e
      ∧ query plainLib (.val false (.slice [.str "string1", .str "string2"])) false false
          (itoa (-((1 : Nat) : Int)) :: ["x"])
          = query plainLib (.val false e) false false ["x"]
      ∧ query plainLib (.val false (.slice [.str "string1", .str "string2"])) false false
          (itoa (((2 - 1 : Nat) : Nat) : Int) :: ["x"])
          = query plainLib (.val false e) false false ["x"]
      ∧ query plainLib (.val false (.slice [.str "string1", .str "string2"])) false false
          [itoa (-((1 : Nat) : Int))] = .ok (.val false e)
      ∧ query plainLib (.val false (.slice [.str "string1", .str "string2"])) false false
          [itoa (((2 - 1 : Nat) : Nat) : Int)] = .ok (.val false e) :=
  C5_negative_index plainLib false (.slice [.str "string1", .str "string2"])
    [.str "string1", .str "string2"] false false ["x"] 1 (Or.inl rfl) (by decide) (by decide)
    (by decide)

/-! ## C2: the exact key of a map -/

/-- C2: for every map with string keys, every key `K` present in it with value `V`
and both settings of `caseSensitive` (and of `safe`), `query(m, caseSensitive, safe,
[K])` succeeds and returns `V`, whatever other keys the map holds: the exact key is
tried first. -/
theorem C2_query_map_exact_key (lib : Lib) (ro : Bool) (entries : List (MapKey × GoVal))
    (K : String) (V : GoVal) (caseSensitive safe : Bool)
    (h : lookupKey (.str K) entries = some V) :
    query lib (.val ro (.map .string entries)) caseSensitive safe [K] = .ok (.val ro V) := by
  rw [query_unfold]
  simp [queryStep, Value.isValid, toConcreteElem_map, findMapKeyValue, mapIndex, h, query_nil]

/-- C2 on a map that also holds keys differing from `Name` by case and by
surrounding whitespace, enumerated before it. -/
theorem C2_witness :
    query plainLib
        (.val false (.map .string
          [(.str " name ", .str "x"), (.str "NAME", .str "y"), (.str "Name", .str "Vin")]))
        false true ["Name"]
      = .ok (.val false (.str "Vin")) :=
  C2_query_map_exact_key plainLib false _ "Name" (.str "Vin") false true (by rfl)

/-! ## C4: the safe-field gate -/

/-- C4: for every struct with a non-exported field `f`, resolving `[f]` succeeds and
returns the value of the field when `safe` is false; when `safe` is true, resolving
`f` followed by any keys (none, or a longer path of which `f` is an intermediate
segment) fails with the not-found error "[struct] field f not exported". -/
theorem C4_safe_field_gate (lib : Lib) (ro : Bool) (fields : List (String × Bool × GoVal))
    (f : String) (V : GoVal) (caseSensitive : Bool)
    (h : fieldByName fields f = some (f, false, V)) :
    query lib (.val ro (.struct fields)) caseSensitive false [f] = .ok (.val true V)
    ∧ ∀ rest, query lib (.val ro (.struct fields)) caseSensitive true (f :: rest)
        = .err { Code := ErrNotFound, Detail := "[struct] field " ++ f ++ " not exported",
                 cause := none } := by
  have hname : findStructFieldName lib fields f caseSensitive = f := by
    simp [findStructFieldName, h]
  constructor
  · rw [query_unfold]
    simp [queryStep, Value.isValid, toConcreteElem_struct, hname, h, fieldValueByName,
      query_nil]
  · intro rest
    rw [query_unfold]
    simp [queryStep, Value.isValid, toConcreteElem_struct, hname, h, newQueryError]

/-- C4 on the struct of the example: the non-exported field `isStaff`. -/
theorem C4_witness :
    query plainLib
        (.val false (.struct [("Name", true, .str "Vin"), ("isStaff", false, .bool true)]))
        false false ["isStaff"] = .ok (.val true (.bool true))
    ∧ ∀ rest, query plainLib
          (.val false (.struct [("Name", true, .str "Vin"), ("isStaff", false, .bool true)]))
          false true ("isStaff" :: rest)
        = .err { Code := ErrNotFound, Detail := "[struct] field " ++ "isStaff" ++ " not exported",
                 cause := none } :=
  C4_safe_field_gate plainLib false _ "isStaff" (.bool true) false (by rfl)

/-! ## The keys `first` and `last` -/

theorem lowerChar_eq_sign (lib : Lib) : lowerChar lib '=' = '=' := rfl

theorem toLower_zero (lib : Lib) : toLower lib "0" = "0" := rfl

theorem containsEq_of_toLower (lib : Lib) (key w : String) (h : toLower lib key = w)
    (hw : w.data.contains '=' = false) : containsEq key = false := by
  unfold containsEq
  rw [Bool.eq_false_iff]
  intro hc
  have hmem := List.elem_iff.1 hc
  have hmap : '=' ∈ (toLower lib key).data := by
    rw [← lowerChar_eq_sign lib]
    exact List.mem_map_of_mem _ hmem
  rw [h] at hmap
  have h2 : w.data.contains '=' = true := List.elem_iff.2 hmap
  rw [hw] at h2
  exact Bool.false_ne_true h2

/-- The key `first`, in any letter case, is the key `0`. -/
theorem querySeq_first (lib : Lib) (recur : Value → List String → Outcome) (safe ro : Bool)
    (elems : List GoVal) (key : String) (rest : List String) (h : toLower lib key = "first") :
    querySeq lib recur safe ro elems key rest = querySeq lib recur safe ro elems "0" rest := by
  have hk := containsEq_of_toLower lib key "first" h (by decide)
  have h0 : containsEq "0" = false := by decide
  have h1 : (toLower lib "0" == "first") = false := by rw [toLower_zero]; decide
  have h2 : (toLower lib "0" == "last") = false := by rw [toLower_zero]; decide
  have h3 : (toLower lib key == "first") = true := by rw [h]; decide
  unfold querySeq
  simp only [hk, h0, h1, h2, h3, Bool.false_eq_true, if_false, if_true]

/-- The key `last`, in any letter case, is the key written by `strconv.Itoa` for
`len - 1`. -/
theorem querySeq_last (lib : Lib) (recur : Value → List String → Outcome) (safe ro : Bool)
    (elems : List GoVal) (key : String) (rest : List String) (h : toLower lib key = "last") :
    querySeq lib recur safe ro elems key rest
      = querySeq lib recur safe ro elems (itoa ((elems.length : Int) - 1)) rest := by
  have hk := containsEq_of_toLower lib key "last" h (by decide)
  have h0 := containsEq_itoa ((elems.length : Int) - 1)
  have h1 : (toLower lib (itoa ((elems.length : Int) - 1)) == "first") = false :=
    beq_eq_false_iff_ne.2 (toLower_itoa_ne_first lib _)
  have h2 : (toLower lib (itoa ((elems.length : Int) - 1)) == "last") = false :=
    beq_eq_false_iff_ne.2 (toLower_itoa_ne_last lib _)
  have h3 : (toLower lib key == "first") = false := by rw [h]; decide
  have h4 : (toLower lib key == "last") = true := by rw [h]; decide
  unfold querySeq
  simp only [hk, h0, h1, h2, h3, h4, Bool.false_eq_true, if_false, if_true]

/-! ## C6: keys that are not an index -/

/-- C6: on a slice or an array of length `N` (also `N = 0`), a key without `=` that
is neither `first` nor `last` (in any letter case) and is not an integer, or is an
integer outside `[-N, N - 1]`, makes `query` fail with the not-found error
"[slice] invalid key: key", whatever keys follow: no element is read.  On an empty
sequence the keys `first` and `last` fail with a not-found error as well.  Letter case
is that of `strings.ToLower`, for every Unicode case table. -/
theorem C6_invalid_index (lib : Lib) (ro : Bool) (g : GoVal) (elems : List GoVal)
    (caseSensitive safe : Bool) (key : String) (rest : List String)
    (hseq : g = .slice elems ∨ g = .array elems) :
    (containsEq key = false → toLower lib key ≠ "first" → toLower lib key ≠ "last" →
        ((∃ err, atoi key = .error err)
          ∨ ∃ i, atoi key = .ok i ∧ (i < -(elems.length : Int) ∨ (elems.length : Int) ≤ i)) →
        ∃ e, query lib (.val ro g) caseSensitive safe (key :: rest) = .err e
          ∧ e.Code = ErrNotFound ∧ e.Detail = "[slice] invalid key: " ++ key)
    ∧ (elems = [] → (toLower lib key = "first" ∨ toLower lib key = "last") →
        ∃ e, query lib (.val ro g) caseSensitive safe (key :: rest) = .err e
          ∧ e.Code = ErrNotFound) := by
  constructor
  · intro hk hf hl h
    rw [query_seq lib ro g elems caseSensitive safe key rest hseq]
    exact querySeq_invalid lib _ safe ro elems key rest hk hf hl h
  · intro he hfl
    rw [query_seq lib ro g elems caseSensitive safe key rest hseq]
    subst he
    rcases hfl with h1 | h1
    · rw [querySeq_first _ _ _ _ _ _ _ h1]
      obtain ⟨e, h2, h3, _⟩ := querySeq_invalid lib
        (fun v ks => query lib v caseSensitive safe ks) safe ro [] "0" rest (by decide)
        (by rw [toLower_zero]; decide) (by rw [toLower_zero]; decide)
        (Or.inr ⟨0, by rfl, Or.inr (by simp)⟩)
      exact ⟨e, h2, h3⟩
    · rw [querySeq_last _ _ _ _ _ _ _ h1]
      obtain ⟨e, h2, h3, _⟩ := querySeq_invalid lib
        (fun v ks => query lib v caseSensitive safe ks) safe ro []
        (itoa ((([] : List GoVal).length : Int) - 1)) rest (by decide)
        (toLower_itoa_ne_first lib _) (toLower_itoa_ne_last lib _)
        (Or.inr ⟨-1, by rfl, Or.inl (by simp)⟩)
      exact ⟨e, h2, h3⟩

/-- C6 on the slice of `TestQuery` (length 2): the keys `2`, `-3`, `a`, `fırst` (with a
dotless i, which `strings.ToLower` leaves as it is) and the empty key fail; so does
`last` on an empty slice.  The key `fİrst` (with the dotted capital I, U+0130) is not
among them: `strings.ToLower` turns it into `first`, and it resolves to the element
at 0. -/
theorem C6_witness :
    (∃ e, query plainLib (.val false (.slice [.str "string1", .str "string2"])) false false
        ["2"] = .err e ∧ e.Code = ErrNotFound ∧ e.Detail = "[slice] invalid key: " ++ "2")
    ∧ (∃ e, query plainLib (.val false (.slice [.str "string1", .str "string2"])) false false
        ["-3"] = .err e ∧ e.Code = ErrNotFound ∧ e.Detail = "[slice] invalid key: " ++ "-3")
    ∧ (∃ e, query plainLib (.val false (.slice [.str "string1", .str "string2"])) false false
        ["a", "b"] = .err e ∧ e.Code = ErrNotFound ∧ e.Detail = "[slice] invalid key: " ++ "a")
    ∧ (∃ e, query plainLib (.val false (.slice [.str "string1", .str "string2"])) false false
        [""] = .err e ∧ e.Code = ErrNotFound ∧ e.Detail = "[slice] invalid key: " ++ "")
    ∧ (∃ e, query plainLib (.val false (.slice [])) false false ["last"] = .err e
        ∧ e.Code = ErrNotFound)
    ∧ (∃ e, query plainLib (.val false (.slice [.str "string1", .str "string2"])) false false
        ["fırst"] = .err e ∧ e.Code = ErrNotFound
          ∧ e.Detail = "[slice] invalid key: " ++ "fırst")
    ∧ (toLower plainLib "fİrst" = "first"
      ∧ query plainLib (.val false (.slice [.str "string1", .str "string2"])) false false
        ["fİrst"] = .ok (.val false (.str "string1"))) :=
  ⟨(C6_invalid_index plainLib false _ [.str "string1", .str "string2"] false false "2" []
      (Or.inl rfl)).1 (by decide) (by decide) (by decide)
      (Or.inr ⟨2, by rfl, Or.inr (by decide)⟩),
   (C6_invalid_index plainLib false _ [.str "string1", .str "string2"] false false "-3" []
      (Or.inl rfl)).1 (by decide) (by decide) (by decide)
      (Or.inr ⟨-3, by rfl, Or.inl (by decide)⟩),
   (C6_invalid_index plainLib false _ [.str "string1", .str "string2"] false false "a" ["b"]
      (Or.inl rfl)).1 (by decide) (by decide) (by decide) (Or.inl ⟨_, by rfl⟩),
   (C6_invalid_index plainLib false _ [.str "string1", .str "string2"] false false "" []
      (Or.inl rfl)).1 (by decide) (by decide) (by decide) (Or.inl ⟨_, by rfl⟩),
   (C6_invalid_index plainLib false _ [] false false "last" [] (Or.inl rfl)).2 rfl
      (Or.inr (by decide)),
   (C6_invalid_index plainLib false _ [.str "string1", .str "string2"] false false "fırst" []
      (Or.inl rfl)).1 (by decide) (by decide) (by decide) (Or.inl ⟨_, by rfl⟩),
   by decide, by rfl⟩

/-! ## C7: symbolic indices -/

/-- C7: on every slice or array (of length `N`) and with any remaining keys, a key
that is `first` in any letter case gives the same result as the key `0`, and a key that
is `last` in any letter case gives the same result as the key written for the index
`N - 1`.  Letter case is that of `strings.ToLower`, for every Unicode case table. -/
theorem C7_first_last (lib : Lib) (ro : Bool) (g : GoVal) (elems : List GoVal)
    (caseSensitive safe : Bool) (key : String) (rest : List String)
    (hseq : g = .slice elems ∨ g = .array elems) :
    (toLower lib key = "first" →
        query lib (.val ro g) caseSensitive safe (key :: rest)
          = query lib (.val ro g) caseSensitive safe ("0" :: rest))
    ∧ (toLower lib key = "last" →
        query lib (.val ro g) caseSensitive safe (key :: rest)
          = query lib (.val ro g) caseSensitive safe (itoa ((elems.length : Int) - 1) :: rest)) := by
  constructor
  · intro h
    rw [query_seq lib ro g elems caseSensitive safe key rest hseq,
      query_seq lib ro g elems caseSensitive safe "0" rest hseq, querySeq_first _ _ _ _ _ _ _ h]
  · intro h
    rw [query_seq lib ro g elems caseSensitive safe key rest hseq,
      query_seq lib ro g elems caseSensitive safe _ rest hseq, querySeq_last _ _ _ _ _ _ _ h]

/-- C7 on the slice of `TestQuery`: `FiRsT` is the element at 0 and `LAST` the one at
1; so is `fİrst`, written with the dotted capital I (U+0130), which `strings.ToLower`
turns into `first`. -/
theorem C7_witness :
    (query plainLib (.val false (.slice [.str "string1", .str "string2"])) false false ["FiRsT"]
        = query plainLib (.val false (.slice [.str "string1", .str "string2"])) false false ["0"]
      ∧ query plainLib (.val false (.slice [.str "string1", .str "string2"])) false false ["0"]
        = .ok (.val false (.str "string1")))
    ∧ (query plainLib (.val false (.slice [.str "string1", .str "string2"])) false false ["LAST"]
        = query plainLib (.val false (.slice [.str "string1", .str "string2"])) false false
            [itoa ((([GoVal.str "string1", GoVal.str "string2"].length : Nat) : Int) - 1)]
      ∧ query plainLib (.val false (.slice [.str "string1", .str "string2"])) false false
            [itoa ((([GoVal.str "string1", GoVal.str "string2"].length : Nat) : Int) - 1)]
        = .ok (.val false (.str "string2")))
    ∧ (toLower plainLib "fİrst" = "first"
      ∧ query plainLib (.val false (.slice [.str "string1", .str "string2"])) false false ["fİrst"]
        = query plainLib (.val false (.slice [.str "string1", .str "string2"])) false false
            ["0"]) :=
  ⟨⟨(C7_first_last plainLib false _ [.str "string1", .str "string2"] false false "FiRsT" []
      (Or.inl rfl)).1 (by decide), by rfl⟩,
   ⟨(C7_first_last plainLib false _ [.str "string1", .str "string2"] false false "LAST" []
      (Or.inl rfl)).2 (by decide), by rfl⟩,
   ⟨by decide,
    (C7_first_last plainLib false _ [.str "string1", .str "string2"] false false "fİrst" []
      (Or.inl rfl)).1 (by decide)⟩⟩


/-! ## Case-insensitive matching -/

theorem lookupKey_mem (key : MapKey) (V : GoVal) :
    ∀ entries : List (MapKey × GoVal), lookupKey key entries = some V →
      key ∈ entries.map Prod.fst := by
  intro entries
  induction entries with
  | nil => intro h; simp [lookupKey] at h
  | cons kv rest ih =>
    obtain ⟨k, v⟩ := kv
    intro h
    by_cases hk : k = key
    · simp [hk]
    · simp only [lookupKey, hk, if_false] at h
      simp [ih h]

theorem lookupKey_none (key : MapKey) :
    ∀ entries : List (MapKey × GoVal), key ∉ entries.map Prod.fst →
      lookupKey key entries = none := by
  intro entries
  induction entries with
  | nil => intro _; rfl
  | cons kv rest ih =>
    obtain ⟨k, v⟩ := kv
    intro h
    simp only [List.map_cons, List.mem_cons, not_or] at h
    have hk : ¬ k = key := fun e => h.1 e.symm
    simp only [lookupKey, hk, if_false]
    exact ih h.2

/-- The scan of `findMapKeyValue` returns the key `K` when `K` is a key and every key
that matches the wanted one is `K`. -/
theorem searchMapKeys_unique (lib : Lib) (currentKey K : String) (keyValue : MapKey)
    (hK : trimSpace (toLower lib K) = trimSpace (toLower lib currentKey)) :
    ∀ entries : List (MapKey × GoVal), MapKey.str K ∈ entries.map Prod.fst →
      (∀ k ∈ entries.map Prod.fst,
        trimSpace (toLower lib k.string) = trimSpace (toLower lib currentKey) → k = .str K) →
      searchMapKeys lib currentKey keyValue entries = .str K := by
  intro entries
  induction entries with
  | nil => intro h; simp at h
  | cons kv rest ih =>
    obtain ⟨k, v⟩ := kv
    intro hmem huniq
    by_cases hm : trimSpace (toLower lib k.string) = trimSpace (toLower lib currentKey)
    · have := huniq k (by simp) hm
      simp only [searchMapKeys, hm, beq_self_eq_true, if_true]
      exact this
    · have hne : MapKey.str K ≠ k := by
        intro e
        apply hm
        rw [← e]
        exact hK
      have hmem' : MapKey.str K ∈ rest.map Prod.fst := by
        simp only [List.map_cons, List.mem_cons] at hmem
        rcases hmem with h | h
        · exact absurd h hne
        · exact h
      simp only [searchMapKeys, beq_iff_eq, hm, if_false]
      exact ih hmem' (fun k' hk' => huniq k' (by simp [List.mem_map] at hk' ⊢; exact Or.inr hk'))

theorem fieldByName_mem (name : String) (f : String × Bool × GoVal) :
    ∀ fields : List (String × Bool × GoVal), fieldByName fields name = some f →
      f ∈ fields ∧ f.1 = name := by
  intro fields h
  unfold fieldByName at h
  have h1 := List.mem_of_find?_eq_some h
  have h2 := List.find?_some h
  exact ⟨h1, by simpa using h2⟩

theorem fieldByName_none (name : String) :
    ∀ fields : List (String × Bool × GoVal), (∀ f ∈ fields, f.1 ≠ name) →
      fieldByName fields name = none := by
  intro fields h
  unfold fieldByName
  rw [List.find?_eq_none]
  intro f hf
  simpa using h f hf

/-- The scan of `findStructFieldName` returns the field name `K` when `K` is a field
and every field that matches the wanted name is `K`. -/
theorem searchFieldNames_unique (lib : Lib) (currentKey K : String)
    (hK : trimSpace (toLower lib K) = trimSpace (toLower lib currentKey)) :
    ∀ fields : List (String × Bool × GoVal), (∃ f ∈ fields, f.1 = K) →
      (∀ f ∈ fields, trimSpace (toLower lib f.1) = trimSpace (toLower lib currentKey) → f.1 = K) →
      searchFieldNames lib currentKey fields = K := by
  intro fields
  induction fields with
  | nil => intro h; simp at h
  | cons f rest ih =>
    obtain ⟨n, x, v⟩ := f
    intro hmem huniq
    by_cases hm : trimSpace (toLower lib n) = trimSpace (toLower lib currentKey)
    · have := huniq (n, x, v) (by simp) hm
      simp only [searchFieldNames, hm, beq_self_eq_true, if_true]
      exact this
    · have hne : n ≠ K := by
        intro e
        apply hm
        rw [e]
        exact hK
      have hmem' : ∃ f ∈ rest, f.1 = K := by
        obtain ⟨f, hf, hfK⟩ := hmem
        rcases List.mem_cons.1 hf with h | h
        · rw [h] at hfK
          exact absurd hfK hne
        · exact ⟨f, h, hfK⟩
      simp only [searchFieldNames, beq_iff_eq, hm, if_false]
      exact ih hmem' (fun f hf => huniq f (List.mem_cons_of_mem _ hf))

/-! ## C3: case-insensitive lookup -/

/-- C3 (as stated) fails.  In the map `mapTwoSpellings` the only key equal to `Ab` up
to letter case is `Ab` itself, yet `[ab]` resolves, with `caseSensitive` false, to
the value stored at `" ab "` (the comparison also trims whitespace) when that key is
enumerated first.  In the struct `structPrivInt` the only field equal to `privInt` up
to letter case is `privInt`, yet `[privint]` fails under `safe`, the field not being
exported. -/
theorem C3_counterexample :
    (lookupKey (.str "Ab") [(.str " ab ", .int .int 2), (.str "Ab", .int .int 1)]
        = some (.int .int 1)
      ∧ toLower plainLib "Ab" ≠ "Ab"
      ∧ (∀ k ∈ [MapKey.str " ab ", MapKey.str "Ab"],
          toLower plainLib k.string = toLower plainLib "Ab" → k = .str "Ab")
      ∧ query plainLib (.val false mapTwoSpellings) false false [toLower plainLib "Ab"]
          = .ok (.val false (.int .int 2))
      ∧ query plainLib (.val false mapTwoSpellings) false false [toLower plainLib "Ab"]
          ≠ .ok (.val false (.int .int 1)))
    ∧ (fieldByName [("privInt", false, GoVal.int .int 7)] "privInt"
        = some ("privInt", false, .int .int 7)
      ∧ toLower plainLib "privInt" ≠ "privInt"
      ∧ query plainLib (.val false structPrivInt) false true [toLower plainLib "privInt"]
          = .err { Code := ErrNotFound, Detail := "[struct] field privint not exported",
                   cause := none }) := by
  refine ⟨⟨by rfl, by decide, ?_, by rfl, ?_⟩, by rfl, by decide, by rfl⟩
  · intro k hk
    simp only [List.mem_cons, List.mem_singleton, List.not_mem_nil, or_false] at hk
    rcases hk with h | h <;> subst h
    · decide
    · intro _; rfl
  · have h : query plainLib (.val false mapTwoSpellings) false false [toLower plainLib "Ab"]
        = .ok (.val false (.int .int 2)) := by rfl
    rw [h]
    simp

/-- C3 (amended): let `K` be a key of a string-keyed map (a field of a struct) such
that every key (field) equal to `K` up to letter case and surrounding whitespace is `K`
itself, and let `k` be a key string other than `K` that equals `K` up to letter case and
surrounding whitespace (`lower(k)` and `lower(K)` agree once trimmed; `lower(K)` is such
a string when it differs from `K` and lower-casing it again leaves it as it is).
Resolving `[k]` with `caseSensitive` false returns the value stored at `K` for the map,
and for the struct when `safe` is false or `K` is exported; with `caseSensitive` true it
fails with a not-found error for both.  Letter case is that of `strings.ToLower`, for
every Unicode case table. -/
theorem C3_case_insensitive_lookup (lib : Lib) (ro : Bool) (K k : String) (V : GoVal)
    (safe : Bool) (hne : k ≠ K)
    (hk : trimSpace (toLower lib k) = trimSpace (toLower lib K)) :
    (∀ entries : List (MapKey × GoVal), lookupKey (.str K) entries = some V →
        (∀ k1 ∈ entries.map Prod.fst,
          trimSpace (toLower lib k1.string) = trimSpace (toLower lib K) → k1 = .str K) →
        query lib (.val ro (.map .string entries)) false safe [k] = .ok (.val ro V)
        ∧ ∃ e, query lib (.val ro (.map .string entries)) true safe [k] = .err e
            ∧ e.Code = ErrNotFound)
    ∧ (∀ (fields : List (String × Bool × GoVal)) (exported : Bool),
        fieldByName fields K = some (K, exported, V) →
        (∀ f ∈ fields, trimSpace (toLower lib f.1) = trimSpace (toLower lib K) → f.1 = K) →
        ((safe = false ∨ exported = true) →
          query lib (.val ro (.struct fields)) false safe [k]
            = .ok (.val (ro || !exported) V))
        ∧ ∃ e, query lib (.val ro (.struct fields)) true safe [k] = .err e
            ∧ e.Code = ErrNotFound) := by
  constructor
  · intro entries hV huniq
    have hmem := lookupKey_mem _ _ entries hV
    have huniq1 : ∀ k1 ∈ entries.map Prod.fst,
        trimSpace (toLower lib k1.string) = trimSpace (toLower lib k) → k1 = .str K := by
      intro k1 hk1 h
      rw [hk] at h
      exact huniq k1 hk1 h
    have hnone : lookupKey (.str k) entries = none := by
      apply lookupKey_none
      intro hin
      have := huniq _ hin (by simp only [MapKey.string]; exact hk)
      exact hne (MapKey.str.inj this)
    have hsearch := searchMapKeys_unique lib k K (.str k) hk.symm entries hmem huniq1
    constructor
    · rw [query_unfold]
      simp [queryStep, Value.isValid, toConcreteElem_map, findMapKeyValue, hnone, hsearch,
        mapIndex, hV, query_nil]
    · rw [query_unfold]
      simp [queryStep, Value.isValid, toConcreteElem_map, findMapKeyValue, hnone, mapIndex,
        newQueryError]
  · intro fields exported hV huniq
    have huniq1 : ∀ f ∈ fields,
        trimSpace (toLower lib f.1) = trimSpace (toLower lib k) → f.1 = K := by
      intro f hf h
      rw [hk] at h
      exact huniq f hf h
    have hnone : fieldByName fields k = none := by
      apply fieldByName_none
      intro f hf he
      have := huniq f hf (by rw [he]; exact hk)
      rw [he] at this
      exact hne this
    have hmem : ∃ f ∈ fields, f.1 = K :=
      ⟨_, (fieldByName_mem K _ fields hV).1, rfl⟩
    have hsearch := searchFieldNames_unique lib k K hk.symm fields hmem huniq1
    have hname : findStructFieldName lib fields k false = K := by
      simp [findStructFieldName, hnone, hsearch]
    constructor
    · intro hs
      rw [query_unfold]
      rcases hs with hs | hs <;> subst hs <;>
        simp [queryStep, Value.isValid, toConcreteElem_struct, hname, hV, fieldValueByName,
          query_nil]
    · rw [query_unfold]
      cases safe <;>
        simp [queryStep, Value.isValid, toConcreteElem_struct, findStructFieldName, hnone,
          fieldValueByName, newQueryError]

/-- C3 (amended) on a map with the key `Name` and on a struct with the exported field
`Name`, for the key `lower(Name)`; and on a map with the key `ÄB`, for the key `äb`. -/
theorem C3_witness :
    (toLower plainLib "Name" = "name"
      ∧ query plainLib
          (.val false (.map .string [(.str "Name", .str "Vin"), (.str "Age", .str "30")]))
          false false [toLower plainLib "Name"] = .ok (.val false (.str "Vin"))
      ∧ ∃ e, query plainLib
            (.val false (.map .string [(.str "Name", .str "Vin"), (.str "Age", .str "30")]))
            true false [toLower plainLib "Name"] = .err e ∧ e.Code = ErrNotFound)
    ∧ (query plainLib (.val false (.struct [("Name", true, .str "Vin"), ("age", false, .str "30")]))
        false false [toLower plainLib "Name"] = .ok (.val (false || !true) (.str "Vin"))
      ∧ ∃ e, query plainLib
            (.val false (.struct [("Name", true, .str "Vin"), ("age", false, .str "30")]))
            true false [toLower plainLib "Name"] = .err e ∧ e.Code = ErrNotFound)
    ∧ (toLower plainLib "ÄB" = "äb"
      ∧ query plainLib (.val false (.map .string [(.str "ÄB", .int .int 1)])) false false ["äb"]
          = .ok (.val false (.int .int 1))) :=
  ⟨⟨by decide,
    (C3_case_insensitive_lookup plainLib false "Name" (toLower plainLib "Name") (.str "Vin")
      false (by decide) (by decide)).1
      [(.str "Name", .str "Vin"), (.str "Age", .str "30")] (by rfl)
      (by
        intro k hk
        simp only [List.map_cons, List.map_nil, List.mem_cons, List.mem_singleton,
          List.not_mem_nil, or_false] at hk
        rcases hk with h | h <;> subst h
        · intro _; rfl
        · decide)⟩,
   (fun h => ⟨h.1 (Or.inl rfl), h.2⟩)
    ((C3_case_insensitive_lookup plainLib false "Name" (toLower plainLib "Name") (.str "Vin")
      false (by decide) (by decide)).2
      [("Name", true, .str "Vin"), ("age", false, .str "30")] true (by rfl)
      (by
        intro f hf
        simp only [List.mem_cons, List.mem_singleton, List.not_mem_nil, or_false] at hf
        rcases hf with h | h <;> subst h
        · intro _; rfl
        · decide)),
   by decide,
   ((C3_case_insensitive_lookup plainLib false "ÄB" "äb" (.int .int 1) false (by decide)
      (by decide)).1 [(.str "ÄB", .int .int 1)] (by rfl)
      (by
        intro k hk
        simp only [List.map_cons, List.map_nil, List.mem_singleton] at hk
        subst hk
        intro _; rfl)).1⟩


/-! ## The filter of the sequence navigator -/

theorem toConcreteElemFrom_not_panic (lib : Lib) (safe : Bool) :
    ∀ (budget : Nat) (value : Value) (depth : Nat),
      (toConcreteElemFrom lib budget value safe depth).isPanic = false := by
  intro budget
  induction budget with
  | zero => intro value depth; rfl
  | succ b ih =>
    intro value depth
    simp only [toConcreteElemFrom]
    split
    · rfl
    · split
      · exact ih _ _
      · rfl

/-- In this model `toConcreteElem` never panics. -/
theorem toConcreteElem_not_panic (lib : Lib) (value : Value) (safe : Bool) (depth : Nat) :
    (toConcreteElem lib value safe depth).isPanic = false :=
  toConcreteElemFrom_not_panic lib safe _ value depth

theorem splitN2_attr (attr literal : String) (h : containsEq attr = false) :
    containsEq (attr ++ "=" ++ literal) = true
      ∧ splitN2 (attr ++ "=" ++ literal) = [attr, literal] := by
  have hnot : ∀ c ∈ attr.data, (c != '=') = true := by
    intro c hc
    simp only [bne_iff_ne, ne_eq]
    intro he
    subst he
    have : attr.data.contains '=' = true := List.elem_iff.2 hc
    unfold containsEq at h
    rw [h] at this
    exact Bool.false_ne_true this
  have hdata : (attr ++ "=" ++ literal).data = attr.data ++ '=' :: literal.data := by
    simp [String.data_append]
  have hc : containsEq (attr ++ "=" ++ literal) = true := by
    unfold containsEq
    rw [hdata]
    exact List.elem_iff.2 (by simp)
  refine ⟨hc, ?_⟩
  have htake : ∀ (a l : List Char), (∀ c ∈ a, (c != '=') = true) →
      (a ++ '=' :: l).takeWhile (fun c => c != '=') = a
        ∧ (a ++ '=' :: l).dropWhile (fun c => c != '=') = '=' :: l := by
    intro a l
    induction a with
    | nil => intro _; simp [List.takeWhile, List.dropWhile]
    | cons x xs ih =>
      intro hx
      have h1 := hx x (List.mem_cons_self _ _)
      have h2 := ih (fun c hc' => hx c (List.mem_cons_of_mem _ hc'))
      simp only [List.cons_append, List.takeWhile_cons, List.dropWhile_cons, h1, if_true, h2.1,
        h2.2, and_self]
  have ht := htake attr.data literal.data hnot
  unfold splitN2
  rw [if_pos hc, hdata, ht.1, ht.2]
  rfl

/-- One round of the filter loop, when no lookup on the element panics: the element
is taken when it matches the filter and the remaining keys resolve on it, and is
skipped otherwise. -/
theorem filterLoop_cons (lib : Lib) (caseSensitive safe ro : Bool)
    (attr literal currentKey : String) (rest : List String) (e : GoVal) (es : List GoVal)
    (h1 : (query lib (.val ro e) caseSensitive safe (attrKeys attr)).isPanic = false)
    (h2 : (query lib (.val ro e) caseSensitive safe rest).isPanic = false) :
    filterLoop lib (fun v ks => query lib v caseSensitive safe ks) safe ro attr literal
        currentKey rest (e :: es)
      = if (attrMatches lib caseSensitive safe ro attr literal e
              && (query lib (.val ro e) caseSensitive safe rest).isOk) = true
        then query lib (.val ro e) caseSensitive safe rest
        else filterLoop lib (fun v ks => query lib v caseSensitive safe ks) safe ro attr literal
          currentKey rest es := by
  have hk : (if attr != "" then [attr] else []) = attrKeys attr := rfl
  cases hq : query lib (.val ro e) caseSensitive safe (attrKeys attr) with
  | panic m => rw [hq] at h1; exact absurd h1 (by simp [Outcome.isPanic])
  | err err =>
    simp only [filterLoop, hk, attrMatches, hq]
    simp
  | ok attrVal =>
    simp only [filterLoop, hk, attrMatches, hq]
    cases hv : attrVal.isValid with
    | false => simp
    | true =>
      have hnp := toConcreteElem_not_panic lib attrVal safe 0
      cases hc : toConcreteElem lib attrVal safe 0 with
      | panic m => rw [hc] at hnp; exact absurd hnp (by simp [Outcome.isPanic])
      | err err => simp
      | ok a =>
        by_cases hs : valueToString lib a = literal
        · cases hr : query lib (.val ro e) caseSensitive safe rest with
          | panic m => rw [hr] at h2; exact absurd h2 (by simp [Outcome.isPanic])
          | err err => simp [hs, Outcome.isOk]
          | ok v => simp [hs, Outcome.isOk]
        · simp [hs]

/-- The filter loop, when no lookup on an element panics: the remaining keys on the
first element that matches the filter and on which they resolve; a not-found error
when there is none. -/
theorem filterLoop_spec (lib : Lib) (caseSensitive safe ro : Bool)
    (attr literal currentKey : String) (rest : List String) :
    ∀ elems : List GoVal,
      (∀ e ∈ elems,
        (query lib (.val ro e) caseSensitive safe (attrKeys attr)).isPanic = false
          ∧ (query lib (.val ro e) caseSensitive safe rest).isPanic = false) →
      filterLoop lib (fun v ks => query lib v caseSensitive safe ks) safe ro attr literal
          currentKey rest elems
        = match elems.find? (fun e => attrMatches lib caseSensitive safe ro attr literal e
              && (query lib (.val ro e) caseSensitive safe rest).isOk) with
          | some e => query lib (.val ro e) caseSensitive safe rest
          | none => .err { Code := ErrNotFound,
                           Detail := "[slice filter] no elem by key: " ++ currentKey,
                           cause := none } := by
  intro elems
  induction elems with
  | nil => intro _; rfl
  | cons e es ih =>
    intro hp
    have hpe := hp e (List.mem_cons_self _ _)
    have ih' := ih (fun e' he' => hp e' (List.mem_cons_of_mem _ he'))
    rw [filterLoop_cons lib caseSensitive safe ro attr literal currentKey rest e es hpe.1 hpe.2,
      List.find?_cons]
    by_cases hP : (attrMatches lib caseSensitive safe ro attr literal e
        && (query lib (.val ro e) caseSensitive safe rest).isOk) = true
    · simp only [hP, if_true]
    · have hP' : (attrMatches lib caseSensitive safe ro attr literal e
          && (query lib (.val ro e) caseSensitive safe rest).isOk) = false := by
        simpa using hP
      simp only [hP', Bool.false_eq_true, if_false]
      exact ih'

/-- On a slice or an array, a filter key `attr=literal` followed by keys, when no
lookup on an element panics. -/
theorem query_filter (lib : Lib) (ro : Bool) (g : GoVal) (elems : List GoVal)
    (caseSensitive safe : Bool) (attr literal : String) (rest : List String)
    (hseq : g = .slice elems ∨ g = .array elems) (hattr : containsEq attr = false)
    (hpanic : ∀ e ∈ elems,
      (query lib (.val ro e) caseSensitive safe (attrKeys attr)).isPanic = false
        ∧ (query lib (.val ro e) caseSensitive safe rest).isPanic = false) :
    query lib (.val ro g) caseSensitive safe ((attr ++ "=" ++ literal) :: rest)
      = match elems.find? (fun e => attrMatches lib caseSensitive safe ro attr literal e
            && (query lib (.val ro e) caseSensitive safe rest).isOk) with
        | some e => query lib (.val ro e) caseSensitive safe rest
        | none => .err { Code := ErrNotFound,
                         Detail := "[slice filter] no elem by key: " ++ (attr ++ "=" ++ literal),
                         cause := none } := by
  obtain ⟨h1, h2⟩ := splitN2_attr attr literal hattr
  rw [query_seq lib ro g elems caseSensitive safe _ rest hseq]
  unfold querySeq
  simp only [h1, if_true, h2]
  exact filterLoop_spec lib caseSensitive safe ro attr literal _ rest elems hpanic

/-! ## C8: what a filter selects -/

/-- C8 (as stated) fails.  In `twoMatchingMaps` the first element whose attribute `d`
is `y` is the first map, and the remaining key `z` fails on it; the query with the
keys `d=y`, `z` nevertheless succeeds, with the value of `z` in the second map: its
outcome is not the outcome of the remaining keys on the first matching element. -/
theorem C8_counterexample :
    twoMatchingMaps.find? (fun e => attrMatches plainLib false false false "d" "y" e)
        = some (.map .string [(.str "d", .str "y")])
    ∧ query plainLib (.val false (.map .string [(.str "d", .str "y")])) false false ["z"]
        = .err { Code := ErrNotFound, Detail := "[map] value not found by key z",
                 cause := none }
    ∧ query plainLib (.val false (.slice twoMatchingMaps)) false false ["d=y", "z"]
        = .ok (.val false (.str "1")) :=
  ⟨by rfl, by rfl, by rfl⟩

/-- C8 (amended): on a slice or an array, when no lookup on an element panics, a
filter key `attr=literal` selects the first element, in order, whose attribute (the
element itself when `attr` is empty) resolves and renders exactly as `literal` and on
which the remaining keys resolve; the outcome of the query is the outcome of the
remaining keys on that element, and the not-found error "[slice filter] no elem by
key" when there is no such element. -/
theorem C8_filter_selects (lib : Lib) (ro : Bool) (g : GoVal) (elems : List GoVal)
    (caseSensitive safe : Bool) (attr literal : String) (rest : List String)
    (hseq : g = .slice elems ∨ g = .array elems) (hattr : containsEq attr = false)
    (hpanic : ∀ e ∈ elems,
      (query lib (.val ro e) caseSensitive safe (attrKeys attr)).isPanic = false
        ∧ (query lib (.val ro e) caseSensitive safe rest).isPanic = false) :
    query lib (.val ro g) caseSensitive safe ((attr ++ "=" ++ literal) :: rest)
      = match elems.find? (fun e => attrMatches lib caseSensitive safe ro attr literal e
            && (query lib (.val ro e) caseSensitive safe rest).isOk) with
        | some e => query lib (.val ro e) caseSensitive safe rest
        | none => .err { Code := ErrNotFound,
                         Detail := "[slice filter] no elem by key: " ++ (attr ++ "=" ++ literal),
                         cause := none } :=
  query_filter lib ro g elems caseSensitive safe attr literal rest hseq hattr hpanic

/-- C8 (amended) on `twoMatchingMaps`: the element selected by `d=y`, `z` is the second
map. -/
theorem C8_witness :
    query plainLib (.val false (.slice twoMatchingMaps)) false false
        (("d" ++ "=" ++ "y") :: ["z"])
      = match twoMatchingMaps.find? (fun e => attrMatches plainLib false false false "d" "y" e
            && (query plainLib (.val false e) false false ["z"]).isOk) with
        | some e => query plainLib (.val false e) false false ["z"]
        | none => .err { Code := ErrNotFound,
                         Detail := "[slice filter] no elem by key: " ++ ("d" ++ "=" ++ "y"),
                         cause := none } :=
  C8_filter_selects plainLib false (.slice twoMatchingMaps) twoMatchingMaps false false "d" "y"
    ["z"] (Or.inl rfl) (by decide)
    (by
      intro e he
      simp only [twoMatchingMaps, List.mem_cons, List.mem_singleton, List.not_mem_nil,
        or_false] at he
      rcases he with h | h <;> subst h <;> exact ⟨rfl, rfl⟩)

/-! ## C9 and C10: filters and nil maps -/

/-- C9 (the code at the failing input): in `nilThenIntMap` the second element matches
the filter `1=x` and the remaining key `1` resolves on it to `x`, the first element (a
nil map) does not match; yet `query` with the keys `1=x`, `1` does not return `x`: the
lookup on the nil map panics, and `AnyResult` reports a not-found error. -/
theorem C9_filter_panics_on_nil_map (lib : Lib) :
    attrMatches lib false false false "1" "x" (.nilMap (.int .int)) = false
    ∧ attrMatches lib false false false "1" "x" (.map (.int .int) [(.int 1, .str "x")]) = true
    ∧ query lib (.val false (.map (.int .int) [(.int 1, .str "x")])) false false ["1"]
        = .ok (.val false (.str "x"))
    ∧ query lib (.val false (.slice nilThenIntMap)) false false ["1=x", "1"]
        = .panic "reflect.Value.MapIndex: value of type string is not assignable to type int"
    ∧ AnyResult lib (some (.slice nilThenIntMap)) None ["1=x", "1"]
        = (none, some { Code := ErrNotFound,
                        Detail := "reflect.Value.MapIndex: value of type string is not assignable to type int",
                        cause := none }) :=
  ⟨by rfl, by rfl, by rfl, by rfl, by rfl⟩

/-- C10 (the code at the failing input): no element of the one-element slice holding
a nil `map[int]string` has an attribute `1` that resolves, yet `query` with the filter
`1=x` does not return a not-found error: it panics (the public wrappers recover the
panic into a not-found error). -/
theorem C10_no_match_panics_on_nil_map (lib : Lib) :
    (∀ e ∈ [GoVal.nilMap (.int .int)], attrMatches lib false false false "1" "x" e = false)
    ∧ query lib (.val false (.slice [.nilMap (.int .int)])) false false ["1=x"]
        = .panic "reflect.Value.MapIndex: value of type string is not assignable to type int"
    ∧ (∀ e, query lib (.val false (.slice [.nilMap (.int .int)])) false false ["1=x"] ≠ .err e)
    ∧ AnyResult lib (some (.slice [.nilMap (.int .int)])) None ["1=x"]
        = (none, some { Code := ErrNotFound,
                        Detail := "reflect.Value.MapIndex: value of type string is not assignable to type int",
                        cause := none }) := by
  have h : query lib (.val false (.slice [.nilMap (.int .int)])) false false ["1=x"]
      = .panic "reflect.Value.MapIndex: value of type string is not assignable to type int" := by
    rfl
  refine ⟨?_, h, ?_, by rfl⟩
  · intro e he
    simp only [List.mem_singleton] at he
    subst he
    rfl
  · intro e he
    rw [h] at he
    cases he

/-- A filter with no matching element fails with a not-found error, when no lookup
on an element panics. -/
theorem query_filter_no_match (lib : Lib) (ro : Bool) (g : GoVal) (elems : List GoVal)
    (caseSensitive safe : Bool) (attr literal : String) (rest : List String)
    (hseq : g = .slice elems ∨ g = .array elems) (hattr : containsEq attr = false)
    (hpanic : ∀ e ∈ elems,
      (query lib (.val ro e) caseSensitive safe (attrKeys attr)).isPanic = false
        ∧ (query lib (.val ro e) caseSensitive safe rest).isPanic = false)
    (hno : ∀ e ∈ elems, attrMatches lib caseSensitive safe ro attr literal e = false) :
    query lib (.val ro g) caseSensitive safe ((attr ++ "=" ++ literal) :: rest)
      = .err { Code := ErrNotFound,
               Detail := "[slice filter] no elem by key: " ++ (attr ++ "=" ++ literal),
               cause := none } := by
  rw [query_filter lib ro g elems caseSensitive safe attr literal rest hseq hattr hpanic]
  have : elems.find? (fun e => attrMatches lib caseSensitive safe ro attr literal e
      && (query lib (.val ro e) caseSensitive safe rest).isOk) = none := by
    rw [List.find?_eq_none]
    intro e he
    simp [hno e he]
  rw [this]


/-! ## Key splitter -/

theorem splitLoop_comma_nil (acc : List Char) :
    splitLoop [','] 0 [] acc = [String.mk acc.reverse] := rfl

theorem splitLoop_comma_cons (c : Char) (cs acc : List Char) :
    splitLoop [','] 0 (c :: cs) acc
      = if c = ',' then String.mk acc.reverse :: splitLoop [','] 0 cs []
        else splitLoop [','] 0 cs (c :: acc) := by
  by_cases h : c = ','
  · subst h
    simp [splitLoop, List.isPrefixOf]
  · have h' : (',' == c) = false := by
      rw [beq_eq_false_iff_ne]; exact fun e => h e.symm
    simp [splitLoop, List.isPrefixOf, h, h']

theorem joinEscaped_ne_nil (separator esc : String) :
    ∀ l : List String, l ≠ [] → joinEscaped separator esc l ≠ [] := by
  intro l
  cases l with
  | nil => intro h; exact absurd rfl h
  | cons x rest =>
    intro _
    simp only [joinEscaped]
    split
    · simp
    · split <;> simp

theorem splitLoop_ne_nil (cs acc : List Char) : splitLoop [','] 0 cs acc ≠ [] := by
  induction cs generalizing acc with
  | nil => simp [splitLoop_comma_nil]
  | cons c cs ih =>
    rw [splitLoop_comma_cons]
    split
    · simp
    · exact ih _

theorem scanEscaped_ne_nil (cs acc : List Char) : scanEscaped cs acc ≠ [] := by
  induction cs generalizing acc with
  | nil => simp [scanEscaped]
  | cons c cs ih =>
    simp only [scanEscaped]
    split
    · split
      · exact ih _
      · simp
    · exact ih _

/-- Characters already read that cannot be an escaping backslash only lengthen the
first fragment. -/
theorem scanEscaped_prepend (cs : List Char) :
    ∀ acc pre : List Char, (acc = [] → pre.head? ≠ some '\\') →
      scanEscaped cs (acc ++ pre) = prependFirst pre.reverse (scanEscaped cs acc) := by
  induction cs with
  | nil =>
    intro acc pre _
    simp [scanEscaped, prependFirst]
  | cons c cs ih =>
    intro acc pre h
    by_cases hc : c = ','
    · subst hc
      cases acc with
      | nil =>
        have hp := h rfl
        cases pre with
        | nil => simp [scanEscaped, prependFirst]
        | cons p ps =>
          have hne : p ≠ '\\' := by
            intro e; apply hp; simp [e]
          simp only [List.nil_append, scanEscaped, if_true]
          split
          · rename_i heq
            injection heq with h1 _
            exact absurd h1.symm (fun e => hne e.symm)
          · simp [prependFirst]
      | cons a t =>
        by_cases ha : a = '\\'
        · subst ha
          simp only [List.cons_append, scanEscaped, if_true]
          have := ih (',' :: t) pre (by simp)
          simpa using this
        · simp only [List.cons_append, scanEscaped, if_true]
          split
          · rename_i heq
            injection heq with h1 _
            exact absurd h1 ha
          · split
            · rename_i heq
              injection heq with h1 _
              exact absurd h1 ha
            · simp [prependFirst]
    · simp only [scanEscaped, hc, if_false]
      have := ih (c :: acc) pre (by simp)
      simpa using this

theorem hasSuffix_backslash (acc : List Char) :
    hasSuffix (String.mk acc.reverse) "\\" = (acc.head? == some '\\') := by
  cases acc with
  | nil => rfl
  | cons a t =>
    simp only [hasSuffix, List.reverse_reverse, List.head?_cons]
    have : ("\\" : String).data.reverse = ['\\'] := rfl
    rw [this]
    by_cases h : a = '\\'
    · subst h; simp [List.isPrefixOf]
    · have h' : ('\\' == a) = false := by
        rw [beq_eq_false_iff_ne]; exact fun e => h e.symm
      have h'' : (some a == some '\\') = false := by
        rw [beq_eq_false_iff_ne]; intro e; exact h (Option.some.inj e)
      simp [List.isPrefixOf, h', h'']

/-- The source reads as the scan: `strings.Split` at every comma, then the fragments
that end with a backslash joined with their successor. -/
theorem joinEscaped_splitLoop (cs : List Char) :
    ∀ acc : List Char,
      joinEscaped "," "\\" (splitLoop [','] 0 cs acc) = scanEscaped cs acc := by
  induction cs with
  | nil => intro acc; rfl
  | cons c cs ih =>
    intro acc
    rw [splitLoop_comma_cons]
    by_cases hc : c = ','
    · subst hc
      simp only [if_true, joinEscaped, ih, scanEscaped]
      cases hs : scanEscaped cs [] with
      | nil => exact absurd hs (scanEscaped_ne_nil cs [])
      | cons y ys =>
        simp only [hasSuffix_backslash]
        cases acc with
        | nil => simp
        | cons a t =>
          by_cases ha : a = '\\'
          · subst ha
            have hp := scanEscaped_prepend cs [] (',' :: t) (by simp)
            simp only [List.nil_append] at hp
            show _ = scanEscaped cs (',' :: t)
            rw [hp, hs]
            simp only [List.head?_cons, beq_self_eq_true, if_true, prependFirst,
              List.reverse_cons, List.length_append, List.length_reverse, List.length_singleton]
            congr 1
            apply String.ext
            simp [String.data_append]
          · have h'' : (some a == some '\\') = false := by
              rw [beq_eq_false_iff_ne]; intro e; exact ha (Option.some.inj e)
            simp only [List.head?_cons, h'', Bool.false_eq_true, if_false]
            split
            · rename_i heq
              injection heq with h1 _
              exact absurd h1 ha
            · rfl
    · simp only [hc, if_false, scanEscaped]
      exact ih _

theorem unescapeCommas_cons_of_ne (c : Char) (l : List Char) (h : c ≠ '\\') :
    unescapeCommas (c :: l) = c :: unescapeCommas l := by
  cases l with
  | nil => rfl
  | cons d l => simp [unescapeCommas, h]

/-- Replacing backslash-comma in a concatenation works on both parts, unless the
first ends with a backslash and the second starts with a comma. -/
theorem unescapeCommas_append :
    ∀ (X Y : List Char), (X.getLast? ≠ some '\\' ∨ Y.head? ≠ some ',') →
      unescapeCommas (X ++ Y) = unescapeCommas X ++ unescapeCommas Y
  | [], Y, _ => by simp [unescapeCommas]
  | [c], Y, h => by
    cases Y with
    | nil => simp [unescapeCommas]
    | cons y Y' =>
      have hn : ¬ (c = '\\' ∧ y = ',') := by
        rintro ⟨h1, h2⟩
        rcases h with h | h
        · exact h (by simp [h1])
        · exact h (by simp [h2])
      simp [unescapeCommas, hn]
  | c :: d :: X', Y, h => by
    have h' : (d :: X').getLast? ≠ some '\\' ∨ Y.head? ≠ some ',' := by
      rw [List.getLast?_cons_cons] at h
      exact h
    by_cases hp : c = '\\' ∧ d = ','
    · have hX : X'.getLast? ≠ some '\\' ∨ Y.head? ≠ some ',' ∨ X' = [] := by
        cases X' with
        | nil => exact Or.inr (Or.inr rfl)
        | cons x X'' =>
          rw [List.getLast?_cons_cons] at h'
          rcases h' with h' | h'
          · exact Or.inl h'
          · exact Or.inr (Or.inl h')
      have ih : unescapeCommas (X' ++ Y) = unescapeCommas X' ++ unescapeCommas Y := by
        rcases hX with h1 | h1 | h1
        · exact unescapeCommas_append X' Y (Or.inl h1)
        · exact unescapeCommas_append X' Y (Or.inr h1)
        · subst h1; simp [unescapeCommas]
      simp only [List.cons_append, unescapeCommas, hp, and_self, if_true]
      simpa using ih
    · have ih := unescapeCommas_append (d :: X') Y h'
      simp only [List.cons_append] at ih
      simp only [List.cons_append, unescapeCommas, hp, if_false]
      simpa using ih

theorem unescapeCommas_snoc (X : List Char) (c : Char) (h : c ≠ ',') :
    unescapeCommas (X ++ [c]) = unescapeCommas X ++ [c] := by
  rw [unescapeCommas_append X [c] (Or.inr (by simp [h]))]
  rfl

theorem unescapeCommas_snoc_escaped (X : List Char) :
    unescapeCommas (X ++ ['\\', ',']) = unescapeCommas X ++ [','] := by
  rw [unescapeCommas_append X ['\\', ','] (Or.inr (by decide))]
  rfl

/-- The scan returns the pieces cut at the commas not preceded by a backslash, each
with backslash-comma replaced by a comma.  `acc` is the fragment read so far with
the replacements made, `raw` the same characters as they stand in the string. -/
theorem scanEscaped_eq_cut (cs : List Char) :
    ∀ acc raw : List Char, acc.reverse = unescapeCommas raw.reverse →
      (acc.head? = some '\\' ↔ raw.head? = some '\\') →
      scanEscaped cs acc
        = (cutUnescaped cs raw).map (fun p => String.mk (unescapeCommas p)) := by
  induction cs with
  | nil =>
    intro acc raw h _
    simp [scanEscaped, cutUnescaped, h]
  | cons c cs ih =>
    intro acc raw h hh
    by_cases hc : c = ','
    · subst hc
      by_cases hb : raw.head? = some '\\'
      · have ha := hh.2 hb
        obtain ⟨t, rfl⟩ : ∃ t, acc = '\\' :: t := by
          cases acc with
          | nil => simp at ha
          | cons a t => simp at ha; exact ⟨t, by rw [ha]⟩
        obtain ⟨tr, rfl⟩ : ∃ tr, raw = '\\' :: tr := by
          cases raw with
          | nil => simp at hb
          | cons a t => simp at hb; exact ⟨t, by rw [hb]⟩
        have ht : t.reverse = unescapeCommas tr.reverse := by
          have h2 := h
          simp only [List.reverse_cons] at h2
          rw [unescapeCommas_snoc tr.reverse '\\' (by decide)] at h2
          exact List.append_cancel_right h2
        have hstep := ih (',' :: t) (',' :: '\\' :: tr)
          (by
            simp only [List.reverse_cons, List.append_assoc, List.singleton_append]
            rw [unescapeCommas_snoc_escaped, ht])
          (by simp)
        simp only [scanEscaped, if_true, cutUnescaped, List.head?_cons, ne_eq, not_true_eq_false,
          and_false, if_false]
        exact hstep
      · have ha : acc.head? ≠ some '\\' := fun e => hb (hh.1 e)
        have hstep := ih [] [] rfl (by simp)
        simp only [scanEscaped, if_true, cutUnescaped, ne_eq, hb, not_false_eq_true, and_self,
          List.map_cons, ← h, ← hstep]
        split
        · exact (ha (by simp)).elim
        · rfl
    · have hstep := ih (c :: acc) (c :: raw)
        (by
          simp only [List.reverse_cons]
          rw [unescapeCommas_snoc _ c hc, h])
        (by simp)
      simp only [scanEscaped, hc, if_false, cutUnescaped, false_and]
      exact hstep

theorem stringsJoin_cons (x : String) (l : List String) (sep : String) (h : l ≠ []) :
    stringsJoin (x :: l) sep = x ++ sep ++ stringsJoin l sep := by
  cases l with
  | nil => exact absurd rfl h
  | cons y ys => rfl

/-- The fragments of the scan joined by commas are the string with every
backslash-comma replaced by a comma. -/
theorem stringsJoin_scanEscaped (cs : List Char) :
    ∀ acc raw : List Char, acc.reverse = unescapeCommas raw.reverse →
      (acc.head? = some '\\' ↔ raw.head? = some '\\') →
      stringsJoin (scanEscaped cs acc) "," = String.mk (unescapeCommas (raw.reverse ++ cs)) := by
  induction cs with
  | nil =>
    intro acc raw h _
    simp [scanEscaped, stringsJoin, h]
  | cons c cs ih =>
    intro acc raw h hh
    by_cases hc : c = ','
    · subst hc
      by_cases hb : raw.head? = some '\\'
      · have ha := hh.2 hb
        obtain ⟨t, rfl⟩ : ∃ t, acc = '\\' :: t := by
          cases acc with
          | nil => simp at ha
          | cons a t => simp at ha; exact ⟨t, by rw [ha]⟩
        obtain ⟨tr, rfl⟩ : ∃ tr, raw = '\\' :: tr := by
          cases raw with
          | nil => simp at hb
          | cons a t => simp at hb; exact ⟨t, by rw [hb]⟩
        have ht : t.reverse = unescapeCommas tr.reverse := by
          have h2 := h
          simp only [List.reverse_cons] at h2
          rw [unescapeCommas_snoc tr.reverse '\\' (by decide)] at h2
          exact List.append_cancel_right h2
        have hstep := ih (',' :: t) (',' :: '\\' :: tr)
          (by
            simp only [List.reverse_cons, List.append_assoc, List.singleton_append]
            rw [unescapeCommas_snoc_escaped, ht])
          (by simp)
        simp only [scanEscaped, if_true]
        rw [hstep]
        simp
      · have ha : acc.head? ≠ some '\\' := fun e => hb (hh.1 e)
        have hstep := ih [] [] rfl (by simp)
        have hscan : scanEscaped (',' :: cs) acc
            = String.mk acc.reverse :: scanEscaped cs [] := by
          simp only [scanEscaped, if_true]
          split
          · exact (ha (by simp)).elim
          · rfl
        rw [hscan, stringsJoin_cons _ _ _ (scanEscaped_ne_nil cs []), hstep]
        have hlast : raw.reverse.getLast? ≠ some '\\' := by
          rw [List.getLast?_reverse]; exact hb
        rw [unescapeCommas_append raw.reverse (',' :: cs) (Or.inl hlast),
          unescapeCommas_cons_of_ne ',' cs (by decide), ← h]
        apply String.ext
        simp [String.data_append]
    · have hstep := ih (c :: acc) (c :: raw)
        (by
          simp only [List.reverse_cons]
          rw [unescapeCommas_snoc _ c hc, h])
        (by simp)
      simp only [scanEscaped, hc, if_false]
      rw [hstep]
      simp

theorem splitWithEscape_comma (s : String) :
    splitWithEscape s "," "\\" = scanEscaped s.data [] := by
  unfold splitWithEscape stringsSplit
  have h1 : (",":String).data = [','] := rfl
  simp only [h1, List.isEmpty_cons, Bool.false_eq_true, if_false]
  exact joinEscaped_splitLoop s.data []

/-! ## C11: what `splitWithEscape` returns -/

/-- C11: for every string `s`, `splitWithEscape(s, ",", "\")` returns the pieces of
`s` cut exactly at the commas that are not immediately preceded by a backslash, each
with every backslash-comma replaced by a plain comma; the fragments joined by `,`
are `s` with every backslash-comma replaced by a comma. -/
theorem C11_splitWithEscape_cuts (s : String) :
    splitWithEscape s "," "\\"
        = (cutUnescaped s.data []).map (fun p => String.mk (unescapeCommas p))
    ∧ stringsJoin (splitWithEscape s "," "\\") "," = String.mk (unescapeCommas s.data) := by
  rw [splitWithEscape_comma]
  constructor
  · exact scanEscaped_eq_cut s.data [] [] rfl (by simp)
  · have := stringsJoin_scanEscaped s.data [] [] rfl (by simp)
    simpa using this

/-! ## C12: escaping round trip -/

theorem hasSuffix_backslash_iff (k : String) :
    hasSuffix k "\\" = (k.data.reverse.head? == some '\\') := by
  have := hasSuffix_backslash k.data.reverse
  simpa using this

theorem escapeCommas_data (k : String) : (escapeCommas k).data = escapeChars k.data := rfl

/-- The scan reads an escaped key as the key itself. -/
theorem scanEscaped_escaped (k : List Char) :
    ∀ rest acc : List Char,
      scanEscaped (escapeChars k ++ rest) acc = scanEscaped rest (k.reverse ++ acc) := by
  induction k with
  | nil => intro rest acc; rfl
  | cons c k ih =>
    intro rest acc
    by_cases hc : c = ','
    · subst hc
      have h1 : ('\\' : Char) ≠ ',' := by decide
      simp only [escapeChars, if_true, List.cons_append, scanEscaped, h1, if_false]
      exact (ih rest (',' :: acc)).trans (by simp)
    · simp only [escapeChars, hc, if_false, List.cons_append, scanEscaped]
      exact (ih rest (c :: acc)).trans (by simp)

theorem stringsJoin_data_cons (x : String) (l : List String) (h : l ≠ []) :
    (stringsJoin (x :: l) ",").data = x.data ++ ',' :: (stringsJoin l ",").data := by
  rw [stringsJoin_cons x l "," h]
  simp [String.data_append]

theorem scanEscaped_join_escaped :
    ∀ keys : List String, keys ≠ [] → (∀ k ∈ keys.dropLast, hasSuffix k "\\" = false) →
      scanEscaped (stringsJoin (keys.map escapeCommas) ",").data [] = keys
  | [], h, _ => absurd rfl h
  | [k], _, _ => by
    have := scanEscaped_escaped k.data [] []
    simp only [List.append_nil] at this
    simp only [List.map_cons, List.map_nil, stringsJoin, escapeCommas_data, this, scanEscaped,
      List.reverse_reverse]
  | k :: k2 :: r, _, h => by
    have hk : hasSuffix k "\\" = false := h k (by simp [List.dropLast])
    have hrest : ∀ k' ∈ (k2 :: r).dropLast, hasSuffix k' "\\" = false := by
      intro k' hk'
      exact h k' (by simp only [List.dropLast_cons₂, List.mem_cons]; exact Or.inr hk')
    have ih := scanEscaped_join_escaped (k2 :: r) (by simp) hrest
    have hhead : k.data.reverse.head? ≠ some '\\' := by
      rw [hasSuffix_backslash_iff] at hk
      intro e
      rw [e] at hk
      simp at hk
    have hdata : (stringsJoin ((k :: k2 :: r).map escapeCommas) ",").data
        = (escapeCommas k).data ++ ',' :: (stringsJoin ((k2 :: r).map escapeCommas) ",").data := by
      simp only [List.map_cons]
      exact stringsJoin_data_cons _ _ (by simp)
    rw [hdata, escapeCommas_data, scanEscaped_escaped, List.append_nil]
    simp only [scanEscaped, if_true]
    split
    · rename_i t heq
      rw [heq] at hhead
      simp at hhead
    · rw [ih]
      simp

/-- C12: for every non-empty list of keys in which no key other than the last ends
with a backslash, replacing every `,` of each key by backslash-comma, joining the
escaped keys with `,` and applying `splitWithEscape(., ",", "\")` returns exactly the
original list. -/
theorem C12_escape_round_trip (keys : List String) (hne : keys ≠ [])
    (h : ∀ k ∈ keys.dropLast, hasSuffix k "\\" = false) :
    splitWithEscape (stringsJoin (keys.map escapeCommas) ",") "," "\\" = keys := by
  rw [splitWithEscape_comma]
  exact scanEscaped_join_escaped keys hne h

/-- C12 on three keys, and on the single key `e,f` of the example: it is recovered
as one key from `e\,f`. -/
theorem C12_witness :
    splitWithEscape (stringsJoin (["a,b", ",c,", "d\\"].map escapeCommas) ",") "," "\\"
        = ["a,b", ",c,", "d\\"]
    ∧ stringsJoin (["e,f"].map escapeCommas) "," = "e\\,f"
    ∧ splitWithEscape (stringsJoin (["e,f"].map escapeCommas) ",") "," "\\" = ["e,f"] :=
  ⟨C12_escape_round_trip ["a,b", ",c,", "d\\"] (by simp) (by decide), by rfl,
   C12_escape_round_trip ["e,f"] (by simp) (by decide)⟩



/-! ## C13: keys of a list of paths -/

theorem head?_dropWhile_not (p : Char → Bool) :
    ∀ (l : List Char) (c : Char), (l.dropWhile p).head? = some c → p c = false
  | [], c, h => by simp at h
  | a :: l, c, h => by
    by_cases ha : p a = true
    · rw [List.dropWhile_cons_of_pos ha] at h
      exact head?_dropWhile_not p l c h
    · rw [List.dropWhile_cons_of_neg ha] at h
      simp only [List.head?_cons, Option.some.injEq] at h
      subst h
      simpa using ha

theorem getLast?_dropWhile (p : Char → Bool) :
    ∀ (l : List Char) (c : Char), (l.dropWhile p).getLast? = some c → l.getLast? = some c
  | [], c, h => by simp at h
  | a :: l, c, h => by
    by_cases ha : p a = true
    · rw [List.dropWhile_cons_of_pos ha] at h
      have ih := getLast?_dropWhile p l c h
      cases l with
      | nil => simp at ih
      | cons b l => simpa [List.getLast?_cons_cons] using ih
    · rw [List.dropWhile_cons_of_neg ha] at h
      exact h

theorem trimSpace_isTrimmed (s : String) : isTrimmed (trimSpace s) := by
  constructor
  · intro c h
    have h1 : ((s.data.dropWhile isSpace).reverse.dropWhile isSpace).getLast? = some c := by
      simpa [trimSpace, List.head?_reverse] using h
    have h2 := getLast?_dropWhile isSpace _ c h1
    rw [List.getLast?_reverse] at h2
    exact head?_dropWhile_not isSpace _ c h2
  · intro c h
    have h1 : ((s.data.dropWhile isSpace).reverse.dropWhile isSpace).head? = some c := by
      simpa [trimSpace, List.getLast?_reverse] using h
    exact head?_dropWhile_not isSpace _ c h1

/-- C13: for every list of path strings, `pathsToKeys` returns, in order, the
white-space-trimmed fragments of `splitWithEscape(path, ",", "\")` of each path, and
no returned key has leading or trailing white space. -/
theorem C13_pathsToKeys_trimmed (paths : List String) :
    pathsToKeys paths
        = (paths.map (fun path => (splitWithEscape path "," "\\").map trimSpace)).flatten
    ∧ (∀ (p : String) (ps : List String),
        pathsToKeys (p :: ps) = (splitWithEscape p "," "\\").map trimSpace ++ pathsToKeys ps)
    ∧ ∀ k ∈ pathsToKeys paths, isTrimmed k := by
  refine ⟨by simp [pathsToKeys, List.flatMap], fun p ps => by simp [pathsToKeys], ?_⟩
  intro k hk
  simp only [pathsToKeys, List.mem_flatMap, List.mem_map] at hk
  obtain ⟨_, _, f, _, rfl⟩ := hk
  exact trimSpace_isTrimmed f

/-- C13 on the paths `" name , first "` and `" a\,b"`: three keys, the second of them
trimmed on both sides. -/
theorem C13_witness :
    pathsToKeys [" name , first ", " a\\,b"] = ["name", "first", "a,b"]
    ∧ isTrimmed "first" :=
  ⟨by rfl, (C13_pathsToKeys_trimmed [" name , first ", " a\\,b"]).2.2 "first" (by decide)⟩

/-! ## C14: one key per string or one comma-joined string -/

theorem head?_append_ne (X Y Z : List Char) (c b : Char)
    (h : (X ++ c :: Y).head? ≠ some b) (hz : Z.head? ≠ some b) : (X ++ Z).head? ≠ some b := by
  cases X with
  | nil => simpa using hz
  | cons x X => simpa using h

/-- A comma after a part that does not end with a backslash cuts the scan. -/
theorem scanEscaped_append_comma (b : List Char) :
    ∀ a acc : List Char, (a.reverse ++ acc).head? ≠ some '\\' →
      scanEscaped (a ++ ',' :: b) acc = scanEscaped a acc ++ scanEscaped b []
  | [], acc, h => by
    simp only [List.reverse_nil, List.nil_append] at h
    simp only [List.nil_append, scanEscaped, if_true]
    split
    · rename_i t
      simp at h
    · simp
  | c :: a, acc, h => by
    have h' : (a.reverse ++ c :: acc).head? ≠ some '\\' := by simpa using h
    by_cases hc : c = ','
    · subst hc
      simp only [List.cons_append, scanEscaped, if_true]
      split
      · rename_i t
        exact scanEscaped_append_comma b a (',' :: t)
          (head?_append_ne _ _ _ _ _ h' (by simp))
      · have ih := scanEscaped_append_comma b a [] (head?_append_ne _ _ _ _ _ h' (by simp))
        exact (congrArg (fun l => String.mk acc.reverse :: l) ih).trans (by simp)
    · simp only [List.cons_append, scanEscaped, hc, if_false]
      exact scanEscaped_append_comma b a (c :: acc) h'

theorem pathsToKeys_single (s : String) :
    pathsToKeys [s] = (scanEscaped s.data []).map trimSpace := by
  simp [pathsToKeys, splitWithEscape_comma]

theorem pathsToKeys_cons (p : String) (ps : List String) :
    pathsToKeys (p :: ps) = (scanEscaped p.data []).map trimSpace ++ pathsToKeys ps := by
  simp [pathsToKeys, splitWithEscape_comma]

theorem pathsToKeys_join :
    ∀ ps : List String, ps ≠ [] → (∀ p ∈ ps.dropLast, hasSuffix p "\\" = false) →
      pathsToKeys ps = pathsToKeys [stringsJoin ps ","]
  | [], h, _ => absurd rfl h
  | [p], _, _ => by simp [stringsJoin]
  | p :: q :: r, _, h => by
    have hp : hasSuffix p "\\" = false := h p (by simp [List.dropLast])
    have hrest : ∀ k ∈ (q :: r).dropLast, hasSuffix k "\\" = false := by
      intro k hk
      exact h k (by simp only [List.dropLast_cons₂, List.mem_cons]; exact Or.inr hk)
    have ih := pathsToKeys_join (q :: r) (by simp) hrest
    have hhead : (p.data.reverse ++ []).head? ≠ some '\\' := by
      rw [hasSuffix_backslash_iff] at hp
      intro e
      rw [List.append_nil] at e
      rw [e] at hp
      simp at hp
    rw [pathsToKeys_cons, ih, pathsToKeys_single, pathsToKeys_single,
      stringsJoin_data_cons p (q :: r) (by simp), scanEscaped_append_comma _ _ _ hhead,
      List.map_append]

/-- C14, as stated, fails: the paths `a\` and `b` give the two keys `a\` and `b`, the
joined string `a\,b` gives the single key `a,b`. -/
theorem C14_counterexample :
    pathsToKeys ["a\\", "b"] = ["a\\", "b"]
    ∧ stringsJoin ["a\\", "b"] "," = "a\\,b"
    ∧ pathsToKeys [stringsJoin ["a\\", "b"] ","] = ["a,b"]
    ∧ pathsToKeys ["a\\", "b"] ≠ pathsToKeys [stringsJoin ["a\\", "b"] ","] :=
  ⟨by rfl, by rfl, by rfl, by decide⟩

/-- C14 (amended): for every non-empty list of path strings `ps` in which no path
other than the last ends with a backslash, `pathsToKeys ps` equals `pathsToKeys`
applied to the single string obtained by joining `ps` with `,`. -/
theorem C14_paths_join (ps : List String) (hne : ps ≠ [])
    (h : ∀ p ∈ ps.dropLast, hasSuffix p "\\" = false) :
    pathsToKeys ps = pathsToKeys [stringsJoin ps ","] :=
  pathsToKeys_join ps hne h

/-- C14 (amended) on the paths `name`, ` first ` and `x\`, the last of which ends with
a backslash. -/
theorem C14_witness :
    pathsToKeys ["name", " first ", "x\\"] = ["name", "first", "x\\"]
    ∧ pathsToKeys ["name", " first ", "x\\"]
        = pathsToKeys [stringsJoin ["name", " first ", "x\\"] ","] :=
  ⟨by rfl, C14_paths_join ["name", " first ", "x\\"] (by simp) (by decide)⟩


/-! ## C18: a complex number as a boolean -/

theorem decodeFloat_isZero_64 (bits : Nat) :
    (decodeFloat 64 bits).isZero = true ↔ bits % 2 ^ 63 = 0 := by
  unfold decodeFloat
  simp only [show (64 : Nat) ≠ 32 by decide, if_false]
  norm_num
  split_ifs with h1 h2 h3 <;> simp [FloatVal.isZero] <;> omega

theorem decodeFloat_isZero_32 (bits : Nat) :
    (decodeFloat 32 bits).isZero = true ↔ bits % 2 ^ 31 = 0 := by
  unfold decodeFloat
  simp only [if_true]
  norm_num
  split_ifs with h1 h2 h3 <;> simp [FloatVal.isZero] <;> omega

/-! ## C20: the code of the errors of `query` -/

theorem newQueryError_code (cause : Option GoError) (code : ErrCode) (detail : String)
    (h : ∀ e, cause = some (.query e) → e.Code = code) :
    (newQueryError cause code detail).Code = code := by
  unfold newQueryError
  split
  · rename_i err
    exact h err rfl
  · rfl
  · rfl

theorem unwrapOnce_code (lib : Lib) (value : Value) (safe : Bool) (e : QueryError)
    (h : unwrapOnce lib value safe = .error e) : e.Code = ErrNotFound := by
  unfold unwrapOnce at h
  split at h
  · cases h; rfl
  · split at h
    · cases h
    · split at h
      · cases h; rfl
      · cases h
  · cases h
  · cases h

theorem toConcreteElemFrom_code (lib : Lib) (safe : Bool) :
    ∀ (budget : Nat) (value : Value) (depth : Nat) (e : QueryError),
      toConcreteElemFrom lib budget value safe depth = .err e → e.Code = ErrNotFound := by
  intro budget
  induction budget with
  | zero =>
    intro value depth e h
    simp only [toConcreteElemFrom, Outcome.err.injEq] at h
    subst h
    rfl
  | succ b ih =>
    intro value depth e h
    simp only [toConcreteElemFrom] at h
    split at h
    · rename_i e1 he1
      simp only [Outcome.err.injEq] at h
      subst h
      exact unwrapOnce_code lib value safe _ he1
    · split at h
      · exact ih _ _ _ h
      · cases h

theorem toConcreteElem_code (lib : Lib) (value : Value) (safe : Bool) (depth : Nat)
    (e : QueryError) (h : toConcreteElem lib value safe depth = .err e) :
    e.Code = ErrNotFound :=
  toConcreteElemFrom_code lib safe _ value depth e h

theorem filterLoop_code (lib : Lib) (recur : Value → List String → Outcome) (safe ro : Bool)
    (k queryAttr currentKey : String) (remainKeys : List String) :
    ∀ (elems : List GoVal) (e : QueryError),
      filterLoop lib recur safe ro k queryAttr currentKey remainKeys elems = .err e →
        e.Code = ErrNotFound := by
  intro elems
  induction elems with
  | nil =>
    intro e h
    simp only [filterLoop, Outcome.err.injEq] at h
    subst h
    rfl
  | cons x rest ih =>
    intro e h
    simp only [filterLoop] at h
    split at h
    · cases h
    · exact ih e h
    · split at h
      · exact ih e h
      · split at h
        · cases h
        · exact ih e h
        · split at h
          · exact ih e h
          · split at h
            · cases h
            · exact ih e h
            · cases h

theorem querySeq_code (lib : Lib) (recur : Value → List String → Outcome) (safe ro : Bool)
    (elems : List GoVal) (currentKey : String) (remainKeys : List String)
    (hrec : ∀ v ks e, recur v ks = .err e → e.Code = ErrNotFound) (e : QueryError)
    (h : querySeq lib recur safe ro elems currentKey remainKeys = .err e) :
    e.Code = ErrNotFound := by
  unfold querySeq at h
  split at h
  · split at h
    · exact filterLoop_code lib recur safe ro _ _ _ _ _ e h
    · simp only [Outcome.err.injEq] at h
      subst h
      rfl
  · simp only [] at h
    split at h
    · simp only [Outcome.err.injEq] at h
      subst h
      exact newQueryError_code _ _ _ (fun _ h => by cases h)
    · split at h
      · simp only [Outcome.err.injEq] at h
        subst h
        rfl
      · split at h
        · cases h
        · split at h
          · cases h
          · rename_i err herr
            simp only [Outcome.err.injEq] at h
            subst h
            exact newQueryError_code _ _ _
              (fun e1 h1 => by cases h1; exact hrec _ _ _ herr)
          · cases h

theorem mapIndex_not_err (value : Value) (key : MapKey) (e : QueryError) :
    mapIndex value key ≠ .err e := by
  unfold mapIndex
  split
  · split <;> simp
  · split <;> simp
  · simp

theorem mapStep_code (recur : Value → List String → Outcome) (value : Value) (key : MapKey)
    (currentKey : String) (remainKeys : List String)
    (hrec : ∀ v ks e, recur v ks = .err e → e.Code = ErrNotFound) (e : QueryError)
    (h : (match mapIndex value key with
          | .panic m => Outcome.panic m
          | .err e => .err e
          | .ok fieldValue =>
            if !fieldValue.isValid then
              .err (newQueryError none ErrNotFound
                ("[map] value not found by key " ++ currentKey))
            else
              match recur fieldValue remainKeys with
              | .panic m => .panic m
              | .err err =>
                .err (newQueryError (some (.query err)) ErrNotFound
                  ("[map] query keys: " ++ fmtKeys remainKeys))
              | .ok value => .ok value) = .err e) :
    e.Code = ErrNotFound := by
  split at h
  · cases h
  · rename_i e1 he1
    exact absurd he1 (mapIndex_not_err _ _ _)
  · split at h
    · simp only [Outcome.err.injEq] at h
      subst h
      rfl
    · split at h
      · cases h
      · rename_i err herr
        simp only [Outcome.err.injEq] at h
        subst h
        exact newQueryError_code _ _ _ (fun e1 h1 => by cases h1; exact hrec _ _ _ herr)
      · cases h

theorem queryStep_code (lib : Lib) (recur : Value → List String → Outcome) (value : Value)
    (caseSensitive safe : Bool) (keys : List String)
    (hrec : ∀ v ks e, recur v ks = .err e → e.Code = ErrNotFound) (e : QueryError)
    (h : queryStep lib recur value caseSensitive safe keys = .err e) :
    e.Code = ErrNotFound := by
  unfold queryStep at h
  split at h
  · simp only [Outcome.err.injEq] at h
    subst h
    rfl
  · split at h
    · cases h
    · split at h
      · cases h
      · rename_i err herr
        simp only [Outcome.err.injEq] at h
        subst h
        exact newQueryError_code _ _ _
          (fun e1 h1 => by cases h1; exact toConcreteElem_code lib _ _ _ _ herr)
      · split at h
        · exact mapStep_code recur _ _ _ _ hrec e h
        · exact mapStep_code recur _ _ _ _ hrec e h
        · simp only [] at h
          split at h
          · rename_i e1 hg
            simp only [Outcome.err.injEq] at h
            subst h
            split at hg
            · split at hg
              · cases hg; rfl
              · split at hg
                · cases hg; rfl
                · cases hg
            · cases hg
          · split at h
            · simp only [Outcome.err.injEq] at h
              subst h
              rfl
            · split at h
              · cases h
              · rename_i err herr
                simp only [Outcome.err.injEq] at h
                subst h
                exact newQueryError_code _ _ _
                  (fun e1 h1 => by cases h1; exact hrec _ _ _ herr)
              · cases h
        · exact querySeq_code lib recur safe _ _ _ _ hrec e h
        · exact querySeq_code lib recur safe _ _ _ _ hrec e h
        · simp only [Outcome.err.injEq] at h
          subst h
          rfl

theorem queryFuel_code (lib : Lib) (caseSensitive safe : Bool) :
    ∀ (fuel : Nat) (value : Value) (keys : List String) (e : QueryError),
      queryFuel lib caseSensitive safe fuel value keys = .err e → e.Code = ErrNotFound := by
  intro fuel
  induction fuel with
  | zero => intro value keys e h; cases h
  | succ n ih =>
    intro value keys e h
    exact queryStep_code lib _ value caseSensitive safe keys (fun v ks e1 h1 => ih v ks e1 h1) e h

/-- C20: for every value, every setting of the flags `caseSensitive` and `safe` and
every key list, an error returned by `query` has the code NotFound (1), and so has an
error returned by `toConcreteElem` at any depth; neither is a TypeMismatch (2). -/
theorem C20_query_error_code (lib : Lib) (value : Value) (caseSensitive safe : Bool)
    (keys : List String) (depth : Nat) :
    (∀ e, query lib value caseSensitive safe keys = .err e →
        e.Code = ErrNotFound ∧ e.Code ≠ ErrTypeMatch)
    ∧ (∀ e, toConcreteElem lib value safe depth = .err e →
        e.Code = ErrNotFound ∧ e.Code ≠ ErrTypeMatch) := by
  have hne : ErrNotFound ≠ ErrTypeMatch := by decide
  constructor
  · intro e h
    have hc := queryFuel_code lib caseSensitive safe _ value keys e h
    exact ⟨hc, by rw [hc]; exact hne⟩
  · intro e h
    have hc := toConcreteElem_code lib value safe depth e h
    exact ⟨hc, by rw [hc]; exact hne⟩

/-- C20 on the string `string1` queried by the key `1`, which is an error, and on the
zero Value made concrete. -/
theorem C20_witness :
    query plainLib (.val false (.str "string1")) false false ["1"]
        = .err (newQueryError none ErrNotFound "invalid kind: string")
    ∧ (newQueryError none ErrNotFound "invalid kind: string").Code = ErrNotFound
    ∧ (newQueryError none ErrNotFound "").Code ≠ ErrTypeMatch :=
  ⟨by rfl,
   ((C20_query_error_code plainLib (.val false (.str "string1")) false false ["1"] 0).1 _
      (by rfl)).1,
   ((C20_query_error_code plainLib .invalid false false [] 0).2 _ (by rfl)).2⟩

/-! ## C15, C16: strict and direct matches of `resultToAny` -/

theorem typeAssert_any (g : GoVal) : typeAssert .any (some g) = some g := rfl

theorem typeAssert_of_isTypeOf (target : Target) (g : GoVal)
    (h : target = .any ∨ target.isTypeOf g = true) : typeAssert target (some g) = some g := by
  rcases h with h | h
  · subst h; rfl
  · simp [typeAssert, h]

theorem typeAssert_none_of_not (target : Target) (v : GoAny)
    (h : ∀ g, v = some g → target ≠ .any ∧ target.isTypeOf g = false) :
    typeAssert target v = none := by
  cases v with
  | none => rfl
  | some g =>
    obtain ⟨h1, h2⟩ := h g rfl
    have h3 : (target == Target.any) = false := by simpa using h1
    simp [typeAssert, h2, h3]

theorem typeNotMatch_code (conv : Conv) (target : Target) (v : GoAny) :
    (typeNotMatch conv target v).Code = ErrTypeMatch := rfl

/-- For the target `any` the generic conversion is `resultToAny_any`. -/
theorem resultToAny_any_eq (lib : Lib) (conv : Conv) (result : Result) (typeStrict : Bool) :
    resultToAny lib conv .any result typeStrict = .ok (resultToAny_any result typeStrict) := by
  unfold resultToAny resultToAny_any
  cases result.err with
  | some err => rfl
  | none =>
    cases hv : valueToAny result.val with
    | some g => simp [typeAssert]
    | none => cases typeStrict <;> rfl

/-- C15: for every error-free Result whose value does not have the requested target
type, that is on which the direct match `_v.(E)` fails (the value is nil, or its
dynamic type is not the target type, the target not being `any`, which matches every
value that is not nil), `resultToAny` with `typeStrict = true` returns the zero value
of the target type and a TypeMismatch error (code 2). -/
theorem C15_strict_mismatch (lib : Lib) (conv : Conv) (target : Target) (result : Result)
    (herr : result.err = none)
    (h : ∀ g, valueToAny result.val = some g → ¬ (target = .any ∨ target.isTypeOf g = true)) :
    resultToAny lib conv target result true
        = .ok (target.zero, some (typeNotMatch conv target (valueToAny result.val)))
    ∧ (typeNotMatch conv target (valueToAny result.val)).Code = ErrTypeMatch
    ∧ (typeNotMatch conv target (valueToAny result.val)).Code = 2 := by
  refine ⟨?_, rfl, rfl⟩
  have h1 : ∀ g, valueToAny result.val = some g → target ≠ .any ∧ target.isTypeOf g = false := by
    intro g hg
    have hn := h g hg
    refine ⟨fun e => hn (Or.inl e), ?_⟩
    cases ht : target.isTypeOf g with
    | false => rfl
    | true => exact absurd (Or.inr ht) hn
  unfold resultToAny
  simp only [herr, typeAssert_none_of_not target _ h1, if_true]

/-- C15 on the examples: an `int` requested from the string `30`, and a `bool` from the
unsigned field `Age` of `person` under the option `Type`; without strictness the
string `30` is converted.  A nil value fails for every target, `any` included. -/
theorem C15_witness :
    resultToAny plainLib plainConv .int { val := .val false (.str "30"), err := none } true
        = .ok (some (.int .int 0),
            some { Code := 2, Detail := "result type not match: need int got string",
                   cause := none })
    ∧ BoolResult plainLib plainConv (some person) OptType ["Age"]
        = (some (.bool false),
            some { Code := 2, Detail := "result type not match: need bool got uint",
                   cause := none })
    ∧ resultToAny plainLib plainConv .int { val := .val false (.str "30"), err := none } false
        = .ok (some (.int .int 30), none)
    ∧ resultToAny plainLib plainConv .any { val := .val false .nilIface, err := none } true
        = .ok (none,
            some { Code := 2, Detail := "result type not match: need <nil> got <nil>",
                   cause := none }) :=
  ⟨(C15_strict_mismatch plainLib plainConv .int { val := .val false (.str "30"), err := none }
      rfl (by
        intro g hg
        cases hg
        intro hc
        rcases hc with hc | hc
        · exact Target.noConfusion hc
        · exact Bool.noConfusion hc)).1,
   by rfl, by rfl,
   (C15_strict_mismatch plainLib plainConv .any { val := .val false .nilIface, err := none }
      rfl (by intro g hg; cases hg)).1⟩

/-- C16: for every error-free Result whose value has exactly the requested target
type (for the target `any`: whose value is not nil), `resultToAny` returns that value
unchanged with no error, with `typeStrict = true` and with `typeStrict = false`. -/
theorem C16_same_type_unchanged (lib : Lib) (conv : Conv) (target : Target) (result : Result)
    (g : GoVal) (typeStrict : Bool) (herr : result.err = none)
    (hv : valueToAny result.val = some g)
    (ht : target = .any ∨ target.isTypeOf g = true) :
    resultToAny lib conv target result typeStrict = .ok (some g, none) := by
  unfold resultToAny
  simp only [herr, hv, typeAssert_of_isTypeOf target g ht]

/-- C16 on the example: the field `Name` of `person` requested as a string under the
option `Type`, and the same Result converted with and without strictness. -/
theorem C16_witness :
    StringResult plainLib plainConv (some person) OptType ["name"]
        = (some (.str "Vin Mars"), none)
    ∧ resultToAny plainLib plainConv .string
          { val := .val false (.str "Vin Mars"), err := none } true
        = .ok (some (.str "Vin Mars"), none)
    ∧ resultToAny plainLib plainConv .string
          { val := .val false (.str "Vin Mars"), err := none } false
        = .ok (some (.str "Vin Mars"), none) :=
  ⟨by rfl,
   C16_same_type_unchanged plainLib plainConv .string
     { val := .val false (.str "Vin Mars"), err := none } (.str "Vin Mars") true rfl rfl
     (Or.inr rfl),
   C16_same_type_unchanged plainLib plainConv .string
     { val := .val false (.str "Vin Mars"), err := none } (.str "Vin Mars") false rfl rfl
     (Or.inr rfl)⟩

/-! ## C17: a string as an int -/

/-- A decimal literal of an integer that fits an `int` is converted to that integer. -/
theorem valueToInt_literal (lib : Lib) (conv : Conv) (ro : Bool) (n : Int)
    (h1 : -(2 : Int) ^ 63 ≤ n) (h2 : n < (2 : Int) ^ 63) :
    valueToInt lib conv (.val ro (.str (itoa n))) = n := by
  have h := atoi_itoa n h1 h2
  unfold atoi at h
  show (parseInt (itoa n)).1 = n
  split at h
  · rename_i i hp
    rw [hp]
    cases h
    rfl
  · cases h

/-- A string that is not a decimal literal is converted to 0. -/
theorem valueToInt_not_literal (lib : Lib) (conv : Conv) (ro : Bool) (s : String)
    (h : (parseInt s).2 = some .ErrSyntax) :
    valueToInt lib conv (.val ro (.str s)) = 0 := by
  show (parseInt s).1 = 0
  unfold parseInt at h ⊢
  split
  · rfl
  · rename_i c cs hs
    rw [hs] at h
    simp only [] at h ⊢
    split
    · rfl
    · rename_i un k hne hp
      rw [hp] at h
      simp only [] at h
      split at h
      · simp at h
      · split at h
        · simp at h
        · simp at h

/-- The best-effort conversion of a string to an `int` returns no error. -/
theorem resultToAny_int_of_string (lib : Lib) (conv : Conv) (ro : Bool) (s : String) :
    resultToAny lib conv .int { val := .val ro (.str s), err := none } false
      = .ok (some (.int .int (stringToInt s)), none) := rfl

/-- C17: `valueToInt` does not return 0 for every string that cannot be converted to
an `int`: the literal of `2^63`, which is out of range for `strconv.ParseInt`, gives
`2^63 - 1`, and the literal of `-2^63 - 1` gives `-2^63`; the best-effort conversion
returns these with no error. -/
theorem C17_valueToInt_out_of_range (lib : Lib) (conv : Conv) (ro : Bool) :
    parseInt "9223372036854775808" = (9223372036854775807, some .ErrRange)
    ∧ valueToInt lib conv (.val ro (.str "9223372036854775808")) = 9223372036854775807
    ∧ valueToInt lib conv (.val ro (.str "-9223372036854775809")) = -9223372036854775808
    ∧ resultToAny lib conv .int
          { val := .val ro (.str "9223372036854775808"), err := none } false
        = .ok (some (.int .int 9223372036854775807), none) :=
  ⟨by decide,
   by show stringToInt "9223372036854775808" = 9223372036854775807; decide,
   by show stringToInt "-9223372036854775809" = -9223372036854775808; decide,
   by
    rw [resultToAny_int_of_string]
    have : stringToInt "9223372036854775808" = 9223372036854775807 := by decide
    rw [this]⟩

/-! ## C18: a complex number as a boolean -/

theorem decodeFloat_isZero (k : ComplexKind) (bits : Nat) :
    (decodeFloat k.partBits bits).isZero = true ↔ bits % 2 ^ (k.partBits - 1) = 0 := by
  cases k
  · exact decodeFloat_isZero_32 bits
  · exact decodeFloat_isZero_64 bits

/-- C18: for every complex value, `valueToBool` returns true exactly when the real and
the imaginary part are both zero (all bits of the part but its sign bit are 0), and
false for every other complex value. -/
theorem C18_valueToBool_complex (lib : Lib) (ro : Bool) (k : ComplexKind) (re im : Nat) :
    (valueToBool lib (.val ro (.complex k re im)) = true
        ↔ re % 2 ^ (k.partBits - 1) = 0 ∧ im % 2 ^ (k.partBits - 1) = 0)
    ∧ (valueToBool lib (.val ro (.complex k re im)) = false
        ↔ ¬ (re % 2 ^ (k.partBits - 1) = 0 ∧ im % 2 ^ (k.partBits - 1) = 0))
    ∧ valueToBool lib (.val ro (.complex k 0 0)) = true
    ∧ valueToBool lib (.val ro (.complex .complex128 0x3FF0000000000000 0)) = false := by
  have hiff : valueToBool lib (.val ro (.complex k re im)) = true
      ↔ re % 2 ^ (k.partBits - 1) = 0 ∧ im % 2 ^ (k.partBits - 1) = 0 := by
    simp only [valueToBool, Bool.and_eq_true, decodeFloat_isZero]
  refine ⟨hiff, ?_, ?_, ?_⟩
  · rw [← hiff]
    simp
  · cases k
    · show ((decodeFloat 32 0).isZero && (decodeFloat 32 0).isZero) = true
      decide
    · show ((decodeFloat 64 0).isZero && (decodeFloat 64 0).isZero) = true
      decide
  · show ((decodeFloat 64 0x3FF0000000000000).isZero && (decodeFloat 64 0).isZero) = false
    decide

/-! ## C19: a value as a string -/

/-- C19: `valueToString` returns a string value unchanged, the decimal rendering of
every signed and unsigned integer value, `true` or `false` for a boolean, and `<nil>`
for the zero Value. -/
theorem C19_valueToString (lib : Lib) (ro : Bool) :
    (∀ s, valueToString lib (.val ro (.str s)) = s)
    ∧ (∀ k i, valueToString lib (.val ro (.int k i)) = itoa i)
    ∧ (∀ k n, valueToString lib (.val ro (.uint k n)) = Nat.repr n)
    ∧ valueToString lib (.val ro (.bool true)) = "true"
    ∧ valueToString lib (.val ro (.bool false)) = "false"
    ∧ valueToString lib .invalid = "<nil>"
    ∧ valueToString lib (.val ro (.int .int8 (-5))) = "-5"
    ∧ valueToString lib (.val ro (.uint .uint 30)) = "30" :=
  ⟨fun _ => rfl, fun _ _ => rfl, fun _ _ => rfl, rfl, rfl, rfl,
   by show itoa (-5) = "-5"; decide, by show Nat.repr 30 = "30"; decide⟩


/-! ## C25, C26: the concretizer -/

theorem intKind_kind (k : IntKind) :
    k.kind ≠ .Pointer ∧ k.kind ≠ .Interface ∧ k.kind ≠ .Invalid ∧ k.kind ≠ .Map
      ∧ k.kind ≠ .Struct ∧ k.kind ≠ .Slice ∧ k.kind ≠ .Array := by
  cases k <;> decide

theorem uintKind_kind (k : UintKind) :
    k.kind ≠ .Pointer ∧ k.kind ≠ .Interface ∧ k.kind ≠ .Invalid ∧ k.kind ≠ .Map
      ∧ k.kind ≠ .Struct ∧ k.kind ≠ .Slice ∧ k.kind ≠ .Array := by
  cases k <;> decide

theorem floatKind_kind (k : FloatKind) :
    k.kind ≠ .Pointer ∧ k.kind ≠ .Interface ∧ k.kind ≠ .Invalid ∧ k.kind ≠ .Map
      ∧ k.kind ≠ .Struct ∧ k.kind ≠ .Slice ∧ k.kind ≠ .Array := by
  cases k <;> decide

theorem complexKind_kind (k : ComplexKind) :
    k.kind ≠ .Pointer ∧ k.kind ≠ .Interface ∧ k.kind ≠ .Invalid ∧ k.kind ≠ .Map
      ∧ k.kind ≠ .Struct ∧ k.kind ≠ .Slice ∧ k.kind ≠ .Array := by
  cases k <;> decide

theorem kind_pointer_cases (g : GoVal) (h : g.kind = .Pointer) :
    g = .nilPtr ∨ ∃ e, g = .ptr e := by
  cases g <;> first
    | exact Or.inl rfl
    | exact Or.inr ⟨_, rfl⟩
    | exact absurd h (intKind_kind _).1
    | exact absurd h (uintKind_kind _).1
    | exact absurd h (floatKind_kind _).1
    | exact absurd h (complexKind_kind _).1
    | exact Kind.noConfusion h

theorem kind_interface_cases (g : GoVal) (h : g.kind = .Interface) :
    g = .nilIface ∨ ∃ d, g = .iface d := by
  cases g <;> first
    | exact Or.inl rfl
    | exact Or.inr ⟨_, rfl⟩
    | exact absurd h (intKind_kind _).2.1
    | exact absurd h (uintKind_kind _).2.1
    | exact absurd h (floatKind_kind _).2.1
    | exact absurd h (complexKind_kind _).2.1
    | exact Kind.noConfusion h

theorem strip_of_kind (ro : Bool) (g : GoVal) (h1 : g.kind ≠ .Pointer)
    (h2 : g.kind ≠ .Interface) : g.strip ro = .val ro g := by
  cases g <;> first | rfl | exact absurd rfl h1 | exact absurd rfl h2

theorem value_strip_of_kind (v : Value) (h1 : v.kind ≠ .Pointer) (h2 : v.kind ≠ .Interface) :
    v.strip = v := by
  cases v with
  | invalid => rfl
  | val ro g => exact strip_of_kind ro g h1 h2

theorem unwrapOnce_of_kind (lib : Lib) (value : Value) (safe : Bool)
    (h0 : value.kind ≠ .Invalid) (h1 : value.kind ≠ .Pointer) (h2 : value.kind ≠ .Interface) :
    unwrapOnce lib value safe = .ok value := by
  unfold unwrapOnce
  split
  · rename_i h; exact absurd h h0
  · rename_i h; exact absurd h h2
  · rename_i h; exact absurd h h1
  · rfl

theorem unwrapOnce_strip (lib : Lib) (value v1 : Value) (safe : Bool)
    (h : unwrapOnce lib value safe = .ok v1) : v1.strip = value.strip := by
  cases value with
  | invalid => simp [unwrapOnce, Value.kind] at h
  | val ro g =>
    by_cases h1 : g.kind = .Pointer
    · rcases kind_pointer_cases g h1 with hg | ⟨e, hg⟩ <;> subst hg <;> cases h <;> rfl
    by_cases h2 : g.kind = .Interface
    · rcases kind_interface_cases g h2 with hg | ⟨d, hg⟩ <;> subst hg <;>
        cases ro <;> cases safe <;> first | (cases h; rfl) | (cases h)
    · have h0 : (Value.val ro g).kind ≠ .Invalid := by
        cases g <;> first
          | exact (intKind_kind _).2.2.1
          | exact (uintKind_kind _).2.2.1
          | exact (floatKind_kind _).2.2.1
          | exact (complexKind_kind _).2.2.1
          | (intro hh; cases hh)
      rw [unwrapOnce_of_kind lib _ safe h0 h1 h2] at h
      cases h
      rfl

theorem toConcreteElemFrom_strip (lib : Lib) (safe : Bool) :
    ∀ (budget : Nat) (value : Value) (depth : Nat) (w : Value),
      toConcreteElemFrom lib budget value safe depth = .ok w →
        w = value.strip ∧ w.kind ≠ .Pointer ∧ w.kind ≠ .Interface := by
  intro budget
  induction budget with
  | zero => intro value depth w h; cases h
  | succ b ih =>
    intro value depth w h
    simp only [toConcreteElemFrom] at h
    split at h
    · cases h
    · rename_i v1 hv1
      have hs := unwrapOnce_strip lib value v1 safe hv1
      split at h
      · obtain ⟨h3, h4⟩ := ih _ _ _ h
        exact ⟨by rw [h3, hs], h4⟩
      · rename_i hk
        simp only [Bool.or_eq_true, beq_iff_eq, not_or] at hk
        cases h
        exact ⟨by rw [← hs, value_strip_of_kind _ hk.2 hk.1], hk.2, hk.1⟩

theorem val_kind_ne_invalid (ro : Bool) (g : GoVal) : (Value.val ro g).kind ≠ .Invalid := by
  cases g <;> first
    | exact (intKind_kind _).2.2.1
    | exact (uintKind_kind _).2.2.1
    | exact (floatKind_kind _).2.2.1
    | exact (complexKind_kind _).2.2.1
    | (intro hh; cases hh)

theorem toConcreteElemFrom_of_kind (lib : Lib) (budget : Nat) (ro : Bool) (g : GoVal)
    (safe : Bool) (depth : Nat) (h1 : g.kind ≠ .Pointer) (h2 : g.kind ≠ .Interface) :
    toConcreteElemFrom lib (budget + 1) (.val ro g) safe depth = .ok (.val ro g) := by
  have hk : ((Value.val ro g).kind == Kind.Interface || (Value.val ro g).kind == Kind.Pointer)
      = false := by
    simp only [Value.kind, Bool.or_eq_false_iff, beq_eq_false_iff_ne]
    exact ⟨h2, h1⟩
  simp only [toConcreteElemFrom,
    unwrapOnce_of_kind lib (.val ro g) safe (val_kind_ne_invalid ro g) h1 h2, hk]
  rfl

theorem layersRo_false (ls : List Layer) : layersRo false ls = false := by
  induction ls with
  | nil => rfl
  | cons l ls ih => cases l <;> simp [layersRo, ih]

theorem wrapLayers_kind (l : Layer) (ls : List Layer) (g : GoVal) :
    ((wrapLayers (l :: ls) g).kind == Kind.Interface
      || (wrapLayers (l :: ls) g).kind == Kind.Pointer) = true := by
  cases l <;> rfl

/-- One call of `toConcreteElem` on a wrapped value removes the outermost layer. -/
theorem unwrapOnce_layer (lib : Lib) (ro safe : Bool) (l : Layer) (ls : List Layer) (g : GoVal)
    (hs : safe = false ∨ ro = false) :
    unwrapOnce lib (.val ro (wrapLayers (l :: ls) g)) safe
      = .ok (.val (layersRo ro [l]) (wrapLayers ls g)) := by
  cases l with
  | pointer => rfl
  | iface =>
    rcases hs with hs | hs <;> subst hs
    · cases ro <;> rfl
    · rfl

theorem layersRo_cons (ro : Bool) (l : Layer) (ls : List Layer) :
    layersRo (layersRo ro [l]) ls = layersRo ro (l :: ls) := by
  cases l
  · rfl
  · exact layersRo_false ls

theorem toConcreteElemFrom_layers_ok (lib : Lib) (safe : Bool) (g : GoVal)
    (h1 : g.kind ≠ .Pointer) (h2 : g.kind ≠ .Interface) :
    ∀ (ls : List Layer) (budget : Nat) (ro : Bool) (depth : Nat),
      (safe = false ∨ ro = false) → max 1 ls.length ≤ budget →
        toConcreteElemFrom lib budget (.val ro (wrapLayers ls g)) safe depth
          = .ok (.val (layersRo ro ls) g)
  | [], budget, ro, depth, _, hb => by
    obtain ⟨b, rfl⟩ : ∃ b, budget = b + 1 := ⟨budget - 1, by simp at hb; omega⟩
    exact toConcreteElemFrom_of_kind lib b ro g safe depth h1 h2
  | l :: ls, budget, ro, depth, hs, hb => by
    obtain ⟨b, rfl⟩ : ∃ b, budget = b + 1 := ⟨budget - 1, by simp at hb; omega⟩
    have hs' : safe = false ∨ layersRo ro [l] = false := by
      rcases hs with hs | hs
      · exact Or.inl hs
      · right; subst hs; exact layersRo_false [l]
    simp only [toConcreteElemFrom, unwrapOnce_layer lib ro safe l ls g hs]
    cases ls with
    | nil =>
      have hk : ((Value.val (layersRo ro [l]) (wrapLayers [] g)).kind == Kind.Interface
          || (Value.val (layersRo ro [l]) (wrapLayers [] g)).kind == Kind.Pointer) = false := by
        simp only [Value.kind, wrapLayers, Bool.or_eq_false_iff, beq_eq_false_iff_ne]
        exact ⟨h2, h1⟩
      simp only [hk]
      rfl
    | cons l2 ls2 =>
      have hk : ((Value.val (layersRo ro [l]) (wrapLayers (l2 :: ls2) g)).kind == Kind.Interface
          || (Value.val (layersRo ro [l]) (wrapLayers (l2 :: ls2) g)).kind == Kind.Pointer)
          = true := wrapLayers_kind l2 ls2 g
      simp only [hk, if_true]
      rw [toConcreteElemFrom_layers_ok lib safe g h1 h2 (l2 :: ls2) b _ (depth + 1) hs'
        (by simp at hb ⊢; omega)]
      rw [layersRo_cons]

theorem toConcreteElemFrom_layers_err (lib : Lib) (safe : Bool) (g : GoVal) :
    ∀ (ls : List Layer) (budget : Nat) (ro : Bool) (depth : Nat),
      (safe = false ∨ ro = false) → budget < max 1 ls.length →
        ∃ e, toConcreteElemFrom lib budget (.val ro (wrapLayers ls g)) safe depth = .err e
          ∧ e.Code = ErrNotFound
  | ls, 0, ro, depth, _, _ => ⟨_, rfl, rfl⟩
  | [], b + 1, ro, depth, _, hb => by simp at hb
  | [l], b + 1, ro, depth, _, hb => by simp at hb
  | l :: l2 :: ls2, b + 1, ro, depth, hs, hb => by
    have hs' : safe = false ∨ layersRo ro [l] = false := by
      rcases hs with hs | hs
      · exact Or.inl hs
      · right; subst hs; exact layersRo_false [l]
    have hk : ((Value.val (layersRo ro [l]) (wrapLayers (l2 :: ls2) g)).kind == Kind.Interface
        || (Value.val (layersRo ro [l]) (wrapLayers (l2 :: ls2) g)).kind == Kind.Pointer)
        = true := wrapLayers_kind l2 ls2 g
    simp only [toConcreteElemFrom, unwrapOnce_layer lib ro safe l (l2 :: ls2) g hs, hk, if_true]
    exact toConcreteElemFrom_layers_err lib safe g (l2 :: ls2) b _ (depth + 1) hs'
      (by simp at hb ⊢; omega)

/-- C25, as stated, fails at `n = 11`: a value behind eleven pointers is made concrete
from depth 0, the last call being the one at depth 10. -/
theorem C25_counterexample :
    (List.replicate 11 Layer.pointer).length = 11
    ∧ toConcreteElem plainLib
        (.val false (wrapLayers (List.replicate 11 Layer.pointer) (.int .int 0))) false 0
      = .ok (.val false (.int .int 0)) :=
  ⟨by rfl, by rfl⟩

/-- C25 (amended): for a value that is neither a pointer nor an interface, wrapped in
`n` layers of pointers and interfaces, where `safe` is off or the Value is not
read-only, `toConcreteElem` started at depth `d` returns the underlying value when
`max n 1 + d ≤ 11` (from depth 0: when `n ≤ 11`) and fails with a NotFound error
otherwise; it fails on every Value when `d > 10`. -/
theorem C25_depth_bound (lib : Lib) (ro safe : Bool) (g : GoVal) (ls : List Layer) (d : Nat)
    (h1 : g.kind ≠ .Pointer) (h2 : g.kind ≠ .Interface) (hs : safe = false ∨ ro = false) :
    (max ls.length 1 + d ≤ 11 →
        toConcreteElem lib (.val ro (wrapLayers ls g)) safe d = .ok (.val (layersRo ro ls) g))
    ∧ (11 < max ls.length 1 + d →
        ∃ e, toConcreteElem lib (.val ro (wrapLayers ls g)) safe d = .err e
          ∧ e.Code = ErrNotFound)
    ∧ (∀ v : Value, 10 < d →
        ∃ e, toConcreteElem lib v safe d = .err e ∧ e.Code = ErrNotFound) := by
  refine ⟨fun h => ?_, fun h => ?_, fun v h => ?_⟩
  · exact toConcreteElemFrom_layers_ok lib safe g h1 h2 ls (11 - d) ro d hs
      (by rw [max_comm]; omega)
  · exact toConcreteElemFrom_layers_err lib safe g ls (11 - d) ro d hs
      (by rw [max_comm]; omega)
  · have hb : 11 - d = 0 := by omega
    unfold toConcreteElem
    rw [hb]
    exact ⟨_, rfl, rfl⟩

/-- C25 (amended) on the value of `TestToConcreteElem`: five layers around an `int`
are removed from depth 0 and from depth 6, and not from depth 7; twelve pointers are
not removed from depth 0. -/
theorem C25_witness :
    toConcreteElem plainLib
        (.val false (wrapLayers [.pointer, .iface, .pointer, .pointer, .pointer] (.int .int 0)))
        false 6
      = .ok (.val false (.int .int 0))
    ∧ (∃ e, toConcreteElem plainLib
          (.val false
            (wrapLayers [.pointer, .iface, .pointer, .pointer, .pointer] (.int .int 0)))
          false 7 = .err e ∧ e.Code = ErrNotFound)
    ∧ (∃ e, toConcreteElem plainLib
          (.val false (wrapLayers (List.replicate 12 Layer.pointer) (.int .int 0))) false 0
          = .err e ∧ e.Code = ErrNotFound) :=
  ⟨(C25_depth_bound plainLib false false (.int .int 0)
      [.pointer, .iface, .pointer, .pointer, .pointer] 6 (by decide) (by decide)
      (Or.inl rfl)).1 (by decide),
   (C25_depth_bound plainLib false false (.int .int 0)
      [.pointer, .iface, .pointer, .pointer, .pointer] 7 (by decide) (by decide)
      (Or.inl rfl)).2.1 (by decide),
   (C25_depth_bound plainLib false false (.int .int 0) (List.replicate 12 Layer.pointer) 0
      (by decide) (by decide) (Or.inl rfl)).2.1 (by decide)⟩

/-- C26: whenever `toConcreteElem(v, safe, 0)` succeeds, the returned Value is neither
a pointer nor an interface and is the one reached from `v` by dereferencing pointers
and unboxing interfaces until neither is left; a valid Value that is neither is
returned unchanged. -/
theorem C26_toConcreteElem_result (lib : Lib) (v : Value) (safe : Bool) :
    (∀ w, toConcreteElem lib v safe 0 = .ok w →
        w.kind ≠ .Pointer ∧ w.kind ≠ .Interface ∧ w = v.strip)
    ∧ (v.isValid = true → v.kind ≠ .Pointer → v.kind ≠ .Interface →
        toConcreteElem lib v safe 0 = .ok v) := by
  constructor
  · intro w h
    obtain ⟨h3, h4, h5⟩ := toConcreteElemFrom_strip lib safe _ v 0 w h
    exact ⟨h4, h5, h3⟩
  · intro hv h1 h2
    cases v with
    | invalid => cases hv
    | val ro g => exact toConcreteElemFrom_of_kind lib 10 ro g safe 0 h1 h2

/-- C26 on a pointer to an interface holding a pointer to an `int`, and on a string. -/
theorem C26_witness :
    toConcreteElem plainLib (.val true (.ptr (.iface (.ptr (.int .int 0))))) false 0
        = .ok (.val false (.int .int 0))
    ∧ (Value.val true (.ptr (.iface (.ptr (.int .int 0))))).strip = .val false (.int .int 0)
    ∧ toConcreteElem plainLib (.val false (.str "A")) true 0 = .ok (.val false (.str "A")) :=
  ⟨by rfl,
   ((C26_toConcreteElem_result plainLib (.val true (.ptr (.iface (.ptr (.int .int 0))))) false).1
      _ (by rfl)).2.2.symm,
   (C26_toConcreteElem_result plainLib (.val false (.str "A")) true).2 rfl (by decide)
      (by decide)⟩


/-! ## C27: values that hold no elements -/

theorem queryStep_non_container (lib : Lib) (recur : Value → List String → Outcome)
    (w : Value) (caseSensitive safe : Bool) (k : String) (rest : List String)
    (hk : w.kind ≠ .Map ∧ w.kind ≠ .Struct ∧ w.kind ≠ .Slice ∧ w.kind ≠ .Array) :
    (match w with
      | .val _ (.nilMap _) | .val _ (.map _ _) =>
        let keyValue := findMapKeyValue lib w k caseSensitive
        match mapIndex w keyValue with
        | .panic m => Outcome.panic m
        | .err e => .err e
        | .ok fieldValue =>
          if !fieldValue.isValid then
            .err (newQueryError none ErrNotFound ("[map] value not found by key " ++ k))
          else
            match recur fieldValue rest with
            | .panic m => .panic m
            | .err err =>
              .err (newQueryError (some (.query err)) ErrNotFound
                ("[map] query keys: " ++ fmtKeys rest))
            | .ok value => .ok value
      | .val ro (.struct fields) =>
        let fieldName := findStructFieldName lib fields k caseSensitive
        let gate : Option QueryError :=
          if safe then
            match fieldByName fields fieldName with
            | none =>
              some (newQueryError none ErrNotFound ("[struct] field " ++ k ++ " not exists"))
            | some (_, exported, _) =>
              if !exported then
                some (newQueryError none ErrNotFound
                  ("[struct] field " ++ k ++ " not exported"))
              else none
          else none
        match gate with
        | some e => .err e
        | none =>
          let fieldValue := fieldValueByName ro fields fieldName
          if !fieldValue.isValid then
            .err (newQueryError none ErrNotFound
              ("[struct] value not found by field " ++ fieldName))
          else
            match recur fieldValue rest with
            | .panic m => .panic m
            | .err err =>
              .err (newQueryError (some (.query err)) ErrNotFound
                ("[struct] error query keys: " ++ fmtKeys rest))
            | .ok value => .ok value
      | .val ro (.slice elems) | .val ro (.array elems) =>
        querySeq lib recur safe ro elems k rest
      | _ => .err (newQueryError none ErrNotFound ("invalid kind: " ++ kindName w.kind)))
      = .err (newQueryError none ErrNotFound ("invalid kind: " ++ kindName w.kind)) := by
  obtain ⟨hm, hst, hsl, ha⟩ := hk
  cases w with
  | invalid => rfl
  | val ro g =>
    cases g <;> first
      | rfl
      | exact absurd rfl hm
      | exact absurd rfl hst
      | exact absurd rfl hsl
      | exact absurd rfl ha

/-- C27: for every Value whose concrete kind (the kind reached by dereferencing
pointers and unboxing interfaces) is not map, struct, slice or array, and every
non-empty key list, `query` fails with a NotFound error. -/
theorem C27_query_non_container (lib : Lib) (v : Value) (caseSensitive safe : Bool)
    (keys : List String) (hne : keys ≠ [])
    (hk : v.strip.kind ≠ .Map ∧ v.strip.kind ≠ .Struct ∧ v.strip.kind ≠ .Slice
      ∧ v.strip.kind ≠ .Array) :
    ∃ e, query lib v caseSensitive safe keys = .err e ∧ e.Code = ErrNotFound := by
  cases keys with
  | nil => exact absurd rfl hne
  | cons k rest =>
    rw [query_unfold]
    by_cases hv : v.isValid = true
    · cases htc : toConcreteElem lib v safe 0 with
      | panic m =>
        have := toConcreteElem_not_panic lib v safe 0
        rw [htc] at this
        cases this
      | err e =>
        refine ⟨e, ?_, toConcreteElem_code lib v safe 0 e htc⟩
        simp [queryStep, hv, htc, newQueryError]
      | ok w =>
        have hw := (toConcreteElemFrom_strip lib safe _ v 0 w htc).1
        refine ⟨newQueryError none ErrNotFound ("invalid kind: " ++ kindName w.kind), ?_, rfl⟩
        simp only [queryStep, hv, htc, Bool.not_true, Bool.false_eq_true, if_false]
        exact queryStep_non_container lib _ w caseSensitive safe k rest (hw ▸ hk)
    · refine ⟨newQueryError none ErrNotFound "invalid value", ?_, rfl⟩
      simp [queryStep, hv]

/-- C27 on the example `Any("string1", "1")`, which yields nil, and on a nil pointer. -/
theorem C27_witness :
    Any plainLib (some (.str "string1")) ["1"] = none
    ∧ (∃ e, query plainLib (.val false (.str "string1")) false false ["1"] = .err e
        ∧ e.Code = ErrNotFound)
    ∧ (∃ e, query plainLib (.val false .nilPtr) true true ["a", "b"] = .err e
        ∧ e.Code = ErrNotFound) :=
  ⟨by rfl,
   C27_query_non_container plainLib (.val false (.str "string1")) false false ["1"] (by simp)
     (by decide),
   C27_query_non_container plainLib (.val false .nilPtr) true true ["a", "b"] (by simp)
     (by decide)⟩

/-! ## C21: a Result that carries an error -/

/-- C21: for every Result that carries an error, `resultToAny`, `resultToSlice` and
`resultToMap` return exactly that error and the zero value of the target type (a nil
slice, a nil map), with `typeStrict` on and off. -/
theorem C21_error_propagates (lib : Lib) (conv : Conv) (gen : Generic) (target : Target)
    (K : KeyType) (result : Result) (typeStrict : Bool) (err : QueryError)
    (h : result.err = some err) :
    resultToAny lib conv target result typeStrict = .ok (target.zero, some err)
    ∧ resultToSlice lib conv gen target result typeStrict = .ok (none, some err)
    ∧ resultToMap lib conv gen K target result typeStrict = .ok (none, some err) := by
  refine ⟨?_, ?_, ?_⟩
  · unfold resultToAny
    simp only [h]
  · unfold resultToSlice
    simp only [h]
  · unfold resultToMap
    simp only [h]

/-- C21 on the Result of a failed query, converted to an `int`, a `[]string` and a
`map[string]any`. -/
theorem C21_witness :
    queryResult plainLib (some (.str "string1")) None ["1"]
        = .ok { val := .invalid, err := some (newQueryError none ErrNotFound "invalid kind: string") }
    ∧ resultToAny plainLib plainConv .int
          { val := .invalid, err := some (newQueryError none ErrNotFound "invalid kind: string") }
          true
        = .ok (some (.int .int 0), some (newQueryError none ErrNotFound "invalid kind: string"))
    ∧ resultToSlice plainLib plainConv plainGeneric .string
          { val := .invalid, err := some (newQueryError none ErrNotFound "invalid kind: string") }
          false
        = .ok (none, some (newQueryError none ErrNotFound "invalid kind: string"))
    ∧ resultToMap plainLib plainConv plainGeneric .string .any
          { val := .invalid, err := some (newQueryError none ErrNotFound "invalid kind: string") }
          false
        = .ok (none, some (newQueryError none ErrNotFound "invalid kind: string")) :=
  ⟨by rfl,
   (C21_error_propagates plainLib plainConv plainGeneric .int .string
      { val := .invalid, err := some (newQueryError none ErrNotFound "invalid kind: string") }
      true _ rfl).1,
   (C21_error_propagates plainLib plainConv plainGeneric .string .string
      { val := .invalid, err := some (newQueryError none ErrNotFound "invalid kind: string") }
      false _ rfl).2.1,
   (C21_error_propagates plainLib plainConv plainGeneric .any .string
      { val := .invalid, err := some (newQueryError none ErrNotFound "invalid kind: string") }
      false _ rfl).2.2⟩

/-! ## C22: the message of an error -/

/-- C22: for every QueryError with code `c`, detail `d` and no cause, `Error()` is the
string `QueryError[` followed by the decimal rendering of `c`, `]: ` and `d`; the
out-of-range index `-5` of the example gives `QueryError[1]: [slice] invalid key: -5`. -/
theorem C22_error_message (quote : String → String) (c : ErrCode) (d : String) :
    QueryError.Error quote { Code := c, Detail := d, cause := none }
        = "QueryError[" ++ itoa c ++ "]: " ++ d
    ∧ (AnyResult plainLib (some tagged) None ["tags,-5"]).1 = none
    ∧ (AnyResult plainLib (some tagged) None ["tags,-5"]).2.map (QueryError.Error quote)
        = some "QueryError[1]: [slice] invalid key: -5" := by
  refine ⟨?_, by rfl, ?_⟩
  · unfold QueryError.Error
    by_cases hd : d = ""
    · subst hd
      simp
    · have hne : (d != "") = true := by simpa using hd
      simp [hne]
  · have h : (AnyResult plainLib (some tagged) None ["tags,-5"]).2
        = some { Code := 1, Detail := "[slice] invalid key: -5", cause := none } := by rfl
    rw [h]
    show some (QueryError.Error quote { Code := 1, Detail := "[slice] invalid key: -5", cause := none })
      = some "QueryError[1]: [slice] invalid key: -5"
    have hne : ("[slice] invalid key: -5" != "") = true := by decide
    simp only [QueryError.Error, hne, if_true]
    decide

/-! ## C28: the wrappers with a default -/

theorem orDefault_eq (r : GoAny × Option QueryError) (d : GoAny) :
    orDefault r d = if r.2.isSome then d else r.1 := by
  obtain ⟨x, e⟩ := r
  cases e <;> rfl

/-- C28: `IntDefault(obj, d, paths...)` returns `d` when `IntResult(obj, None,
paths...)` returns an error and the value `IntResult` returns otherwise; when that
value is not `d`, it returns `d` exactly when `IntResult` returns an error.  Likewise
for the `String`, `Uint`, `Complex`, `Float`, `Bool` and `Any` wrappers. -/
theorem C28_default_wrappers (lib : Lib) (conv : Conv) (obj d : GoAny) (paths : List String) :
    (IntDefault lib conv obj d paths
        = if (IntResult lib conv obj None paths).2.isSome then d
          else (IntResult lib conv obj None paths).1)
    ∧ ((IntResult lib conv obj None paths).1 ≠ d →
        (IntDefault lib conv obj d paths = d
          ↔ (IntResult lib conv obj None paths).2.isSome = true))
    ∧ (StringDefault lib conv obj d paths
        = if (StringResult lib conv obj None paths).2.isSome then d
          else (StringResult lib conv obj None paths).1)
    ∧ (UintDefault lib conv obj d paths
        = if (UintResult lib conv obj None paths).2.isSome then d
          else (UintResult lib conv obj None paths).1)
    ∧ (ComplexDefault lib conv obj d paths
        = if (ComplexResult lib conv obj None paths).2.isSome then d
          else (ComplexResult lib conv obj None paths).1)
    ∧ (FloatDefault lib conv obj d paths
        = if (FloatResult lib conv obj None paths).2.isSome then d
          else (FloatResult lib conv obj None paths).1)
    ∧ (BoolDefault lib conv obj d paths
        = if (BoolResult lib conv obj None paths).2.isSome then d
          else (BoolResult lib conv obj None paths).1)
    ∧ (AnyDefault lib obj d paths
        = if (AnyResult lib obj None paths).2.isSome then d
          else (AnyResult lib obj None paths).1) := by
  refine ⟨orDefault_eq _ _, ?_, orDefault_eq _ _, orDefault_eq _ _, orDefault_eq _ _,
    orDefault_eq _ _, orDefault_eq _ _, orDefault_eq _ _⟩
  intro hne
  unfold IntDefault
  rw [orDefault_eq]
  by_cases he : (IntResult lib conv obj None paths).2.isSome = true
  · simp [he]
  · simp [he, hne]

/-- C28 on the struct `person`: the field `Age` is read as 30, the missing field `Size`
gives the default 7. -/
theorem C28_witness :
    IntDefault plainLib plainConv (some person) (some (.int .int 7)) ["Age"]
        = some (.int .int 30)
    ∧ IntDefault plainLib plainConv (some person) (some (.int .int 7)) ["Size"]
        = some (.int .int 7)
    ∧ (IntDefault plainLib plainConv (some person) (some (.int .int 7)) ["Size"]
          = some (.int .int 7)
        ↔ (IntResult plainLib plainConv (some person) None ["Size"]).2.isSome = true) :=
  ⟨by rfl, by rfl,
   (C28_default_wrappers plainLib plainConv (some person) (some (.int .int 7)) ["Size"]).2.1
     (by
       have h : (IntResult plainLib plainConv (some person) None ["Size"]).1
           = some (.int .int 0) := by rfl
       rw [h]
       intro hc
       cases hc)⟩

/-! ## C23: a failure below the top level -/

/-- On a map with string keys that holds the key, `query` is `query` with the remaining
keys on the entry. -/
theorem query_map_entry (lib : Lib) (ro : Bool) (entries : List (MapKey × GoVal))
    (K : String) (V : GoVal) (caseSensitive safe : Bool) (rest : List String)
    (h : lookupKey (.str K) entries = some V) :
    query lib (.val ro (.map .string entries)) caseSensitive safe (K :: rest)
      = query lib (.val ro V) caseSensitive safe rest := by
  rw [query_unfold]
  simp only [queryStep, Value.isValid, toConcreteElem_map, findMapKeyValue, mapIndex, h,
    Bool.not_true, Bool.false_eq_true, if_false, ne_eq, not_true_eq_false, Option.isSome_some,
    if_true, ite_self, Option.elim]
  exact outcome_rewrap _ _

/-- On a struct that has the field, `query` is `query` with the remaining keys on the
field, unless `safe` is on and the field is not exported. -/
theorem query_struct_field (lib : Lib) (ro : Bool) (fields : List (String × Bool × GoVal))
    (f : String) (exported : Bool) (V : GoVal) (caseSensitive safe : Bool)
    (rest : List String) (h : fieldByName fields f = some (f, exported, V))
    (hs : safe = false ∨ exported = true) :
    query lib (.val ro (.struct fields)) caseSensitive safe (f :: rest)
      = query lib (.val (ro || !exported) V) caseSensitive safe rest := by
  have hname : findStructFieldName lib fields f caseSensitive = f := by
    simp [findStructFieldName, h]
  rw [query_unfold]
  rcases hs with hs | hs <;> subst hs
  · simp only [queryStep, Value.isValid, toConcreteElem_struct, hname, h, fieldValueByName,
      Bool.not_true, Bool.false_eq_true, if_false]
    exact outcome_rewrap _ _
  · simp only [queryStep, Value.isValid, toConcreteElem_struct, hname, h, fieldValueByName,
      Bool.not_true, Bool.false_eq_true, if_false, ite_self]
    exact outcome_rewrap _ _

/-- C23, as stated, fails: the second key `b` is missing in the nested map, and the
error returned for the path is the inner error itself, with no cause and with the
message of the inner failure alone. -/
theorem C23_counterexample :
    query plainLib (.val false (.map .string [(.str "x", .iface (.int .int 1))])) false false
        ["b"]
      = .err { Code := ErrNotFound, Detail := "[map] value not found by key b", cause := none }
    ∧ query plainLib (.val false nestedMap) false false ["a", "b"]
      = .err { Code := ErrNotFound, Detail := "[map] value not found by key b", cause := none }
    ∧ QueryError.Cause
        { Code := ErrNotFound, Detail := "[map] value not found by key b", cause := none }
      = none
    ∧ QueryError.Error plainQuote
        { Code := ErrNotFound, Detail := "[map] value not found by key b", cause := none }
      = "QueryError[1]: [map] value not found by key b" :=
  ⟨by rfl, by rfl, by rfl, by decide⟩

/-! ## C24: the two fields of a Result -/

theorem filterLoop_valid (lib : Lib) (recur : Value → List String → Outcome) (safe ro : Bool)
    (k queryAttr currentKey : String) (remainKeys : List String)
    (hrec : ∀ v ks w, recur v ks = .ok w → w.isValid = true) :
    ∀ (elems : List GoVal) (w : Value),
      filterLoop lib recur safe ro k queryAttr currentKey remainKeys elems = .ok w →
        w.isValid = true := by
  intro elems
  induction elems with
  | nil => intro w h; cases h
  | cons x rest ih =>
    intro w h
    simp only [filterLoop] at h
    split at h
    · cases h
    · exact ih w h
    · split at h
      · exact ih w h
      · split at h
        · cases h
        · exact ih w h
        · split at h
          · exact ih w h
          · split at h
            · cases h
            · exact ih w h
            · rename_i v hv
              cases h
              exact hrec _ _ _ hv

theorem querySeq_valid (lib : Lib) (recur : Value → List String → Outcome) (safe ro : Bool)
    (elems : List GoVal) (currentKey : String) (remainKeys : List String)
    (hrec : ∀ v ks w, recur v ks = .ok w → w.isValid = true) (w : Value)
    (h : querySeq lib recur safe ro elems currentKey remainKeys = .ok w) :
    w.isValid = true := by
  unfold querySeq at h
  split at h
  · split at h
    · exact filterLoop_valid lib recur safe ro _ _ _ _ hrec _ w h
    · cases h
  · simp only [] at h
    split at h
    · cases h
    · split at h
      · cases h
      · split at h
        · cases h
        · split at h
          · cases h
          · cases h
          · rename_i v hv
            cases h
            exact hrec _ _ _ hv

theorem mapStep_valid (recur : Value → List String → Outcome) (value : Value) (key : MapKey)
    (currentKey : String) (remainKeys : List String)
    (hrec : ∀ v ks w, recur v ks = .ok w → w.isValid = true) (w : Value)
    (h : (match mapIndex value key with
          | .panic m => Outcome.panic m
          | .err e => .err e
          | .ok fieldValue =>
            if !fieldValue.isValid then
              .err (newQueryError none ErrNotFound
                ("[map] value not found by key " ++ currentKey))
            else
              match recur fieldValue remainKeys with
              | .panic m => .panic m
              | .err err =>
                .err (newQueryError (some (.query err)) ErrNotFound
                  ("[map] query keys: " ++ fmtKeys remainKeys))
              | .ok value => .ok value) = .ok w) :
    w.isValid = true := by
  split at h
  · cases h
  · cases h
  · split at h
    · cases h
    · split at h
      · cases h
      · cases h
      · rename_i v hv
        cases h
        exact hrec _ _ _ hv

theorem queryStep_valid (lib : Lib) (recur : Value → List String → Outcome) (value : Value)
    (caseSensitive safe : Bool) (keys : List String)
    (hrec : ∀ v ks w, recur v ks = .ok w → w.isValid = true) (w : Value)
    (h : queryStep lib recur value caseSensitive safe keys = .ok w) :
    w.isValid = true := by
  unfold queryStep at h
  split at h
  · cases h
  · rename_i hv
    split at h
    · cases h
      simpa using hv
    · split at h
      · cases h
      · cases h
      · split at h
        · exact mapStep_valid recur _ _ _ _ hrec w h
        · exact mapStep_valid recur _ _ _ _ hrec w h
        · simp only [] at h
          split at h
          · cases h
          · split at h
            · cases h
            · split at h
              · cases h
              · cases h
              · rename_i v hv2
                cases h
                exact hrec _ _ _ hv2
        · exact querySeq_valid lib recur safe _ _ _ _ hrec w h
        · exact querySeq_valid lib recur safe _ _ _ _ hrec w h
        · cases h

theorem queryFuel_valid (lib : Lib) (caseSensitive safe : Bool) :
    ∀ (fuel : Nat) (value : Value) (keys : List String) (w : Value),
      queryFuel lib caseSensitive safe fuel value keys = .ok w → w.isValid = true := by
  intro fuel
  induction fuel with
  | zero => intro value keys w h; cases h
  | succ n ih =>
    intro value keys w h
    exact queryStep_valid lib _ value caseSensitive safe keys (fun v ks w1 h1 => ih v ks w1 h1) w h

/-- A Value returned by `query` with a nil error is valid. -/
theorem query_ok_valid (lib : Lib) (value : Value) (caseSensitive safe : Bool)
    (keys : List String) (w : Value) (h : query lib value caseSensitive safe keys = .ok w) :
    w.isValid = true :=
  queryFuel_valid lib caseSensitive safe _ value keys w h

/-- C24, as stated, fails for `obj = nil` with no path: the Result has a nil error and
a Value that is not valid. -/
theorem C24_counterexample :
    ∃ r, queryResult plainLib none None [] = .ok r ∧ r.err = none ∧ r.val.isValid = false :=
  ⟨{ val := .invalid, err := none }, by rfl, rfl, rfl⟩

/-- C24 (amended): a Result returned by `queryResult` never has both an error and a
valid Value, and it has neither exactly when no path is given and `obj` is nil; in
every other case exactly one of the two holds. -/
theorem C24_result_shape (lib : Lib) (obj : GoAny) (opt : GoOption) (paths : List String)
    (r : Result) (h : queryResult lib obj opt paths = .ok r) :
    ¬ (r.err.isSome = true ∧ r.val.isValid = true)
    ∧ ((r.err = none ∧ r.val.isValid = false) ↔ (paths = [] ∧ obj = none)) := by
  unfold queryResult at h
  cases paths with
  | nil =>
    simp only [List.length_nil, beq_self_eq_true, if_true, Except.ok.injEq] at h
    subst h
    cases obj with
    | none => simp [valueOf, Value.isValid]
    | some g => simp [valueOf, Value.isValid]
  | cons p ps =>
    have hlen : ((p :: ps).length == 0) = false := by simp
    simp only [hlen, Bool.false_eq_true, if_false] at h
    split at h
    · cases h
    · simp only [Except.ok.injEq] at h
      subst h
      simp [Value.isValid]
    · rename_i value hq
      simp only [Except.ok.injEq] at h
      subst h
      have hv := query_ok_valid lib _ _ _ _ value hq
      simp [hv]

/-- C24 (amended) on three calls: a failed path, a path that resolves, and `nil` with
no path. -/
theorem C24_witness :
    ¬ ((some (newQueryError none ErrNotFound "invalid kind: string")).isSome = true
        ∧ Value.invalid.isValid = true)
    ∧ queryResult plainLib (some person) None ["Name"]
        = .ok { val := .val false (.str "Vin Mars"), err := none }
    ∧ (((none : Option QueryError) = none ∧ Value.invalid.isValid = false)
        ↔ (([] : List String) = [] ∧ (none : GoAny) = none)) :=
  ⟨(C24_result_shape plainLib (some (.str "string1")) None ["1"]
      { val := .invalid, err := some (newQueryError none ErrNotFound "invalid kind: string") }
      (by rfl)).1,
   by rfl,
   (C24_result_shape plainLib none None [] { val := .invalid, err := none } (by rfl)).2⟩


/-! ## C29, C30: maps with keys that are not strings -/

theorem stringToInt_itoa (n : Int) (h1 : -(2 : Int) ^ 63 ≤ n) (h2 : n < (2 : Int) ^ 63) :
    stringToInt (itoa n) = n := by
  have h := atoi_itoa n h1 h2
  unfold atoi at h
  unfold stringToInt
  split at h
  · rename_i i hp
    rw [hp]
    cases h
    rfl
  · cases h

theorem stringToUint_repr (n : Nat) (h : n < 2 ^ 64) : stringToUint (Nat.repr n) = n := by
  unfold stringToUint
  rw [parseUint_repr n h]

theorem wrapInt_of_range (k : IntKind) (n : Int) (h1 : -(2 : Int) ^ (k.bits - 1) ≤ n)
    (h2 : n < (2 : Int) ^ (k.bits - 1)) : wrapInt k.bits n = n := by
  unfold wrapInt
  cases k <;> simp only [IntKind.bits] at h1 h2 ⊢ <;> norm_num at h1 h2 ⊢ <;> omega

theorem intKind_range (k : IntKind) (n : Int) (h1 : -(2 : Int) ^ (k.bits - 1) ≤ n)
    (h2 : n < (2 : Int) ^ (k.bits - 1)) : -(2 : Int) ^ 63 ≤ n ∧ n < (2 : Int) ^ 63 := by
  cases k <;> simp only [IntKind.bits] at h1 h2 <;> norm_num at h1 h2 ⊢ <;> omega

theorem uintKind_range (k : UintKind) (n : Nat) (h : n < 2 ^ k.bits) :
    n < 2 ^ 64 ∧ n % 2 ^ k.bits = n := by
  refine ⟨?_, Nat.mod_eq_of_lt h⟩
  cases k <;> simp only [UintKind.bits] at h <;> norm_num at h ⊢ <;> omega

/-- On a map whose keys are not strings, `query` with one key looks up the key that
`stringToMapKeyType` makes of it. -/
theorem query_map_converted_key (lib : Lib) (ro : Bool) (kt : KeyType)
    (entries : List (MapKey × GoVal)) (key : String) (V : GoVal) (caseSensitive safe : Bool)
    (hkt : kt ≠ .string) (hns : ∀ s, stringToMapKeyType lib key kt ≠ .str s)
    (h : lookupKey (stringToMapKeyType lib key kt) entries = some V) :
    query lib (.val ro (.map kt entries)) caseSensitive safe [key] = .ok (.val ro V) := by
  rw [query_unfold]
  have hidx : mapIndex (.val ro (.map kt entries)) (stringToMapKeyType lib key kt)
      = .ok (.val ro V) := by
    revert hns h
    generalize stringToMapKeyType lib key kt = mk
    intro hns h
    cases mk with
    | str s => exact absurd rfl (hns s)
    | bool b => simp only [mapIndex, h]; rfl
    | int i => simp only [mapIndex, h]; rfl
    | uint n => simp only [mapIndex, h]; rfl
    | float bits => simp only [mapIndex, h]; rfl
    | complex re im => simp only [mapIndex, h]; rfl
    | nil => simp only [mapIndex, h]; rfl
    | other id => simp only [mapIndex, h]; rfl
  simp only [queryStep, Value.isValid, toConcreteElem_map, findMapKeyValue, hkt, ne_eq,
    not_false_eq_true, if_true, hidx, Bool.not_true, Bool.false_eq_true, if_false, query_nil]

/-- C29: for every map with integer keys, signed or unsigned, and every key `n` of the
key type that it holds with the value `V`, resolving the single key that is the
decimal rendering of `n` returns `V`. -/
theorem C29_integer_key (lib : Lib) (ro caseSensitive safe : Bool)
    (entries : List (MapKey × GoVal)) (V : GoVal) :
    (∀ (k : IntKind) (n : Int), -(2 : Int) ^ (k.bits - 1) ≤ n → n < (2 : Int) ^ (k.bits - 1) →
        lookupKey (.int n) entries = some V →
        query lib (.val ro (.map (.int k) entries)) caseSensitive safe [itoa n]
          = .ok (.val ro V))
    ∧ (∀ (k : UintKind) (n : Nat), n < 2 ^ k.bits →
        lookupKey (.uint n) entries = some V →
        query lib (.val ro (.map (.uint k) entries)) caseSensitive safe [Nat.repr n]
          = .ok (.val ro V)) := by
  constructor
  · intro k n h1 h2 h
    obtain ⟨h3, h4⟩ := intKind_range k n h1 h2
    have hkey : stringToMapKeyType lib (itoa n) (.int k) = .int n := by
      simp only [stringToMapKeyType, stringToInt_itoa n h3 h4, wrapInt_of_range k n h1 h2]
    exact query_map_converted_key lib ro (.int k) entries (itoa n) V caseSensitive safe
      (by simp) (by rw [hkey]; simp) (by rw [hkey]; exact h)
  · intro k n h1 h
    obtain ⟨h3, h4⟩ := uintKind_range k n h1
    have hkey : stringToMapKeyType lib (Nat.repr n) (.uint k) = .uint n := by
      simp only [stringToMapKeyType, stringToUint_repr n h3, h4]
    exact query_map_converted_key lib ro (.uint k) entries (Nat.repr n) V caseSensitive safe
      (by simp) (by rw [hkey]; simp) (by rw [hkey]; exact h)

/-- C29 on a `map[int8]string` with the key `-3` and a `map[uint]string` with the key
`2`. -/
theorem C29_witness :
    query plainLib (.val false (.map (.int .int8) [(.int 1, .str "x"), (.int (-3), .str "y")]))
        false false [itoa (-3)]
      = .ok (.val false (.str "y"))
    ∧ itoa (-3) = "-3"
    ∧ query plainLib (.val false (.map (.uint .uint) [(.uint 1, .str "x"), (.uint 2, .str "y")]))
        true true [Nat.repr 2]
      = .ok (.val false (.str "y"))
    ∧ Nat.repr 2 = "2" :=
  ⟨(C29_integer_key plainLib false false false [(.int 1, .str "x"), (.int (-3), .str "y")]
      (.str "y")).1 .int8 (-3) (by decide) (by decide) (by rfl),
   by decide,
   (C29_integer_key plainLib false true true [(.uint 1, .str "x"), (.uint 2, .str "y")]
      (.str "y")).2 .uint 2 (by decide) (by rfl),
   by decide⟩

theorem parseUintLoop_not_literal :
    ∀ (cs : List Char) (n : Nat), (parseUintLoop cs n).2 = some .ErrSyntax →
      (parseUintLoop cs n).1 = 0
  | [], n, h => by simp [parseUintLoop] at h
  | c :: cs, n, h => by
    unfold parseUintLoop at h ⊢
    split
    · rename_i hc
      simp only [hc, if_true] at h
      simp only []
      split
      · rename_i hr
        simp only [hr, if_true] at h
        cases h
      · rename_i hr
        simp only [hr, if_false] at h
        exact parseUintLoop_not_literal cs _ h
    · rfl

theorem parseUint_not_literal (s : String) (h : (parseUint s).2 = some .ErrSyntax) :
    (parseUint s).1 = 0 := by
  unfold parseUint at h ⊢
  cases hd : s.data with
  | nil => rfl
  | cons c cs =>
    rw [hd] at h
    exact parseUintLoop_not_literal (c :: cs) 0 h

theorem parseInt_not_literal (s : String) (h : (parseInt s).2 = some .ErrSyntax) :
    (parseInt s).1 = 0 :=
  valueToInt_not_literal plainLib plainConv false s h

theorem wrapInt_zero (k : IntKind) : wrapInt k.bits 0 = 0 := by
  cases k <;> decide

/-- A key string that is not a decimal literal becomes the key 0 of a map with integer
keys, signed or unsigned; a key string that is not a true literal becomes the key
`false` of a map with boolean keys; every key string becomes the zero value of a key
type without a rule. -/
theorem stringToMapKeyType_zero (lib : Lib) (key : String) :
    (∀ k : IntKind, (parseInt key).2 = some .ErrSyntax →
        stringToMapKeyType lib key (.int k) = .int 0)
    ∧ (∀ k : UintKind, (parseUint key).2 = some .ErrSyntax →
        stringToMapKeyType lib key (.uint k) = .uint 0)
    ∧ (parseBool key = false → stringToMapKeyType lib key .bool = .bool false)
    ∧ (∀ name : String, stringToMapKeyType lib key (.other name) = .other 0) := by
  refine ⟨?_, ?_, ?_, fun _ => rfl⟩
  · intro k h
    have h0 : stringToInt key = 0 := parseInt_not_literal key h
    simp only [stringToMapKeyType, h0, wrapInt_zero]
  · intro k h
    have h0 : stringToUint key = 0 := parseUint_not_literal key h
    simp only [stringToMapKeyType, h0, Nat.zero_mod]
  · intro h
    simp only [stringToMapKeyType, stringToBool, h]

/-- Resolving the key `a` against a map with signed integer keys looks up the entry
stored at the key 0. -/
theorem query_int_map_a (lib : Lib) (ro caseSensitive safe : Bool) (k : IntKind)
    (entries : List (MapKey × GoVal)) (V : GoVal) (h : lookupKey (.int 0) entries = some V) :
    query lib (.val ro (.map (.int k) entries)) caseSensitive safe ["a"] = .ok (.val ro V) := by
  have hkey : stringToMapKeyType lib "a" (.int k) = .int 0 :=
    (stringToMapKeyType_zero lib "a").1 k (by decide)
  exact query_map_converted_key lib ro (.int k) entries "a" V caseSensitive safe
    (by simp) (by rw [hkey]; simp) (by rw [hkey]; exact h)

/-- C30: `stringToMapKeyType` does not return the zero key for every key string that
does not parse as the key type: the literal of `2^63` becomes the key `2^63 - 1` of a
`map[int64]`, the literal of `2^64` the key `2^64 - 1` of a `map[uint64]`, and `300`
the key 44 of a `map[int8]`; resolving the literal of `2^63` returns the entry stored
at `2^63 - 1`, not the one stored at 0. -/
theorem C30_key_out_of_range (lib : Lib) (ro caseSensitive safe : Bool) :
    (parseInt "9223372036854775808").2 = some .ErrRange
    ∧ stringToMapKeyType lib "9223372036854775808" (.int .int64) = .int 9223372036854775807
    ∧ (parseUint "18446744073709551616").2 = some .ErrRange
    ∧ stringToMapKeyType lib "18446744073709551616" (.uint .uint64)
        = .uint 18446744073709551615
    ∧ stringToMapKeyType lib "300" (.int .int8) = .int 44
    ∧ query lib
        (.val ro (.map (.int .int64) [(.int 0, .str "zero"), (.int 9223372036854775807, .str "max")]))
        caseSensitive safe ["9223372036854775808"]
      = .ok (.val ro (.str "max")) := by
  have h1 : stringToMapKeyType lib "9223372036854775808" (.int .int64)
      = .int 9223372036854775807 := by
    show MapKey.int (wrapInt 64 (stringToInt "9223372036854775808")) = _
    have : wrapInt 64 (stringToInt "9223372036854775808") = 9223372036854775807 := by decide
    rw [this]
  refine ⟨by decide, h1, by decide, ?_, ?_, ?_⟩
  · show MapKey.uint (stringToUint "18446744073709551616" % 2 ^ 64) = _
    have : stringToUint "18446744073709551616" % 2 ^ 64 = 18446744073709551615 := by decide
    rw [this]
  · show MapKey.int (wrapInt 8 (stringToInt "300")) = _
    have : wrapInt 8 (stringToInt "300") = 44 := by decide
    rw [this]
  · exact query_map_converted_key lib ro (.int .int64) _ "9223372036854775808" (.str "max")
      caseSensitive safe (by simp) (by rw [h1]; simp) (by rw [h1]; rfl)


/-! ## C31: maps with a key type that has no conversion rule -/

theorem stringToMapKeyType_unsupported (lib : Lib) (key : String) (kt : KeyType)
    (h : kt.unsupported = true) : stringToMapKeyType lib key kt = zeroKey kt := by
  cases kt <;> first | rfl | exact Bool.noConfusion h

theorem zeroKey_unsupported_ne_str (kt : KeyType) (h : kt.unsupported = true) (s : String) :
    zeroKey kt ≠ .str s := by
  cases kt <;> first | exact Bool.noConfusion h | (intro hc; cases hc)

theorem unsupported_ne_string (kt : KeyType) (h : kt.unsupported = true) : kt ≠ .string := by
  intro hc
  rw [hc] at h
  exact Bool.noConfusion h

/-- On a map whose keys are not strings and which has no entry at the key that
`stringToMapKeyType` makes of the first key, `query` fails. -/
theorem query_map_converted_missing (lib : Lib) (ro : Bool) (kt : KeyType)
    (entries : List (MapKey × GoVal)) (key : String) (rest : List String)
    (caseSensitive safe : Bool)
    (hkt : kt ≠ .string) (hns : ∀ s, stringToMapKeyType lib key kt ≠ .str s)
    (h : lookupKey (stringToMapKeyType lib key kt) entries = none) :
    query lib (.val ro (.map kt entries)) caseSensitive safe (key :: rest)
      = .err (newQueryError none ErrNotFound ("[map] value not found by key " ++ key)) := by
  rw [query_unfold]
  have hidx : mapIndex (.val ro (.map kt entries)) (stringToMapKeyType lib key kt)
      = .ok .invalid := by
    revert hns h
    generalize stringToMapKeyType lib key kt = mk
    intro hns h
    cases mk with
    | str s => exact absurd rfl (hns s)
    | bool b => simp only [mapIndex, h]; rfl
    | int i => simp only [mapIndex, h]; rfl
    | uint n => simp only [mapIndex, h]; rfl
    | float bits => simp only [mapIndex, h]; rfl
    | complex re im => simp only [mapIndex, h]; rfl
    | nil => simp only [mapIndex, h]; rfl
    | other id => simp only [mapIndex, h]; rfl
  simp only [queryStep, Value.isValid, toConcreteElem_map, findMapKeyValue, hkt, ne_eq,
    not_false_eq_true, if_true, hidx, Bool.not_true, Bool.false_eq_true, if_false,
    Bool.not_false]

/-- C31, as stated, fails: a map with struct keys that has an entry at the zero value
of the key type returns that entry for the key `a`. -/
theorem C31_counterexample :
    (KeyType.other "main.A").unsupported = true
    ∧ query plainLib (.val false (.map (.other "main.A") [(.other 0, .str "x")])) false false
        ["a"]
      = .ok (.val false (.str "x")) :=
  ⟨rfl, by rfl⟩

/-- C31 (amended): for every map that is not nil and whose key type has no conversion
rule, and every key string, resolving that key looks up the zero value of the key
type: it fails with a NotFound error when the map has no entry there, whatever keys
follow, and returns the entry stored there otherwise. -/
theorem C31_unsupported_key (lib : Lib) (ro caseSensitive safe : Bool) (kt : KeyType)
    (entries : List (MapKey × GoVal)) (key : String) (hkt : kt.unsupported = true) :
    (lookupKey (zeroKey kt) entries = none →
        ∀ rest, ∃ e,
          query lib (.val ro (.map kt entries)) caseSensitive safe (key :: rest) = .err e
            ∧ e.Code = ErrNotFound)
    ∧ (∀ V, lookupKey (zeroKey kt) entries = some V →
        query lib (.val ro (.map kt entries)) caseSensitive safe [key] = .ok (.val ro V)) := by
  have hz := stringToMapKeyType_unsupported lib key kt hkt
  have hns : ∀ s, stringToMapKeyType lib key kt ≠ .str s := by
    intro s
    rw [hz]
    exact zeroKey_unsupported_ne_str kt hkt s
  constructor
  · intro h rest
    exact ⟨_, query_map_converted_missing lib ro kt entries key rest caseSensitive safe
      (unsupported_ne_string kt hkt) hns (by rw [hz]; exact h), rfl⟩
  · intro V h
    exact query_map_converted_key lib ro kt entries key V caseSensitive safe
      (unsupported_ne_string kt hkt) hns (by rw [hz]; exact h)

/-- C31 (amended) on two maps with struct keys: without and with an entry at the zero
key. -/
theorem C31_witness :
    (∃ e, query plainLib (.val false (.map (.other "main.A") [(.other 1, .str "y")])) false false
        ["a", "b"] = .err e ∧ e.Code = ErrNotFound)
    ∧ query plainLib
        (.val false (.map (.other "main.A") [(.other 1, .str "y"), (.other 0, .str "x")]))
        true true ["a"]
      = .ok (.val false (.str "x")) :=
  ⟨(C31_unsupported_key plainLib false false false (.other "main.A") [(.other 1, .str "y")] "a"
      rfl).1 (by rfl) ["b"],
   (C31_unsupported_key plainLib false true true (.other "main.A")
      [(.other 1, .str "y"), (.other 0, .str "x")] "a" rfl).2 (.str "x") (by rfl)⟩

/-! ## C35: strictness -/

/-- C35: strict mode only removes successes: for every Result and target type, when
`resultToAny` with `typeStrict = true` returns `x` and no error, it returns the same
`x` and no error with `typeStrict = false`. -/
theorem C35_strict_only_removes (lib : Lib) (conv : Conv) (target : Target) (result : Result)
    (x : GoAny) (h : resultToAny lib conv target result true = .ok (x, none)) :
    resultToAny lib conv target result false = .ok (x, none) := by
  unfold resultToAny at h ⊢
  cases herr : result.err with
  | some err =>
    rw [herr] at h
    simp only [Except.ok.injEq, Prod.mk.injEq] at h
    exact absurd h.2 (by simp)
  | none =>
    rw [herr] at h
    simp only [] at h ⊢
    cases hta : typeAssert target (valueToAny result.val) with
    | some t =>
      rw [hta] at h
      exact h
    | none =>
      rw [hta] at h
      simp only [if_true, Except.ok.injEq, Prod.mk.injEq] at h
      exact absurd h.2 (by simp)

/-- C35 on the string `30` requested as a string: returned with and without
strictness; requested as an `int` it is returned only without. -/
theorem C35_witness :
    resultToAny plainLib plainConv .string { val := .val false (.str "30"), err := none } false
        = .ok (some (.str "30"), none)
    ∧ resultToAny plainLib plainConv .int { val := .val false (.str "30"), err := none } false
        = .ok (some (.int .int 30), none)
    ∧ resultToAny plainLib plainConv .int { val := .val false (.str "30"), err := none } true
        ≠ .ok (some (.int .int 30), none) :=
  ⟨C35_strict_only_removes plainLib plainConv .string
      { val := .val false (.str "30"), err := none } (some (.str "30")) (by rfl),
   by rfl,
   by
    have h : resultToAny plainLib plainConv .int { val := .val false (.str "30"), err := none }
        true = .ok (some (.int .int 0), some (typeNotMatch plainConv .int (some (.str "30")))) := by
      rfl
    rw [h]
    intro hc
    simp only [Except.ok.injEq, Prod.mk.injEq] at hc
    exact absurd hc.2 (by simp)⟩

/-! ## C37: concretization is idempotent -/

/-- C37: for every Value and `safe` flag, when `toConcreteElem(v, safe, 0)` returns a
valid Value `w`, `toConcreteElem(w, safe, 0)` returns `w`. -/
theorem C37_toConcreteElem_idempotent (lib : Lib) (v w : Value) (safe : Bool)
    (h : toConcreteElem lib v safe 0 = .ok w) (hw : w.isValid = true) :
    toConcreteElem lib w safe 0 = .ok w := by
  obtain ⟨_, h1, h2⟩ := toConcreteElemFrom_strip lib safe _ v 0 w h
  cases w with
  | invalid => cases hw
  | val ro g => exact toConcreteElemFrom_of_kind lib 10 ro g safe 0 h1 h2

/-- C37 on a read-only pointer to an interface holding a string. -/
theorem C37_witness :
    toConcreteElem plainLib (.val true (.ptr (.iface (.str "b")))) false 0
        = .ok (.val false (.str "b"))
    ∧ toConcreteElem plainLib (.val false (.str "b")) false 0 = .ok (.val false (.str "b")) :=
  ⟨by rfl,
   C37_toConcreteElem_idempotent plainLib (.val true (.ptr (.iface (.str "b"))))
     (.val false (.str "b")) false (by rfl) rfl⟩

/-! ## C39: truthiness of booleans and integers -/

theorem wrapInt_64_eq_zero (n : Nat) (h : n < 2 ^ 64) : wrapInt 64 (n : Int) = 0 ↔ n = 0 := by
  unfold wrapInt
  norm_num at h ⊢
  omega

/-- C39: for every boolean, signed integer and unsigned integer value, `valueToBool`
is true exactly when `valueToInt` is not zero; an unsigned value is below `2^64`. -/
theorem C39_bool_int_agree (lib : Lib) (conv : Conv) (ro : Bool) :
    (∀ b : Bool, valueToBool lib (.val ro (.bool b)) = true
        ↔ valueToInt lib conv (.val ro (.bool b)) ≠ 0)
    ∧ (∀ (k : IntKind) (i : Int), valueToBool lib (.val ro (.int k i)) = true
        ↔ valueToInt lib conv (.val ro (.int k i)) ≠ 0)
    ∧ (∀ (k : UintKind) (n : Nat), n < 2 ^ 64 →
        (valueToBool lib (.val ro (.uint k n)) = true
          ↔ valueToInt lib conv (.val ro (.uint k n)) ≠ 0)) := by
  refine ⟨?_, ?_, ?_⟩
  · intro b
    cases b <;> simp [valueToBool, valueToInt]
  · intro k i
    simp [valueToBool, valueToInt]
  · intro k n hn
    have h := wrapInt_64_eq_zero n hn
    simp only [valueToBool, valueToInt, bne_iff_ne, ne_eq, h]

/-- C39 on the largest `uint64`, which `valueToInt` turns into `-1`. -/
theorem C39_witness :
    valueToInt plainLib plainConv (.val false (.uint .uint64 18446744073709551615)) = -1
    ∧ (valueToBool plainLib (.val false (.uint .uint64 18446744073709551615)) = true
        ↔ valueToInt plainLib plainConv (.val false (.uint .uint64 18446744073709551615)) ≠ 0) :=
  ⟨by decide,
   (C39_bool_int_agree plainLib plainConv false).2.2 .uint64 18446744073709551615 (by decide)⟩

/-! ## C40: a nil interface as the result -/

/-- C40: whenever the paths resolve without error to a nil interface value,
`AnyResult` returns nil together with a TypeMismatch error (code 2), with and without
the option `Type`. -/
theorem C40_nil_interface_result (lib : Lib) (obj : GoAny) (opt : GoOption)
    (paths : List String) (r : Result) (h : queryResult lib obj opt paths = .ok r)
    (herr : r.err = none) (hnil : valueToAny r.val = none) :
    AnyResult lib obj opt paths
        = (none, some { Code := ErrTypeMatch,
                        Detail := "result type not match: need <nil> got <nil>",
                        cause := none })
    ∧ ErrTypeMatch = 2 := by
  refine ⟨?_, rfl⟩
  unfold AnyResult
  rw [h]
  simp only [resultToAny_any, herr, hnil]
  cases (opt &&& OptType == OptType) <;> rfl

/-- C40 on a `map[string]any` whose entry `c` is nil, without and with the option
`Type`. -/
theorem C40_witness :
    queryResult plainLib (some (.map .string [(.str "c", .nilIface)])) None ["c"]
        = .ok { val := .val false .nilIface, err := none }
    ∧ AnyResult plainLib (some (.map .string [(.str "c", .nilIface)])) None ["c"]
        = (none, some { Code := ErrTypeMatch,
                        Detail := "result type not match: need <nil> got <nil>",
                        cause := none })
    ∧ AnyResult plainLib (some (.map .string [(.str "c", .nilIface)])) OptType ["c"]
        = (none, some { Code := ErrTypeMatch,
                        Detail := "result type not match: need <nil> got <nil>",
                        cause := none }) :=
  ⟨by rfl,
   (C40_nil_interface_result plainLib (some (.map .string [(.str "c", .nilIface)])) None ["c"]
      { val := .val false .nilIface, err := none } (by rfl) rfl rfl).1,
   (C40_nil_interface_result plainLib (some (.map .string [(.str "c", .nilIface)])) OptType
      ["c"] { val := .val false .nilIface, err := none } (by rfl) rfl rfl).1⟩


/-! ## C32: a value as a slice -/

theorem typeAssert_some (target : Target) (a : GoAny) (v : GoVal)
    (h : typeAssert target a = some v) :
    a = some v ∧ (target = .any ∨ target.isTypeOf v = true) := by
  cases a with
  | none => cases h
  | some g =>
    simp only [typeAssert] at h
    split at h
    · rename_i hc
      cases h
      refine ⟨rfl, ?_⟩
      simp only [Bool.or_eq_true, beq_iff_eq] at hc
      exact hc
    · cases h

/-- The value stored in the element of the new slice is the value of the element of
the array. -/
theorem valueToAny_toSlot (target : Target) (ro : Bool) (a : GoAny) (v : GoVal)
    (h : typeAssert target a = some v) : valueToAny (.val ro (toSlot target v)) = a := by
  obtain ⟨ha, ht⟩ := typeAssert_some target a v h
  subst ha
  by_cases hany : target = .any
  · subst hany
    rfl
  · have ht' : target.isTypeOf v = true := by
      rcases ht with ht | ht
      · exact absurd ht hany
      · exact ht
    have hb : (target == Target.any) = false := by simpa using hany
    simp only [toSlot, hb, Bool.false_eq_true, if_false]
    cases target <;> cases v <;> first | rfl | exact Bool.noConfusion ht'

theorem assertElems_ok (target : Target) (ro : Bool) :
    ∀ elems : List GoVal,
      (∀ e ∈ elems, (typeAssert target (valueToAny (.val ro e))).isSome = true) →
      ∃ m, assertElems target ro elems = some m
        ∧ m.map (fun x => valueToAny (.val ro x)) = elems.map (fun e => valueToAny (.val ro e))
  | [], _ => ⟨[], rfl, rfl⟩
  | e :: rest, h => by
    have he := h e (List.mem_cons_self _ _)
    obtain ⟨m, hm, hmap⟩ := assertElems_ok target ro rest
      (fun x hx => h x (List.mem_cons_of_mem _ hx))
    cases hta : typeAssert target (valueToAny (.val ro e)) with
    | none => rw [hta] at he; cases he
    | some v =>
      refine ⟨toSlot target v :: m, ?_, ?_⟩
      · simp only [assertElems, hta, hm]
      · simp only [List.map_cons, hmap, valueToAny_toSlot target ro _ v hta]

theorem assertElems_fail (target : Target) (ro : Bool) :
    ∀ elems : List GoVal,
      (∃ e ∈ elems, typeAssert target (valueToAny (.val ro e)) = none) →
      assertElems target ro elems = none
  | [], h => by
    obtain ⟨e, he, _⟩ := h
    cases he
  | x :: rest, h => by
    cases hta : typeAssert target (valueToAny (.val ro x)) with
    | none => simp only [assertElems, hta]
    | some v =>
      obtain ⟨e, he, hn⟩ := h
      have hrest : ∃ e ∈ rest, typeAssert target (valueToAny (.val ro e)) = none := by
        rcases List.mem_cons.1 he with h1 | h1
        · subst h1
          rw [hta] at hn
          cases hn
        · exact ⟨e, h1, hn⟩
      simp only [assertElems, hta, assertElems_fail target ro rest hrest]

/-- C32, as stated, fails on a nil value: `valueToSlice` returns the nil slice, one of
the other cases, and `resultToSlice` without strictness returns a TypeMismatch error,
for an invalid Value and for a nil interface alike. -/
theorem C32_counterexample :
    valueToSlice elemGeneric .int (valueOf none) = none
    ∧ resultToSlice plainLib plainConv elemGeneric .int { val := .invalid, err := none } false
        = .ok (none, some { Code := ErrTypeMatch,
                            Detail := "result type not match: need []int got <nil>",
                            cause := none })
    ∧ resultToSlice plainLib plainConv elemGeneric .int
          { val := .val false .nilIface, err := none } false
        = .ok (none, some { Code := ErrTypeMatch,
                            Detail := "result type not match: need []int got <nil>",
                            cause := none }) :=
  ⟨by rfl, by rfl, by rfl⟩

/-- C32 (amended): `valueToSlice[E]` returns the same slice when the value is a slice
whose element type is `E`; when the value is an array all of whose elements have the
type `E`, it returns a new slice with the values of the elements in the same order,
hence of the same length; in every other case it returns the nil slice.  On an
error-free Result whose value is not a `[]E`, `resultToSlice` without strictness
returns what `valueToSlice` returns on the concrete value, with no error, when the
value is not nil and `toConcreteElem` accepts it; it returns the nil slice and a
TypeMismatch error when the value is nil or `toConcreteElem` rejects it. -/
theorem C32_valueToSlice (lib : Lib) (conv : Conv) (gen : Generic) (target : Target)
    (ro : Bool) :
    (∀ elems, gen.isSliceOf target (.slice elems) = true →
        valueToSlice gen target (.val ro (.slice elems)) = some elems)
    ∧ (∀ elems,
        (∀ e ∈ elems, (typeAssert target (valueToAny (.val ro e))).isSome = true) →
        ∃ m, valueToSlice gen target (.val ro (.array elems)) = some m
          ∧ m.length = elems.length
          ∧ m.map (fun x => valueToAny (.val ro x))
              = elems.map (fun e => valueToAny (.val ro e)))
    ∧ (∀ elems, gen.isSliceOf target (.slice elems) = false →
        valueToSlice gen target (.val ro (.slice elems)) = none)
    ∧ (∀ elems, (∃ e ∈ elems, typeAssert target (valueToAny (.val ro e)) = none) →
        valueToSlice gen target (.val ro (.array elems)) = none)
    ∧ (∀ v : Value, v.kind ≠ .Slice → v.kind ≠ .Array → valueToSlice gen target v = none)
    ∧ (∀ (result : Result) (g : GoVal) (value : Value), result.err = none →
        valueToAny result.val = some g → sliceAssert gen target (some g) = none →
        toConcreteElem lib (.val false g) false 0 = .ok value →
        resultToSlice lib conv gen target result false
          = .ok (valueToSlice gen target value, none))
    ∧ (∀ result : Result, result.err = none → valueToAny result.val = none →
        resultToSlice lib conv gen target result false
            = .ok (none, some (typeNotMatchNamed conv ("[]" ++ target.name) none))
          ∧ (typeNotMatchNamed conv ("[]" ++ target.name) none).Code = ErrTypeMatch)
    ∧ (∀ (result : Result) (g : GoVal) (e : QueryError), result.err = none →
        valueToAny result.val = some g → sliceAssert gen target (some g) = none →
        toConcreteElem lib (.val false g) false 0 = .err e →
        resultToSlice lib conv gen target result false
            = .ok (none, some (typeNotMatchNamed conv ("[]" ++ target.name) (some g)))
          ∧ (typeNotMatchNamed conv ("[]" ++ target.name) (some g)).Code = ErrTypeMatch) := by
  refine ⟨?_, ?_, ?_, ?_, ?_, ?_, ?_, ?_⟩
  · intro elems h
    simp only [valueToSlice, valueToAny, sliceAssert, h, if_true]
  · intro elems h
    obtain ⟨m, hm, hmap⟩ := assertElems_ok target ro elems h
    refine ⟨m, hm, ?_, hmap⟩
    have := congrArg List.length hmap
    simpa using this
  · intro elems h
    simp only [valueToSlice, valueToAny, sliceAssert, h, Bool.false_eq_true, if_false]
  · intro elems h
    exact assertElems_fail target ro elems h
  · intro v h1 h2
    cases v with
    | invalid => rfl
    | val ro g => cases g <;> first | rfl | exact absurd rfl h1 | exact absurd rfl h2
  · intro result g value herr hv hsa htc
    simp only [resultToSlice, herr, hv, hsa, valueOf, Value.isValid, htc, Bool.not_true,
      Bool.false_eq_true, if_false]
  · intro result herr hv
    refine ⟨?_, rfl⟩
    simp only [resultToSlice, herr, hv, sliceAssert, valueOf, Value.isValid, Bool.not_false,
      Bool.false_eq_true, if_false, if_true]
  · intro result g e herr hv hsa htc
    refine ⟨?_, rfl⟩
    simp only [resultToSlice, herr, hv, hsa, valueOf, Value.isValid, htc, Bool.not_true,
      Bool.false_eq_true, if_false]

/-- C32 (amended) on the rows of `TestAnyToSlice` for `E = int`, on the array
`[1, 2]`, and on `resultToSlice` for a string and for a nil value. -/
theorem C32_witness :
    valueToSlice elemGeneric .int (.val false (.slice [.int .int 1])) = some [.int .int 1]
    ∧ valueToSlice elemGeneric .int (.val false (.slice [.str "1"])) = none
    ∧ valueToSlice elemGeneric .int (.val false (.str "string1")) = none
    ∧ valueToSlice elemGeneric .int .invalid = none
    ∧ (∃ m, valueToSlice elemGeneric .int (.val false (.array [.int .int 1, .int .int 2]))
          = some m ∧ m.length = 2
        ∧ m.map (fun x => valueToAny (.val false x)) = [some (.int .int 1), some (.int .int 2)])
    ∧ resultToSlice plainLib plainConv elemGeneric .int
          { val := .val false (.str "string1"), err := none } false
        = .ok (none, none)
    ∧ resultToSlice plainLib plainConv elemGeneric .int { val := .invalid, err := none } false
        = .ok (none, some (typeNotMatchNamed plainConv ("[]" ++ Target.int.name) none)) :=
  ⟨(C32_valueToSlice plainLib plainConv elemGeneric .int false).1 [.int .int 1] (by rfl),
   (C32_valueToSlice plainLib plainConv elemGeneric .int false).2.2.1 [.str "1"] (by rfl),
   (C32_valueToSlice plainLib plainConv elemGeneric .int false).2.2.2.2.1
     (.val false (.str "string1")) (by decide) (by decide),
   by rfl,
   (C32_valueToSlice plainLib plainConv elemGeneric .int false).2.1
     [.int .int 1, .int .int 2] (by
       intro e he
       simp only [List.mem_cons, List.mem_singleton, List.not_mem_nil, or_false] at he
       rcases he with h | h <;> subst h <;> rfl),
   (C32_valueToSlice plainLib plainConv elemGeneric .int false).2.2.2.2.2.1
     { val := .val false (.str "string1"), err := none } (.str "string1")
     (.val false (.str "string1")) rfl rfl (by rfl) (by rfl),
   ((C32_valueToSlice plainLib plainConv elemGeneric .int false).2.2.2.2.2.2.1
     { val := .invalid, err := none } rfl rfl).1⟩

/-! ## C38: the order in which the keys of a map are enumerated -/

theorem lookupKey_isSome_iff (key : MapKey) (entries : List (MapKey × GoVal)) :
    (lookupKey key entries).isSome = true ↔ key ∈ entries.map Prod.fst := by
  constructor
  · intro h
    cases hl : lookupKey key entries with
    | none => rw [hl] at h; cases h
    | some V => exact lookupKey_mem key V entries hl
  · intro h
    by_contra hc
    have hn : lookupKey key entries = none := by
      cases hl : lookupKey key entries with
      | none => rfl
      | some V => rw [hl] at hc; exact absurd rfl hc
    induction entries with
    | nil => simp at h
    | cons kv rest ih =>
      obtain ⟨k, v⟩ := kv
      by_cases hk : k = key
      · simp [lookupKey, hk] at hn
      · simp only [lookupKey, hk, if_false] at hn
        simp only [List.map_cons, List.mem_cons] at h
        rcases h with h | h
        · exact hk h.symm
        · exact ih h (by rw [hn]; simp) hn

/-- The key found by the loop over the keys is the first of the keys that match, or
the key as it is when none does. -/
theorem searchMapKeys_spec (lib : Lib) (currentKey : String) (keyValue : MapKey) :
    ∀ entries : List (MapKey × GoVal),
      (∃ a ∈ entries.map Prod.fst,
          trimSpace (toLower lib a.string) = trimSpace (toLower lib currentKey)
            ∧ searchMapKeys lib currentKey keyValue entries = a)
      ∨ ((∀ a ∈ entries.map Prod.fst,
            trimSpace (toLower lib a.string) ≠ trimSpace (toLower lib currentKey))
          ∧ searchMapKeys lib currentKey keyValue entries = keyValue)
  | [] => Or.inr ⟨by simp, rfl⟩
  | (k, v) :: rest => by
    by_cases hm : trimSpace (toLower lib k.string) = trimSpace (toLower lib currentKey)
    · left
      refine ⟨k, by simp, hm, ?_⟩
      simp only [searchMapKeys, hm, beq_self_eq_true, if_true]
    · have hb : (trimSpace (toLower lib k.string) == trimSpace (toLower lib currentKey)) = false :=
        beq_eq_false_iff_ne.2 hm
      rcases searchMapKeys_spec lib currentKey keyValue rest with ⟨a, ha, hma, hs⟩ | ⟨hnone, hs⟩
      · left
        refine ⟨a, by simp [ha], hma, ?_⟩
        simp only [searchMapKeys, hb, Bool.false_eq_true, if_false, hs]
      · right
        refine ⟨?_, ?_⟩
        · intro a ha
          simp only [List.map_cons, List.mem_cons] at ha
          rcases ha with ha | ha
          · subst ha; exact hm
          · exact hnone a ha
        · simp only [searchMapKeys, hb, Bool.false_eq_true, if_false, hs]

/-- C38: for every map with string keys and every key `k` such that `k` is a key of the
map, or at most one key of the map equals `k` after lower-casing and trimming, the key
chosen by `findMapKeyValue` with `caseSensitive = false` is the same for every order
in which the keys of the map are enumerated.  Lower-casing is that of
`strings.ToLower`, for every Unicode case table. -/
theorem C38_lookup_deterministic (lib : Lib) (ro1 ro2 : Bool)
    (entries1 entries2 : List (MapKey × GoVal)) (k : String)
    (hperm : entries1.Perm entries2)
    (h : MapKey.str k ∈ entries1.map Prod.fst
      ∨ ∀ a ∈ entries1.map Prod.fst, ∀ b ∈ entries1.map Prod.fst,
          trimSpace (toLower lib a.string) = trimSpace (toLower lib k) →
          trimSpace (toLower lib b.string) = trimSpace (toLower lib k) → a = b) :
    findMapKeyValue lib (.val ro1 (.map .string entries1)) k false
      = findMapKeyValue lib (.val ro2 (.map .string entries2)) k false := by
  have hmem : ∀ a, a ∈ entries1.map Prod.fst ↔ a ∈ entries2.map Prod.fst :=
    fun a => (hperm.map Prod.fst).mem_iff
  simp only [findMapKeyValue, ne_eq, not_true_eq_false, if_false, Bool.false_eq_true]
  by_cases hk : MapKey.str k ∈ entries1.map Prod.fst
  · have h1 := (lookupKey_isSome_iff (.str k) entries1).2 hk
    have h2 := (lookupKey_isSome_iff (.str k) entries2).2 ((hmem _).1 hk)
    simp only [h1, h2, if_true]
  · have h1 : (lookupKey (.str k) entries1).isSome = false := by
      cases hl : (lookupKey (.str k) entries1).isSome with
      | false => rfl
      | true => exact absurd ((lookupKey_isSome_iff _ _).1 hl) hk
    have h2 : (lookupKey (.str k) entries2).isSome = false := by
      cases hl : (lookupKey (.str k) entries2).isSome with
      | false => rfl
      | true => exact absurd ((hmem _).2 ((lookupKey_isSome_iff _ _).1 hl)) hk
    simp only [h1, h2, Bool.false_eq_true, if_false]
    have huniq := h.resolve_left hk
    rcases searchMapKeys_spec lib k (.str k) entries1 with ⟨a, ha, hma, hs1⟩ | ⟨hn1, hs1⟩
    · rcases searchMapKeys_spec lib k (.str k) entries2 with ⟨b, hb, hmb, hs2⟩ | ⟨hn2, hs2⟩
      · rw [hs1, hs2]
        exact huniq a ha b ((hmem _).2 hb) hma hmb
      · exact absurd hma (hn2 a ((hmem _).1 ha))
    · rcases searchMapKeys_spec lib k (.str k) entries2 with ⟨b, hb, hmb, hs2⟩ | ⟨hn2, hs2⟩
      · exact absurd hmb (hn1 b ((hmem _).2 hb))
      · rw [hs1, hs2]

/-- C38 on two orders of a map with the keys `Ab` and `cd`, looked up by `ab`.  The
condition cannot be dropped: of the keys `äB` and `ÄB`, which both equal `Äb` after
lower-casing, the one enumerated first is chosen. -/
theorem C38_witness :
    findMapKeyValue plainLib
        (.val false (.map .string [(.str "Ab", .int .int 1), (.str "cd", .int .int 2)])) "ab"
        false
      = findMapKeyValue plainLib
          (.val false (.map .string [(.str "cd", .int .int 2), (.str "Ab", .int .int 1)])) "ab"
          false
    ∧ findMapKeyValue plainLib
        (.val false (.map .string [(.str "Ab", .int .int 1), (.str "cd", .int .int 2)])) "ab"
        false
      = .str "Ab"
    ∧ findMapKeyValue plainLib
        (.val false (.map .string [(.str "äB", .int .int 2), (.str "ÄB", .int .int 1)])) "Äb"
        false
      = .str "äB"
    ∧ findMapKeyValue plainLib
        (.val false (.map .string [(.str "ÄB", .int .int 1), (.str "äB", .int .int 2)])) "Äb"
        false
      = .str "ÄB" :=
  ⟨C38_lookup_deterministic plainLib false false
      [(.str "Ab", .int .int 1), (.str "cd", .int .int 2)]
      [(.str "cd", .int .int 2), (.str "Ab", .int .int 1)] "ab"
      (List.Perm.swap _ _ _)
      (Or.inr (by
        intro a ha b hb hma hmb
        simp only [List.map_cons, List.map_nil, List.mem_cons, List.mem_singleton,
          List.not_mem_nil, or_false] at ha hb
        rcases ha with ha | ha <;> rcases hb with hb | hb <;> subst ha <;> subst hb
        · rfl
        · exact absurd hmb (by decide)
        · exact absurd hma (by decide)
        · rfl)),
   by rfl, by rfl, by rfl⟩


/-! ## C34: path composition -/

theorem query_invalid (lib : Lib) (caseSensitive safe : Bool) (keys : List String) :
    query lib .invalid caseSensitive safe keys
      = .err (newQueryError none ErrNotFound "invalid value") := by
  rw [query_unfold]
  rfl

/-- The sequence navigator on a key that is an index and neither `first` nor `last`:
the recursive call on one element, or an error that depends on the key alone. -/
theorem querySeq_plain_cases (lib : Lib) (safe ro : Bool) (elems : List GoVal) (k : String)
    (hk : containsEq k = false) (hf : toLower lib k ≠ "first") (hl : toLower lib k ≠ "last") :
    (∃ e, ∀ recur rest, querySeq lib recur safe ro elems k rest = recur (.val ro e) rest)
    ∨ (∃ err, ∀ recur rest, querySeq lib recur safe ro elems k rest = .err err) := by
  cases ha : atoi k with
  | error convErr =>
    right
    refine ⟨newQueryError (some (.num convErr)) ErrNotFound ("[slice] invalid key: " ++ k),
      fun recur rest => ?_⟩
    unfold querySeq
    simp only [hk, Bool.false_eq_true, if_false, beq_iff_eq, hf, hl, ha]
  | ok i =>
    by_cases hr : -(elems.length : Int) ≤ i ∧ i < (elems.length : Int)
    · left
      obtain ⟨e, he, _⟩ := querySeq_index lib (fun _ _ => Outcome.panic "") safe ro elems k [] i hk
        hf hl ha hr.1 hr.2
      refine ⟨e, fun recur rest => ?_⟩
      obtain ⟨e2, he2, hq⟩ := querySeq_index lib recur safe ro elems k rest i hk hf hl ha
        hr.1 hr.2
      rw [he] at he2
      cases he2
      exact hq
    · right
      refine ⟨newQueryError none ErrNotFound ("[slice] invalid key: " ++ k),
        fun recur rest => ?_⟩
      have hd : (decide (i ≥ (elems.length : Int)) || decide (i < -(elems.length : Int)))
          = true := by
        simp only [Bool.or_eq_true, decide_eq_true_eq]
        omega
      unfold querySeq
      simp only [hk, Bool.false_eq_true, if_false, beq_iff_eq, hf, hl, ha, hd, if_true]

theorem querySeq_cases (lib : Lib) (safe ro : Bool) (elems : List GoVal) (k : String)
    (hk : containsEq k = false) :
    (∃ e, ∀ recur rest, querySeq lib recur safe ro elems k rest = recur (.val ro e) rest)
    ∨ (∃ err, ∀ recur rest, querySeq lib recur safe ro elems k rest = .err err) := by
  by_cases hf : toLower lib k = "first"
  · rcases querySeq_plain_cases lib safe ro elems "0" (by decide)
        (by rw [toLower_zero]; decide) (by rw [toLower_zero]; decide) with
      ⟨e, h⟩ | ⟨err, h⟩
    · exact Or.inl ⟨e, fun recur rest => by rw [querySeq_first lib recur safe ro elems k rest hf, h]⟩
    · exact Or.inr ⟨err, fun recur rest => by
        rw [querySeq_first lib recur safe ro elems k rest hf, h]⟩
  · by_cases hl : toLower lib k = "last"
    · rcases querySeq_plain_cases lib safe ro elems (itoa ((elems.length : Int) - 1))
          (containsEq_itoa _) (toLower_itoa_ne_first lib _) (toLower_itoa_ne_last lib _) with
        ⟨e, h⟩ | ⟨err, h⟩
      · exact Or.inl ⟨e, fun recur rest => by
          rw [querySeq_last lib recur safe ro elems k rest hl, h]⟩
      · exact Or.inr ⟨err, fun recur rest => by
          rw [querySeq_last lib recur safe ro elems k rest hl, h]⟩
    · exact querySeq_plain_cases lib safe ro elems k hk hf hl

theorem isValid_val (ro : Bool) (g : GoVal) : (Value.val ro g).isValid = true := rfl

theorem isValid_invalid : Value.invalid.isValid = false := rfl

theorem kind_map_cases (g : GoVal) (h : g.kind = .Map) :
    (∃ kt, g = .nilMap kt) ∨ ∃ kt entries, g = .map kt entries := by
  cases g <;> first
    | exact Or.inl ⟨_, rfl⟩
    | exact Or.inr ⟨_, _, rfl⟩
    | exact absurd h (intKind_kind _).2.2.2.1
    | exact absurd h (uintKind_kind _).2.2.2.1
    | exact absurd h (floatKind_kind _).2.2.2.1
    | exact absurd h (complexKind_kind _).2.2.2.1
    | exact Kind.noConfusion h

theorem kind_struct_cases (g : GoVal) (h : g.kind = .Struct) : ∃ fields, g = .struct fields := by
  cases g <;> first
    | exact ⟨_, rfl⟩
    | exact absurd h (intKind_kind _).2.2.2.2.1
    | exact absurd h (uintKind_kind _).2.2.2.2.1
    | exact absurd h (floatKind_kind _).2.2.2.2.1
    | exact absurd h (complexKind_kind _).2.2.2.2.1
    | exact Kind.noConfusion h

theorem kind_seq_cases (g : GoVal) (h : g.kind = .Slice ∨ g.kind = .Array) :
    ∃ elems, g = .slice elems ∨ g = .array elems := by
  rcases h with h | h
  · cases g <;> first
      | exact ⟨_, Or.inl rfl⟩
      | exact absurd h (intKind_kind _).2.2.2.2.2.1
      | exact absurd h (uintKind_kind _).2.2.2.2.2.1
      | exact absurd h (floatKind_kind _).2.2.2.2.2.1
      | exact absurd h (complexKind_kind _).2.2.2.2.2.1
      | exact Kind.noConfusion h
  · cases g <;> first
      | exact ⟨_, Or.inr rfl⟩
      | exact absurd h (intKind_kind _).2.2.2.2.2.2
      | exact absurd h (uintKind_kind _).2.2.2.2.2.2
      | exact absurd h (floatKind_kind _).2.2.2.2.2.2
      | exact absurd h (complexKind_kind _).2.2.2.2.2.2
      | exact Kind.noConfusion h

theorem mapStep_cases (k : String) (w : Value) (key : MapKey) :
    (∃ fv, fv.isValid = true ∧ ∀ (recur : Value → List String → Outcome) (rest : List String),
      (match mapIndex w key with
        | .panic m => Outcome.panic m
        | .err e => .err e
        | .ok fieldValue =>
          if !fieldValue.isValid then
            .err (newQueryError none ErrNotFound ("[map] value not found by key " ++ k))
          else
            match recur fieldValue rest with
            | .panic m => .panic m
            | .err err =>
              .err (newQueryError (some (.query err)) ErrNotFound
                ("[map] query keys: " ++ fmtKeys rest))
            | .ok value => .ok value) = recur fv rest)
    ∨ (∃ e, ∀ (recur : Value → List String → Outcome) (rest : List String),
      (match mapIndex w key with
        | .panic m => Outcome.panic m
        | .err e => .err e
        | .ok fieldValue =>
          if !fieldValue.isValid then
            .err (newQueryError none ErrNotFound ("[map] value not found by key " ++ k))
          else
            match recur fieldValue rest with
            | .panic m => .panic m
            | .err err =>
              .err (newQueryError (some (.query err)) ErrNotFound
                ("[map] query keys: " ++ fmtKeys rest))
            | .ok value => .ok value) = .err e)
    ∨ (∃ m, ∀ (recur : Value → List String → Outcome) (rest : List String),
      (match mapIndex w key with
        | .panic m => Outcome.panic m
        | .err e => .err e
        | .ok fieldValue =>
          if !fieldValue.isValid then
            .err (newQueryError none ErrNotFound ("[map] value not found by key " ++ k))
          else
            match recur fieldValue rest with
            | .panic m => .panic m
            | .err err =>
              .err (newQueryError (some (.query err)) ErrNotFound
                ("[map] query keys: " ++ fmtKeys rest))
            | .ok value => .ok value) = .panic m) := by
  cases hmi : mapIndex w key with
  | panic m => exact Or.inr (Or.inr ⟨m, fun _ _ => rfl⟩)
  | err e => exact Or.inr (Or.inl ⟨e, fun _ _ => rfl⟩)
  | ok fv =>
    by_cases hfv : fv.isValid = true
    · left
      refine ⟨fv, hfv, fun recur rest => ?_⟩
      simp only [hfv, Bool.not_true, Bool.false_eq_true, if_false]
      exact outcome_rewrap _ _
    · right; left
      refine ⟨newQueryError none ErrNotFound ("[map] value not found by key " ++ k),
        fun recur rest => ?_⟩
      simp [hfv]

/-- One key that is not a filter: `query` goes on with the remaining keys on one
element, or fails or panics whatever keys remain. -/
theorem queryStep_cases (lib : Lib) (v : Value) (caseSensitive safe : Bool) (k : String)
    (hk : containsEq k = false) :
    (∃ w, w.isValid = true
        ∧ ∀ recur rest, queryStep lib recur v caseSensitive safe (k :: rest) = recur w rest)
    ∨ (∃ e, ∀ recur rest, queryStep lib recur v caseSensitive safe (k :: rest) = .err e)
    ∨ (∃ m, ∀ recur rest, queryStep lib recur v caseSensitive safe (k :: rest) = .panic m) := by
  by_cases hv : v.isValid = true
  swap
  · right; left
    refine ⟨newQueryError none ErrNotFound "invalid value", fun recur rest => ?_⟩
    simp [queryStep, hv]
  cases htc : toConcreteElem lib v safe 0 with
  | panic m =>
    right; right
    refine ⟨m, fun recur rest => ?_⟩
    simp [queryStep, hv, htc]
  | err e =>
    right; left
    refine ⟨e, fun recur rest => ?_⟩
    simp [queryStep, hv, htc, newQueryError]
  | ok w =>
    by_cases hm : w.kind = .Map
    · cases w with
      | invalid => exact absurd hm (by decide)
      | val ro g =>
        have hg : ∃ g2, g = g2 ∧ ((∃ kt, g2 = .nilMap kt) ∨ ∃ kt entries, g2 = .map kt entries) :=
          ⟨g, rfl, kind_map_cases g hm⟩
        have hstep : ∀ (recur : Value → List String → Outcome) (rest : List String),
            queryStep lib recur v caseSensitive safe (k :: rest)
              = (match mapIndex (.val ro g) (findMapKeyValue lib (.val ro g) k caseSensitive) with
                  | .panic m => Outcome.panic m
                  | .err e => .err e
                  | .ok fieldValue =>
                    if !fieldValue.isValid then
                      .err (newQueryError none ErrNotFound
                        ("[map] value not found by key " ++ k))
                    else
                      match recur fieldValue rest with
                      | .panic m => .panic m
                      | .err err =>
                        .err (newQueryError (some (.query err)) ErrNotFound
                          ("[map] query keys: " ++ fmtKeys rest))
                      | .ok value => .ok value) := by
          intro recur rest
          rcases kind_map_cases g hm with ⟨kt, hg⟩ | ⟨kt, entries, hg⟩ <;> subst hg <;>
            simp only [queryStep, hv, htc, Bool.not_true, Bool.false_eq_true, if_false]
        rcases mapStep_cases k (.val ro g) (findMapKeyValue lib (.val ro g) k caseSensitive) with
          ⟨fv, hfv, h⟩ | ⟨e, h⟩ | ⟨m, h⟩
        · exact Or.inl ⟨fv, hfv, fun recur rest => by rw [hstep, h]⟩
        · exact Or.inr (Or.inl ⟨e, fun recur rest => by rw [hstep, h]⟩)
        · exact Or.inr (Or.inr ⟨m, fun recur rest => by rw [hstep, h]⟩)
    by_cases hst : w.kind = .Struct
    · cases w with
      | invalid => exact absurd hst (by decide)
      | val ro g =>
        obtain ⟨fields, hg⟩ := kind_struct_cases g hst
        subst hg
        cases hfb : fieldByName fields (findStructFieldName lib fields k caseSensitive) with
        | none =>
          right; left
          cases safe with
          | true =>
            refine ⟨newQueryError none ErrNotFound ("[struct] field " ++ k ++ " not exists"),
              fun recur rest => ?_⟩
            simp only [queryStep, hv, htc, hfb, Bool.not_true, Bool.false_eq_true, if_false,
              if_true]
          | false =>
            refine ⟨newQueryError none ErrNotFound
                ("[struct] value not found by field "
                  ++ findStructFieldName lib fields k caseSensitive),
              fun recur rest => ?_⟩
            simp only [queryStep, hv, htc, hfb, fieldValueByName, isValid_val, isValid_invalid, Bool.not_true,
              Bool.false_eq_true, if_false, Bool.not_false, if_true]
        | some f =>
          obtain ⟨n, exported, V⟩ := f
          by_cases hgate : safe = true ∧ exported = false
          · right; left
            obtain ⟨hs, he⟩ := hgate
            subst hs
            subst he
            refine ⟨newQueryError none ErrNotFound ("[struct] field " ++ k ++ " not exported"),
              fun recur rest => ?_⟩
            simp only [queryStep, hv, htc, hfb, Bool.not_true, Bool.false_eq_true, if_false,
              if_true, Bool.not_false]
          · left
            refine ⟨.val (ro || !exported) V, rfl, fun recur rest => ?_⟩
            have hcases : safe = false ∨ exported = true := by
              cases safe <;> cases exported <;> simp at hgate ⊢
            rcases hcases with hs | he
            · subst hs
              simp only [queryStep, hv, htc, hfb, fieldValueByName, isValid_val, isValid_invalid,
                Bool.not_true, Bool.false_eq_true, if_false]
              exact outcome_rewrap _ _
            · subst he
              simp only [queryStep, hv, htc, hfb, fieldValueByName, isValid_val, isValid_invalid,
                Bool.not_true, Bool.false_eq_true, if_false, ite_self]
              exact outcome_rewrap _ _
    by_cases hsq : w.kind = .Slice ∨ w.kind = .Array
    · cases w with
      | invalid => rcases hsq with h | h <;> exact absurd h (by decide)
      | val ro g =>
        obtain ⟨elems, hg⟩ := kind_seq_cases g hsq
        have hstep : ∀ (recur : Value → List String → Outcome) (rest : List String),
            queryStep lib recur v caseSensitive safe (k :: rest)
              = querySeq lib recur safe ro elems k rest := by
          intro recur rest
          rcases hg with hg | hg <;> subst hg <;>
            simp only [queryStep, hv, htc, Bool.not_true, Bool.false_eq_true, if_false]
        rcases querySeq_cases lib safe ro elems k hk with ⟨e, h⟩ | ⟨err, h⟩
        · exact Or.inl ⟨.val ro e, rfl, fun recur rest => by rw [hstep, h]⟩
        · exact Or.inr (Or.inl ⟨err, fun recur rest => by rw [hstep, h]⟩)
    · right; left
      refine ⟨newQueryError none ErrNotFound ("invalid kind: " ++ kindName w.kind),
        fun recur rest => ?_⟩
      simp only [queryStep, hv, htc, Bool.not_true, Bool.false_eq_true, if_false]
      exact queryStep_non_container lib recur w caseSensitive safe k rest
        ⟨hm, hst, fun h => hsq (Or.inl h), fun h => hsq (Or.inr h)⟩

theorem query_cons_cases (lib : Lib) (v : Value) (caseSensitive safe : Bool) (k : String)
    (hk : containsEq k = false) :
    (∃ w, w.isValid = true
        ∧ ∀ rest, query lib v caseSensitive safe (k :: rest) = query lib w caseSensitive safe rest)
    ∨ (∃ e, ∀ rest, query lib v caseSensitive safe (k :: rest) = .err e)
    ∨ (∃ m, ∀ rest, query lib v caseSensitive safe (k :: rest) = .panic m) := by
  rcases queryStep_cases lib v caseSensitive safe k hk with ⟨w, hw, h⟩ | ⟨e, h⟩ | ⟨m, h⟩
  · exact Or.inl ⟨w, hw, fun rest => by rw [query_unfold, h]⟩
  · exact Or.inr (Or.inl ⟨e, fun rest => by rw [query_unfold, h]⟩)
  · exact Or.inr (Or.inr ⟨m, fun rest => by rw [query_unfold, h]⟩)

theorem query_nil_valid (lib : Lib) (w : Value) (caseSensitive safe : Bool)
    (hw : w.isValid = true) : query lib w caseSensitive safe [] = .ok w := by
  cases w with
  | invalid => cases hw
  | val ro g => exact query_nil lib ro g caseSensitive safe

/-- The outcome of `query` on the keys `ks1` followed by `ks2`, no key of `ks1` being a
filter: the outcome of `ks2` on the result of `ks1`, or the failure of `ks1`. -/
theorem query_append (lib : Lib) (caseSensitive safe : Bool) (ks2 : List String) :
    ∀ (ks1 : List String) (v : Value), (∀ k ∈ ks1, containsEq k = false) →
      query lib v caseSensitive safe (ks1 ++ ks2)
        = (match query lib v caseSensitive safe ks1 with
            | .ok w => query lib w caseSensitive safe ks2
            | .err e => .err e
            | .panic m => .panic m)
  | [], v, _ => by
    cases v with
    | invalid => simp only [List.nil_append, query_invalid]
    | val ro g => simp only [List.nil_append, query_nil]
  | k :: ks, v, h => by
    have hk : containsEq k = false := h k (List.mem_cons_self _ _)
    have hks : ∀ x ∈ ks, containsEq x = false := fun x hx => h x (List.mem_cons_of_mem _ hx)
    rcases query_cons_cases lib v caseSensitive safe k hk with ⟨w, _, hw⟩ | ⟨e, he⟩ | ⟨m, hm⟩
    · rw [List.cons_append, hw, hw, query_append lib caseSensitive safe ks2 ks w hks]
    · rw [List.cons_append, he, he]
    · rw [List.cons_append, hm, hm]

/-- C34: path composition: for every Value, flags and key lists `ks1` and `ks2`, no key
of `ks1` containing `=`: when `query` on `ks1` returns `w`, `query` on `ks1 ++ ks2`
gives the outcome of `query` on `w` and `ks2`, and when `query` on `ks1` fails,
`query` on `ks1 ++ ks2` fails with the same error. -/
theorem C34_path_composition (lib : Lib) (v : Value) (caseSensitive safe : Bool)
    (ks1 ks2 : List String) (h1 : ∀ k ∈ ks1, containsEq k = false) :
    (∀ w, query lib v caseSensitive safe ks1 = .ok w →
        query lib v caseSensitive safe (ks1 ++ ks2) = query lib w caseSensitive safe ks2)
    ∧ (∀ e, query lib v caseSensitive safe ks1 = .err e →
        query lib v caseSensitive safe (ks1 ++ ks2) = .err e) := by
  have h := query_append lib caseSensitive safe ks2 ks1 v h1
  constructor
  · intro w hw
    rw [h, hw]
  · intro e he
    rw [h, he]

/-- C34 on the nested map: the key `a` followed by the key `x`, and the missing key `b`
followed by `x`. -/
theorem C34_witness :
    query plainLib (.val false nestedMap) false false (["a"] ++ ["x"])
        = query plainLib (.val false (.iface (.map .string [(.str "x", .iface (.int .int 1))])))
            false false ["x"]
    ∧ query plainLib (.val false nestedMap) false false ["a", "x"]
        = .ok (.val false (.iface (.int .int 1)))
    ∧ query plainLib (.val false nestedMap) false false (["b"] ++ ["x"])
        = .err (newQueryError none ErrNotFound "[map] value not found by key b") :=
  ⟨(C34_path_composition plainLib (.val false nestedMap) false false ["a"] ["x"]
      (by decide)).1 _ (by rfl),
   by rfl,
   (C34_path_composition plainLib (.val false nestedMap) false false ["b"] ["x"]
      (by decide)).2 _ (by rfl)⟩

/-! ## C23: the error of a failure below the top level -/

/-- The message of an error that has no cause is its code and its detail. -/
theorem error_message_no_cause (quote : String → String) (e : QueryError)
    (hc : e.cause = none) (hd : e.Detail ≠ "") :
    e.Error quote = "QueryError[" ++ itoa e.Code ++ "]: " ++ e.Detail := by
  simp only [QueryError.Error, hc, bne_iff_ne, ne_eq, hd, not_false_eq_true, if_true,
    beq_self_eq_true]

/-- C23 (amended): let the keys `ks1`, none of them a filter, resolve on `v` to the
value `w`, and let the keys `ks2` fail on `w` with the error `e`.  Then the error
returned by `query` for the whole path `ks1 ++ ks2` is `e` itself: same code, same
detail, same cause and same message; no context of the enclosing levels is added.
When `e` has no cause (as for a missing key of a map), the message is the code and the
detail of `e` alone. -/
theorem C23_inner_error_unchanged (lib : Lib) (caseSensitive safe : Bool)
    (ks1 ks2 : List String) (v w : Value) (e : QueryError)
    (hks : ∀ k ∈ ks1, containsEq k = false)
    (h1 : query lib v caseSensitive safe ks1 = .ok w)
    (h2 : query lib w caseSensitive safe ks2 = .err e) :
    query lib v caseSensitive safe (ks1 ++ ks2) = .err e
    ∧ (∃ e1, query lib v caseSensitive safe (ks1 ++ ks2) = .err e1
        ∧ e1.Code = e.Code ∧ e1.Detail = e.Detail ∧ e1.Cause = e.Cause
        ∧ ∀ quote, e1.Error quote = e.Error quote)
    ∧ (e.Cause = none → e.Detail ≠ "" →
        ∃ e1, query lib v caseSensitive safe (ks1 ++ ks2) = .err e1
          ∧ ∀ quote, e1.Error quote = "QueryError[" ++ itoa e.Code ++ "]: " ++ e.Detail) := by
  have h : query lib v caseSensitive safe (ks1 ++ ks2) = .err e := by
    rw [query_append lib caseSensitive safe ks2 ks1 v hks, h1]
    exact h2
  exact ⟨h, ⟨e, h, rfl, rfl, rfl, fun _ => rfl⟩,
    fun hc hd => ⟨e, h, fun quote => error_message_no_cause quote e hc hd⟩⟩

/-- C23 (amended) on the nested map: the failure of the key `b` in the inner map is
the failure of the path `a`, `b`, and its message is that of the inner error alone.
On the struct `tagged`: the failure of the key `zz` in the slice is the failure of the
path `tags`, `zz`; this inner error has a cause of its own, which its message shows. -/
theorem C23_witness :
    query plainLib (.val false nestedMap) false false (["a"] ++ ["b"])
      = .err { Code := ErrNotFound, Detail := "[map] value not found by key b", cause := none }
    ∧ (∃ e1, query plainLib (.val false nestedMap) false false (["a"] ++ ["b"]) = .err e1
        ∧ ∀ quote, e1.Error quote
            = "QueryError[" ++ itoa ErrNotFound ++ "]: " ++ "[map] value not found by key b")
    ∧ "QueryError[" ++ itoa ErrNotFound ++ "]: " ++ "[map] value not found by key b"
        = "QueryError[1]: [map] value not found by key b"
    ∧ query plainLib (.val false tagged) false false (["tags"] ++ ["zz"])
        = .err { Code := ErrNotFound, Detail := "[slice] invalid key: zz",
                 cause := some { Func := "Atoi", Num := "zz", Err := .ErrSyntax } }
    ∧ QueryError.Error plainQuote
          { Code := ErrNotFound, Detail := "[slice] invalid key: zz",
            cause := some { Func := "Atoi", Num := "zz", Err := .ErrSyntax } }
        = "QueryError[1]: strconv.Atoi: parsing \"zz\": invalid syntax -> [slice] invalid key: zz" :=
  ⟨(C23_inner_error_unchanged plainLib false false ["a"] ["b"] (.val false nestedMap)
      (.val false (.iface (.map .string [(.str "x", .iface (.int .int 1))])))
      { Code := ErrNotFound, Detail := "[map] value not found by key b", cause := none }
      (by decide) (by rfl) (by rfl)).1,
   (C23_inner_error_unchanged plainLib false false ["a"] ["b"] (.val false nestedMap)
      (.val false (.iface (.map .string [(.str "x", .iface (.int .int 1))])))
      { Code := ErrNotFound, Detail := "[map] value not found by key b", cause := none }
      (by decide) (by rfl) (by rfl)).2.2 rfl (by decide),
   by decide,
   (C23_inner_error_unchanged plainLib false false ["tags"] ["zz"] (.val false tagged)
      (.val true (.slice [.iface (.str "tag1"), .iface (.str "tag2"),
        .iface (.map .string [(.str "d", .iface (.str "d"))]), .iface (.str "addr")]))
      { Code := ErrNotFound, Detail := "[slice] invalid key: zz",
        cause := some { Func := "Atoi", Num := "zz", Err := .ErrSyntax } }
      (by decide) (by rfl) (by rfl)).1,
   by decide⟩

/-! ## C36: case-sensitive matching -/

/-- One key that is not a filter and resolves with case-sensitive matching resolves to
the same element without it. -/
theorem query_single_mono (lib : Lib) (v : Value) (safe : Bool) (k : String) (r : Value)
    (hk : containsEq k = false) (h : query lib v true safe [k] = .ok r) :
    query lib v false safe [k] = .ok r := by
  rw [query_unfold] at h ⊢
  by_cases hv : v.isValid = true
  swap
  · simp [queryStep, hv] at h
  cases htc : toConcreteElem lib v safe 0 with
  | panic m => simp [queryStep, hv, htc] at h
  | err e => simp [queryStep, hv, htc] at h
  | ok c =>
    by_cases hm : c.kind = .Map
    · cases c with
      | invalid => exact absurd hm (by decide)
      | val ro g =>
        rcases kind_map_cases g hm with ⟨kt, hg⟩ | ⟨kt, entries, hg⟩ <;> subst hg
        · simp only [queryStep, hv, htc, findMapKeyValue, Bool.not_true, Bool.false_eq_true,
            if_false] at h ⊢
          exact h
        · by_cases hkt : kt = .string
          · subst hkt
            cases hl : lookupKey (.str k) entries with
            | none =>
              simp [queryStep, hv, htc, findMapKeyValue, mapIndex, hl, isValid_invalid] at h
            | some V =>
              simp only [queryStep, hv, htc, findMapKeyValue, hl, Bool.not_true,
                Bool.false_eq_true, if_false, ne_eq, not_true_eq_false, if_true,
                Option.isSome_some] at h ⊢
              exact h
          · simp only [queryStep, hv, htc, findMapKeyValue, hkt, Bool.not_true,
              Bool.false_eq_true, if_false, ne_eq, not_false_eq_true, if_true] at h ⊢
            exact h
    by_cases hst : c.kind = .Struct
    · cases c with
      | invalid => exact absurd hst (by decide)
      | val ro g =>
        obtain ⟨fields, hg⟩ := kind_struct_cases g hst
        subst hg
        cases hfb : fieldByName fields k with
        | none =>
          cases safe <;>
            simp [queryStep, hv, htc, findStructFieldName, hfb, fieldValueByName,
              isValid_invalid] at h
        | some f =>
          simp only [queryStep, hv, htc, findStructFieldName, hfb, Bool.not_true,
            Bool.false_eq_true, if_false, if_true, Option.isSome_some] at h ⊢
          exact h
    by_cases hsq : c.kind = .Slice ∨ c.kind = .Array
    · cases c with
      | invalid => rcases hsq with h1 | h1 <;> exact absurd h1 (by decide)
      | val ro g =>
        obtain ⟨elems, hg⟩ := kind_seq_cases g hsq
        have hstep : ∀ (recur : Value → List String → Outcome),
            queryStep lib recur v true safe [k] = querySeq lib recur safe ro elems k [] := by
          intro recur
          rcases hg with hg | hg <;> subst hg <;>
            simp only [queryStep, hv, htc, Bool.not_true, Bool.false_eq_true, if_false]
        have hstep2 : ∀ (recur : Value → List String → Outcome),
            queryStep lib recur v false safe [k] = querySeq lib recur safe ro elems k [] := by
          intro recur
          rcases hg with hg | hg <;> subst hg <;>
            simp only [queryStep, hv, htc, Bool.not_true, Bool.false_eq_true, if_false]
        rw [hstep] at h
        rw [hstep2]
        rcases querySeq_cases lib safe ro elems k hk with ⟨e, he⟩ | ⟨err, he⟩
        · rw [he, query_nil] at h
          rw [he, query_nil]
          exact h
        · rw [he] at h
          cases h
    · have hnc := queryStep_non_container lib (fun v ks => query lib v true safe ks) c true safe
        k [] ⟨hm, hst, fun h => hsq (Or.inl h), fun h => hsq (Or.inr h)⟩
      simp only [queryStep, hv, htc, Bool.not_true, Bool.false_eq_true, if_false] at h
      rw [hnc] at h
      cases h

theorem query_mono (lib : Lib) (safe : Bool) :
    ∀ (keys : List String) (v r : Value), (∀ k ∈ keys, containsEq k = false) →
      query lib v true safe keys = .ok r → query lib v false safe keys = .ok r
  | [], v, r, _, h => by
    rw [query_unfold] at h ⊢
    exact h
  | k :: rest, v, r, hk, h => by
    have hk1 : ∀ x ∈ [k], containsEq x = false := by
      intro x hx
      exact hk x (by simp only [List.mem_singleton] at hx; subst hx; exact List.mem_cons_self _ _)
    have hrest : ∀ x ∈ rest, containsEq x = false :=
      fun x hx => hk x (List.mem_cons_of_mem _ hx)
    have ht := query_append lib true safe rest [k] v hk1
    have hf := query_append lib false safe rest [k] v hk1
    simp only [List.singleton_append] at ht hf
    rw [ht] at h
    cases hq : query lib v true safe [k] with
    | panic m => rw [hq] at h; cases h
    | err e => rw [hq] at h; cases h
    | ok w =>
      rw [hq] at h
      have h1 := query_single_mono lib v safe k w (hk k (List.mem_cons_self _ _)) hq
      rw [hf, h1]
      exact query_mono lib safe rest w r hrest h

/-- C36: case-sensitive matching only removes successes: for every Value, `safe` flag
and key list in which no key contains `=`, when `query` returns `r` with
`caseSensitive = true` it returns the same `r` with `caseSensitive = false`. -/
theorem C36_case_only_removes (lib : Lib) (v r : Value) (safe : Bool) (keys : List String)
    (hk : ∀ k ∈ keys, containsEq k = false)
    (h : query lib v true safe keys = .ok r) :
    query lib v false safe keys = .ok r :=
  query_mono lib safe keys v r hk h

/-- C36 on the struct `person`: the path `Name` resolves with and without
case-sensitive matching; the path `name` resolves only without. -/
theorem C36_witness :
    query plainLib (.val false person) false true ["Name"] = .ok (.val false (.str "Vin Mars"))
    ∧ query plainLib (.val false person) false true ["name"]
        = .ok (.val false (.str "Vin Mars"))
    ∧ (∃ e, query plainLib (.val false person) true true ["name"] = .err e) :=
  ⟨C36_case_only_removes plainLib (.val false person) (.val false (.str "Vin Mars")) true
      ["Name"] (by decide) (by rfl),
   by rfl, ⟨_, by rfl⟩⟩


/-! ## C33: termination -/

theorem head_append (a b : String) (c : Char) (h : a.data.head? = some c) :
    (a ++ b).data.head? = some c := by
  rw [String.data_append]
  cases hd : a.data with
  | nil => rw [hd] at h; cases h
  | cons x xs => rw [hd] at h; simpa using h

theorem mapIndex_panic_head (w : Value) (key : MapKey) (m : String)
    (h : mapIndex w key = .panic m) : m.data.head? = some 'r' := by
  unfold mapIndex at h
  split at h
  · split at h
    · cases h
    · cases h
    · cases h
      exact head_append _ _ 'r' (by decide)
    · cases h
  · split at h
    · cases h
    · cases h
    · cases h
      exact head_append _ _ 'r' (by decide)
    · cases h
  · cases h
    decide

theorem toConcreteElem_ne_panic (lib : Lib) (v : Value) (safe : Bool) (depth : Nat)
    (m : String) : toConcreteElem lib v safe depth ≠ .panic m := by
  intro h
  have hp := toConcreteElem_not_panic lib v safe depth
  rw [h] at hp
  cases hp

theorem filterLoop_panic (lib : Lib) (recur : Value → List String → Outcome) (safe ro : Bool)
    (k queryAttr currentKey : String) (remainKeys : List String)
    (hrec : ∀ v ks m, recur v ks = .panic m → m.data.head? = some 'r') :
    ∀ (elems : List GoVal) (m : String),
      filterLoop lib recur safe ro k queryAttr currentKey remainKeys elems = .panic m →
        m.data.head? = some 'r' := by
  intro elems
  induction elems with
  | nil => intro m h; cases h
  | cons x rest ih =>
    intro m h
    simp only [filterLoop] at h
    split at h
    · rename_i m1 hm1
      cases h
      exact hrec _ _ _ hm1
    · exact ih m h
    · split at h
      · exact ih m h
      · split at h
        · rename_i m1 hm1
          exact absurd hm1 (toConcreteElem_ne_panic _ _ _ _ _)
        · exact ih m h
        · split at h
          · exact ih m h
          · split at h
            · rename_i m1 hm1
              cases h
              exact hrec _ _ _ hm1
            · exact ih m h
            · cases h

theorem querySeq_panic (lib : Lib) (recur : Value → List String → Outcome) (safe ro : Bool)
    (elems : List GoVal) (currentKey : String) (remainKeys : List String)
    (hrec : ∀ v ks m, recur v ks = .panic m → m.data.head? = some 'r') (m : String)
    (h : querySeq lib recur safe ro elems currentKey remainKeys = .panic m) :
    m.data.head? = some 'r' := by
  unfold querySeq at h
  split at h
  · split at h
    · exact filterLoop_panic lib recur safe ro _ _ _ _ hrec _ m h
    · cases h
  · simp only [] at h
    split at h
    · cases h
    · split at h
      · cases h
      · split at h
        · cases h
          decide
        · split at h
          · rename_i m1 hm1
            cases h
            exact hrec _ _ _ hm1
          · cases h
          · cases h

theorem mapStep_panic (recur : Value → List String → Outcome) (value : Value) (key : MapKey)
    (currentKey : String) (remainKeys : List String)
    (hrec : ∀ v ks m, recur v ks = .panic m → m.data.head? = some 'r') (m : String)
    (h : (match mapIndex value key with
          | .panic m => Outcome.panic m
          | .err e => .err e
          | .ok fieldValue =>
            if !fieldValue.isValid then
              .err (newQueryError none ErrNotFound
                ("[map] value not found by key " ++ currentKey))
            else
              match recur fieldValue remainKeys with
              | .panic m => .panic m
              | .err err =>
                .err (newQueryError (some (.query err)) ErrNotFound
                  ("[map] query keys: " ++ fmtKeys remainKeys))
              | .ok value => .ok value) = .panic m) :
    m.data.head? = some 'r' := by
  split at h
  · rename_i m1 hm1
    cases h
    exact mapIndex_panic_head _ _ _ hm1
  · cases h
  · split at h
    · cases h
    · split at h
      · rename_i m1 hm1
        cases h
        exact hrec _ _ _ hm1
      · cases h
      · cases h

theorem queryStep_panic (lib : Lib) (recur : Value → List String → Outcome) (value : Value)
    (caseSensitive safe : Bool) (keys : List String)
    (hrec : ∀ v ks m, recur v ks = .panic m → m.data.head? = some 'r') (m : String)
    (h : queryStep lib recur value caseSensitive safe keys = .panic m) :
    m.data.head? = some 'r' := by
  unfold queryStep at h
  split at h
  · cases h
  · split at h
    · cases h
    · split at h
      · rename_i m1 hm1
        exact absurd hm1 (toConcreteElem_ne_panic _ _ _ _ _)
      · cases h
      · split at h
        · exact mapStep_panic recur _ _ _ _ hrec m h
        · exact mapStep_panic recur _ _ _ _ hrec m h
        · simp only [] at h
          split at h
          · cases h
          · split at h
            · cases h
            · split at h
              · rename_i m1 hm1
                cases h
                exact hrec _ _ _ hm1
              · cases h
              · cases h
        · exact querySeq_panic lib recur safe _ _ _ _ hrec m h
        · exact querySeq_panic lib recur safe _ _ _ _ hrec m h
        · cases h

/-- A panic of `query` is a panic of `reflect`, never the exhausted budget. -/
theorem query_panic_head (lib : Lib) (caseSensitive safe : Bool) :
    ∀ (n : Nat) (keys : List String), keysSize keys ≤ n →
      ∀ (v : Value) (m : String), query lib v caseSensitive safe keys = .panic m →
        m.data.head? = some 'r' := by
  intro n
  induction n with
  | zero =>
    intro keys hn v m h
    rw [query_unfold,
      queryStep_congr lib _ (fun w _ => Outcome.ok w) v caseSensitive safe keys
        (fun w ks hks => by omega)] at h
    exact queryStep_panic lib _ v caseSensitive safe keys (fun _ _ _ hc => by cases hc) m h
  | succ n ih =>
    intro keys hn v m h
    rw [query_unfold,
      queryStep_congr lib _
        (fun w ks => if keysSize ks < keysSize keys then query lib w caseSensitive safe ks
          else Outcome.ok w) v caseSensitive safe keys
        (fun w ks hks => by simp only [hks, if_true])] at h
    refine queryStep_panic lib _ v caseSensitive safe keys ?_ m h
    intro w ks m1 hm1
    by_cases hks : keysSize ks < keysSize keys
    · simp only [hks, if_true] at hm1
      exact ih ks (by omega) w m1 hm1
    · simp only [hks, if_false] at hm1
      cases hm1

/-- The recursion of `toConcreteElem` in the source: the guard on the depth, one layer
removed, and the recursive call with the depth increased by one. -/
theorem toConcreteElem_unfold (lib : Lib) (value : Value) (safe : Bool) (depth : Nat) :
    toConcreteElem lib value safe depth
      = if 10 < depth then
          .err (newQueryError none ErrNotFound
            ("get concret elem exceed max depth " ++ Nat.repr depth))
        else
          match unwrapOnce lib value safe with
          | .error e => .err e
          | .ok v =>
            if v.kind == .Interface || v.kind == .Pointer then
              toConcreteElem lib v safe (depth + 1)
            else .ok v := by
  unfold toConcreteElem
  by_cases hd : 10 < depth
  · have hb : 11 - depth = 0 := by omega
    simp only [hd, if_true, hb, toConcreteElemFrom]
  · obtain ⟨b, hb⟩ : ∃ b, 11 - depth = b + 1 := ⟨10 - depth, by omega⟩
    have hb2 : 11 - (depth + 1) = b := by omega
    simp only [hd, if_false, hb, hb2, toConcreteElemFrom]

theorem splitN2_attr_shorter (k attr lit : String) (hc : containsEq k = true)
    (hs : splitN2 k = [attr, lit]) : attr.length < k.length := by
  simp only [splitN2, hc, if_true, List.cons.injEq, and_true] at hs
  obtain ⟨h1, _⟩ := hs
  rw [← h1]
  exact takeWhile_length_lt k.data hc

/-- C33: `query` terminates on every Value and every key list: with any budget above
the size of the key list (its keys and their characters) the bounded recursion returns
the result of `query`, which is never the exhausted budget; `query` obeys the
recursion of the source, whose recursive calls are all on key lists of a smaller size
(the remaining keys, and for a filter `attr=lit` the shorter single key `attr`); and
each call of `toConcreteElem` fails when its depth is above 10 and otherwise recurses
with the depth increased by one. -/
theorem C33_query_terminates (lib : Lib) (caseSensitive safe : Bool) (value : Value)
    (keys : List String) :
    (∀ fuel, keysSize keys < fuel →
        queryFuel lib caseSensitive safe fuel value keys
          = query lib value caseSensitive safe keys)
    ∧ query lib value caseSensitive safe keys ≠ .panic "query: recursion budget exhausted"
    ∧ query lib value caseSensitive safe keys
        = queryStep lib (fun v ks => query lib v caseSensitive safe ks) value caseSensitive safe
            keys
    ∧ (∀ r1 r2 : Value → List String → Outcome,
        (∀ v ks, keysSize ks < keysSize keys → r1 v ks = r2 v ks) →
        queryStep lib r1 value caseSensitive safe keys
          = queryStep lib r2 value caseSensitive safe keys)
    ∧ (∀ (k : String) (rest : List String), keysSize rest < keysSize (k :: rest))
    ∧ (∀ (k attr lit : String) (rest : List String), containsEq k = true →
        splitN2 k = [attr, lit] → keysSize [attr] < keysSize (k :: rest))
    ∧ (∀ depth, toConcreteElem lib value safe depth
        = if 10 < depth then
            .err (newQueryError none ErrNotFound
              ("get concret elem exceed max depth " ++ Nat.repr depth))
          else
            match unwrapOnce lib value safe with
            | .error e => .err e
            | .ok v =>
              if v.kind == .Interface || v.kind == .Pointer then
                toConcreteElem lib v safe (depth + 1)
              else .ok v) := by
  refine ⟨?_, ?_, query_unfold lib value caseSensitive safe keys, ?_, ?_, ?_,
    toConcreteElem_unfold lib value safe⟩
  · intro fuel hf
    exact queryFuel_stable lib caseSensitive safe (keysSize keys) fuel value keys hf
      (Nat.le_refl _)
  · intro h
    have hh := query_panic_head lib caseSensitive safe (keysSize keys) keys (Nat.le_refl _)
      value _ h
    revert hh
    decide
  · intro r1 r2 h
    exact queryStep_congr lib r1 r2 value caseSensitive safe keys h
  · intro k rest
    simp only [keysSize]
    omega
  · intro k attr lit rest hc hs
    have := splitN2_attr_shorter k attr lit hc hs
    simp only [keysSize]
    omega

/-- C33 on the filter path `tags`, `=tag2` of the example: a budget of 100 gives the
result of `query`, and the attribute key of `d=d` is shorter than the filter. -/
theorem C33_witness :
    keysSize ["tags", "=tag2"] = 11
    ∧ queryFuel plainLib false false 100 (.val false tagged) ["tags", "=tag2"]
        = query plainLib (.val false tagged) false false ["tags", "=tag2"]
    ∧ query plainLib (.val false tagged) false false ["tags", "=tag2"]
        = .ok (.val true (.iface (.str "tag2")))
    ∧ keysSize ["d"] < keysSize ["d=d"] :=
  ⟨by decide,
   (C33_query_terminates plainLib false false (.val false tagged) ["tags", "=tag2"]).1 100
     (by decide),
   by rfl,
   (C33_query_terminates plainLib false false .invalid []).2.2.2.2.2.1 "d=d" "d" "d" []
     (by decide) (by decide)⟩

end Goget
